import Mathlib

/-!
# GMS: gym management system (final.cpp)

A shallow embedding of the record store and of the service operations of
`GymManagement` in `src/final.cpp`, and the properties proved about them.

Modelling conventions.

* A C++ `int` is a `CInt`: an integer in the 32-bit two's complement range.
  `++` and `--` are `CInt.inc` and `CInt.dec`, which wrap modulo `2^32`.
* A `std::vector` is a `List`, a `std::string` is a `String`.
* Every operation of `GymManagement` starts with `load*()` and ends, on the
  paths that change something, with `save*()`.  A `Store` holds the three
  collections as `load*()` returns them; the store an operation returns holds
  the collections as they were handed to `save*()`, and the old collection
  where the operation does not save.  The text fields are written without
  escaping, so what the next operation loads can differ from what was handed
  to `saveClasses`: `Store.reloaded` is the store with the classes read back
  from the text written.
* The console is the "input provider" of the specification: a prompt that
  reads a string is modelled by the string it returns, a prompt that reads a
  number within a range by the list of the numbers typed, on which the range
  check of `get_numeric_input` is run.  Input that ends before the answer is
  given is the end-of-input exit of `handle_cin_eof`.
* The content of a file is a `String`, a missing file the empty one.  A stream
  is an `IStream`; `getline`, `stoi` and `to_string` follow the C++ library.
  An exception is a value: `Conversion` for what `stoi` throws, `Decoded` for
  what `fromString` catches or lets through, `Loaded` for a load that returns
  or is ended by an uncaught exception.  `std::stof` and
  `std::to_string(float)` are parameters of the trainee codec.  The `id` that
  `Trainer()` and `Trainee()` leave uninitialised holds a value that may
  differ from one call of `fromString` to the next: the loaders take it as a
  function of the number of the call.
* The two `float` fields of a trainee are stored as the numbers they stand
  for.  The arithmetic of `calculateBMI` is done on `F32`, IEEE 754 binary32
  with rounding to nearest, ties to even: a finite `float` is a whole number
  of units of `2^-149`, and `*` and `/` round the exact result.
* `std::sort` with the comparator `a.schedule < b.schedule` is a sort of the
  list by the characters of the schedule text; a schedule view is the list of
  the rows it prints, heading by heading.
-/

namespace GMS

/-! ## Machine integers -/

/-- A C++ `int`: a 32-bit two's complement integer. -/
structure CInt where
  val : Int
  inRange : -2147483648 ≤ val ∧ val ≤ 2147483647
deriving DecidableEq

/-- Conversion of a mathematical integer to `int`, wrapping modulo `2^32`. -/
def CInt.wrap (i : Int) : CInt :=
  ⟨(i + 2147483648) % 4294967296 - 2147483648, by omega⟩

/-- The C++ `x++` on an `int`. -/
def CInt.inc (x : CInt) : CInt := CInt.wrap (x.val + 1)

/-- The C++ `x--` on an `int`. -/
def CInt.dec (x : CInt) : CInt := CInt.wrap (x.val - 1)

/-! ## Records -/

/-- The `struct Trainer`. -/
structure Trainer where
  id : CInt
  name : String
  specialization : String
  contact : String
  password : String
deriving DecidableEq

/-- The `struct Trainee`.  The two `float` fields are carried as rationals;
the operations modelled here only ever store `0` in them. -/
structure Trainee where
  id : CInt
  name : String
  contact : String
  password : String
  membership_package : String
  membership_duration_months : CInt
  payment_status : String
  height_m : ℚ
  weight_kg : ℚ
deriving DecidableEq

/-- The `struct GymClass`. -/
structure GymClass where
  className : String
  schedule : String
  trainerName : String
  capacity : CInt
  enrolled : CInt
  enrolledTraineeIds : List CInt
deriving DecidableEq

/-- The constructor `Trainee(id, name, contact, password, package, duration)`. -/
def Trainee.new (id : CInt) (name contact password package : String) (duration : CInt) :
    Trainee :=
  { id := id, name := name, contact := contact, password := password,
    membership_package := package, membership_duration_months := duration,
    payment_status := "Paid", height_m := 0, weight_kg := 0 }

/-- The constructor `GymClass(className, schedule, trainerName, capacity)`. -/
def GymClass.new (className schedule trainerName : String) (capacity : CInt) : GymClass :=
  { className := className, schedule := schedule, trainerName := trainerName,
    capacity := capacity, enrolled := CInt.wrap 0, enrolledTraineeIds := [] }

/-- The three collections behind `trainees.txt`, `trainers.txt` and
`classes.txt`, as `loadTrainees`, `loadTrainers` and `loadClasses` return them. -/
structure Store where
  trainees : List Trainee
  trainers : List Trainer
  classes : List GymClass
deriving DecidableEq

/-! ## Sign-up -/

/-- What `signUpForClass` reports. -/
inductive SignUpResult where
  | Success
  | NotPremium
  | ClassNotFound
  | AlreadyEnrolled
  | ClassFull
deriving DecidableEq, Repr

/-- The loop `for (auto& c : classes)` of `signUpForClass`: the first class
whose name is `className` decides the outcome, and the function returns from
inside the loop.  The list returned is the class list after the call. -/
def signUpForClass.loop (traineeId : CInt) (className : String) :
    List GymClass → SignUpResult × List GymClass
  | [] => (SignUpResult.ClassNotFound, [])
  | c :: rest =>
    if c.className = className then
      if traineeId ∈ c.enrolledTraineeIds then
        (SignUpResult.AlreadyEnrolled, c :: rest)
      else if c.enrolled.val < c.capacity.val then
        (SignUpResult.Success,
          { c with enrolled := c.enrolled.inc,
                   enrolledTraineeIds := c.enrolledTraineeIds ++ [traineeId] } :: rest)
      else
        (SignUpResult.ClassFull, c :: rest)
    else
      ((signUpForClass.loop traineeId className rest).1,
        c :: (signUpForClass.loop traineeId className rest).2)

/-- `GymManagement::signUpForClass(trainee, className)`. -/
def signUpForClass (trainee : Trainee) (className : String) (s : Store) :
    SignUpResult × Store :=
  if trainee.membership_package ≠ "Premium" then
    (SignUpResult.NotPremium, s)
  else
    ((signUpForClass.loop trainee.id className s.classes).1,
      { s with classes := (signUpForClass.loop trainee.id className s.classes).2 })

/-! ## Input provider -/

/-- `InputUtils::get_numeric_input<int>(prompt, min, max)`: the loop asks again
until an answer lies in `[min, max]`; `answers` are the numbers typed, in
order.  The result is `none` when the input ends before an accepted answer
(`handle_cin_eof` then leaves the program). -/
def get_numeric_input (answers : List CInt) (min max : CInt) : Option CInt :=
  answers.find? (fun value => decide (min.val ≤ value.val ∧ value.val ≤ max.val))

/-! ## Adding and deleting -/

/-- What `addClass` reports. -/
inductive AddClassResult where
  | Added
  | UnknownTrainer
  | EndOfInput
deriving DecidableEq, Repr

/-- `GymManagement::addClass()`.  `className`, `schedule` and `trainerName` are
the strings read by the first three prompts, `capacityAnswers` the numbers
typed at the capacity prompt, which accepts the range 1 to 100.  The store
returned holds the vector handed to `saveClasses`; what the next operation
loads from the text written is `Store.reloaded` of it. -/
def addClass (className schedule trainerName : String) (capacityAnswers : List CInt)
    (s : Store) : AddClassResult × Store :=
  match get_numeric_input capacityAnswers (CInt.wrap 1) (CInt.wrap 100) with
  | none => (AddClassResult.EndOfInput, s)
  | some capacity =>
    if s.trainers.any (fun t => decide (t.name = trainerName)) then
      (AddClassResult.Added,
        { s with classes := s.classes ++ [GymClass.new className schedule trainerName capacity] })
    else
      (AddClassResult.UnknownTrainer, s)

/-- What the three delete operations report. -/
inductive DeleteResult where
  | Deleted
  | NotFound
deriving DecidableEq, Repr

/-- The body of the loop over the classes in `deleteTrainee`: `find` the id,
and when it is there `erase` that one position and decrement `enrolled`. -/
def deleteTrainee.unenroll (id : CInt) (c : GymClass) : GymClass :=
  if id ∈ c.enrolledTraineeIds then
    { c with enrolledTraineeIds := c.enrolledTraineeIds.erase id,
             enrolled := c.enrolled.dec }
  else c

/-- `GymManagement::deleteTrainee(id)`: `remove_if` followed by `erase` keeps the
trainees with another id, in order. -/
def deleteTrainee (id : CInt) (s : Store) : DeleteResult × Store :=
  if s.trainees.any (fun t => decide (t.id = id)) then
    (DeleteResult.Deleted,
      { s with trainees := s.trainees.filter (fun t => !decide (t.id = id)),
               classes := s.classes.map (deleteTrainee.unenroll id) })
  else
    (DeleteResult.NotFound, s)

/-- `GymManagement::deleteTrainer(id)`: the name is taken from the first trainer
with that id; every trainer with that id and every class with that trainer
name is removed. -/
def deleteTrainer (id : CInt) (s : Store) : DeleteResult × Store :=
  match s.trainers.find? (fun t => decide (t.id = id)) with
  | none => (DeleteResult.NotFound, s)
  | some t =>
    (DeleteResult.Deleted,
      { s with trainers := s.trainers.filter (fun u => !decide (u.id = id)),
               classes := s.classes.filter (fun c => !decide (c.trainerName = t.name)) })

/-- `GymManagement::deleteClass(className)`. -/
def deleteClass (className : String) (s : Store) : DeleteResult × Store :=
  if s.classes.any (fun c => decide (c.className = className)) then
    (DeleteResult.Deleted,
      { s with classes := s.classes.filter (fun c => !decide (c.className = className)) })
  else
    (DeleteResult.NotFound, s)

/-! ## Registration -/

/-- `GymManagement::getCost(package, duration)`. -/
def getCost (package : String) (duration : CInt) : CInt :=
  if package = "Basic" then
    (if duration = CInt.wrap 3 then CInt.wrap 100 else CInt.wrap 180)
  else if package = "Premium" then
    (if duration = CInt.wrap 3 then CInt.wrap 150 else CInt.wrap 270)
  else CInt.wrap 0

/-- A line of what `registerTrainee` and `addTrainer` print. -/
inductive Report where
  | DuplicateID
  | Cancelled
  | Success
  | EndOfInput
deriving DecidableEq, Repr

/-- The loop `while (true)` that asks for a new id, in `registerTrainee` and in
`addTrainer`: an id that is already in the loaded collection is reported and
the question is asked again.  `answers` are the ids typed (the prompt accepts
every `int`).  Returns the reports and the accepted id, `none` when the input
ends first. -/
def askNewId (existing : List CInt) : List CInt → List Report × Option CInt
  | [] => ([Report.EndOfInput], none)
  | id :: more =>
    if existing.any (fun e => decide (e = id)) then
      (Report.DuplicateID :: (askNewId existing more).1, (askNewId existing more).2)
    else
      ([], some id)

/-- The answers to the prompts of `addTrainer` that follow the id. -/
structure TrainerForm where
  name : String
  specialization : String
  contact : String
  password : String
deriving DecidableEq

/-- The outcome of `addTrainer`: what was reported, and the collection handed to
`saveTrainers` (`none` when `saveTrainers` was not called). -/
structure AddTrainerOutcome where
  log : List Report
  saved : Option (List Trainer)
deriving DecidableEq

/-- `GymManagement::addTrainer()`.  `idAnswers` are the ids typed at the id
prompt, `form` the answers to the prompts after it (`none` when the input ends
before the last of them). -/
def addTrainer (trainers : List Trainer) (idAnswers : List CInt) (form : Option TrainerForm) :
    AddTrainerOutcome :=
  match askNewId (trainers.map (fun t => t.id)) idAnswers with
  | (log, none) => { log := log, saved := none }
  | (log, some id) =>
    match form with
    | none => { log := log ++ [Report.EndOfInput], saved := none }
    | some f =>
      { log := log ++ [Report.Success],
        saved := some (trainers ++ [Trainer.mk id f.name f.specialization f.contact f.password]) }

/-- The answers to the prompts of `registerTrainee` that follow the id.  The
password is asked for only after a confirmed registration. -/
structure TraineeForm where
  name : String
  contact : String
  packageAnswers : List CInt
  durationAnswers : List CInt
  confirm : Option Bool
  password : Option String
deriving DecidableEq

/-- The outcome of `registerTrainee`: what was reported, the cost displayed, and
the collection handed to `saveTrainees` (`none` when it was not called). -/
structure RegisterOutcome where
  log : List Report
  cost : Option CInt
  saved : Option (List Trainee)
deriving DecidableEq

/-- `GymManagement::registerTrainee()`. -/
def registerTrainee (trainees : List Trainee) (idAnswers : List CInt)
    (form : Option TraineeForm) : RegisterOutcome :=
  match askNewId (trainees.map (fun t => t.id)) idAnswers with
  | (log, none) => { log := log, cost := none, saved := none }
  | (log, some id) =>
    match form with
    | none => { log := log ++ [Report.EndOfInput], cost := none, saved := none }
    | some f =>
      match get_numeric_input f.packageAnswers (CInt.wrap 1) (CInt.wrap 2),
            get_numeric_input f.durationAnswers (CInt.wrap 1) (CInt.wrap 2) with
      | some package_choice, some duration_choice =>
        let package := if package_choice = CInt.wrap 2 then "Premium" else "Basic"
        let package_duration := if duration_choice = CInt.wrap 2 then CInt.wrap 6 else CInt.wrap 3
        let cost := getCost package package_duration
        match f.confirm, f.password with
        | some true, some password =>
          { log := log ++ [Report.Success], cost := some cost,
            saved := some (trainees ++
              [Trainee.new id f.name f.contact password package package_duration]) }
        | some false, _ => { log := log ++ [Report.Cancelled], cost := some cost, saved := none }
        | _, _ => { log := log ++ [Report.EndOfInput], cost := some cost, saved := none }
      | _, _ => { log := log ++ [Report.EndOfInput], cost := none, saved := none }

/-- The trainer collection on file after `addTrainer`. -/
def trainersAfter (trainers : List Trainer) (o : AddTrainerOutcome) : List Trainer :=
  o.saved.getD trainers

/-- The trainee collection on file after `registerTrainee`. -/
def traineesAfter (trainees : List Trainee) (o : RegisterOutcome) : List Trainee :=
  o.saved.getD trainees

/-! ## Invariants -/

/-- The enrolled-count invariant of one class:
`enrolled == len(enrolledTraineeIds) <= capacity`. -/
def GymClass.enrolledOk (c : GymClass) : Prop :=
  c.enrolled.val = (c.enrolledTraineeIds.length : Int) ∧ c.enrolled.val ≤ c.capacity.val

instance (c : GymClass) : Decidable c.enrolledOk := by
  unfold GymClass.enrolledOk; infer_instance

/-- The enrolled-count invariant of a store: it holds of every class. -/
def Store.enrolledInvariant (s : Store) : Prop :=
  ∀ c ∈ s.classes, c.enrolledOk

instance (s : Store) : Decidable s.enrolledInvariant := by
  unfold Store.enrolledInvariant; infer_instance

/-- Referential integrity of the classes: the trainer name of every class is
the name of a stored trainer. -/
def Store.noOrphanedClasses (s : Store) : Prop :=
  ∀ c ∈ s.classes, ∃ t ∈ s.trainers, t.name = c.trainerName

instance (s : Store) : Decidable s.noOrphanedClasses := by
  unfold Store.noOrphanedClasses; infer_instance

/-- The ids of a trainer collection are pairwise distinct. -/
def distinctTrainerIds (trainers : List Trainer) : Prop :=
  (trainers.map (fun t => t.id)).Nodup

instance (trainers : List Trainer) : Decidable (distinctTrainerIds trainers) := by
  unfold distinctTrainerIds; infer_instance

/-- The ids of a trainee collection are pairwise distinct. -/
def distinctTraineeIds (trainees : List Trainee) : Prop :=
  (trainees.map (fun t => t.id)).Nodup

instance (trainees : List Trainee) : Decidable (distinctTraineeIds trainees) := by
  unfold distinctTraineeIds; infer_instance

/-! ## Sample data -/

/-- A trainer. -/
def alex : Trainer := ⟨CInt.wrap 1, "Alex", "Yoga", "0123456789", "pw1"⟩

/-- A Premium trainee. -/
def bob : Trainee := Trainee.new (CInt.wrap 5) "Bob" "0123456780" "pw5" "Premium" (CInt.wrap 3)

/-- A second Premium trainee. -/
def cara : Trainee := Trainee.new (CInt.wrap 7) "Cara" "0123456781" "pw7" "Premium" (CInt.wrap 6)

/-- A Basic trainee. -/
def dan : Trainee := Trainee.new (CInt.wrap 9) "Dan" "0123456782" "pw9" "Basic" (CInt.wrap 3)

/-- A full class: one place, taken by trainee 5. -/
def pilates : GymClass :=
  ⟨"Pilates", "Fri-09:00", "Alex", CInt.wrap 1, CInt.wrap 1, [CInt.wrap 5]⟩

/-- A class with one free place: two places, one taken by trainee 7. -/
def yoga : GymClass :=
  ⟨"Yoga", "Mon-10:00", "Alex", CInt.wrap 2, CInt.wrap 1, [CInt.wrap 7]⟩

/-- A store with three trainees, one trainer and two classes. -/
def sampleStore : Store := ⟨[bob, cara, dan], [alex], [pilates, yoga]⟩

/-- A class whose id list names trainee 5 twice, as a line of `classes.txt`
edited by hand can; the enrolled count agrees with the length of the list. -/
def spin : GymClass :=
  ⟨"Spin", "Wed-18:00", "Alex", CInt.wrap 3, CInt.wrap 2, [CInt.wrap 5, CInt.wrap 5]⟩

/-- A store whose only class lists trainee 5 twice. -/
def duplicateEnrolmentStore : Store := ⟨[bob], [alex], [spin]⟩

/-- A second trainer record carrying the id of `alex`. -/
def blake : Trainer := ⟨CInt.wrap 1, "Blake", "HIIT", "0123456783", "pw2"⟩

/-- A class taught by Blake. -/
def hiit : GymClass := ⟨"HIIT", "Tue-09:00", "Blake", CInt.wrap 10, CInt.wrap 0, []⟩

/-- A store in which two trainers share the id 1. -/
def sharedIdStore : Store := ⟨[], [alex, blake], [yoga, hiit]⟩

/-- A trainer with an id of her own. -/
def casey : Trainer := ⟨CInt.wrap 2, "Casey", "Barre", "0123456784", "pw3"⟩

/-- A class taught by Casey. -/
def barre : GymClass := ⟨"Barre", "Thu-17:30", "Casey", CInt.wrap 8, CInt.wrap 0, []⟩

/-- A store with two trainers of distinct ids, each teaching a class. -/
def twoTrainerStore : Store := ⟨[cara], [alex, casey], [yoga, barre, pilates]⟩

/-- Answers to the prompts of `addTrainer` after the id. -/
def sampleTrainerForm : TrainerForm := ⟨"Drew", "Boxing", "0123456785", "pw4"⟩

/-- Answers to the prompts of `registerTrainee` after the id: Premium for six
months, confirmed. -/
def sampleTraineeForm : TraineeForm :=
  ⟨"Erin", "0123456786", [CInt.wrap 3, CInt.wrap 2], [CInt.wrap 2], some true, some "pw6"⟩

/-! ## Text: numbers -/

/-- The decimal digits of `n`, most significant first; `fuel` bounds their
number, and `n + 1` is always enough. -/
def decimalDigits : Nat → Nat → List Char
  | 0, _ => []
  | fuel + 1, n =>
    if n < 10 then [Char.ofNat (48 + n)]
    else decimalDigits fuel (n / 10) ++ [Char.ofNat (48 + n % 10)]

/-- `std::to_string(int)`: the decimal digits of the absolute value, after a
minus sign when the value is negative. -/
def to_string (v : CInt) : String :=
  if v.val < 0 then String.mk ('-' :: decimalDigits (v.val.natAbs + 1) v.val.natAbs)
  else String.mk (decimalDigits (v.val.natAbs + 1) v.val.natAbs)

/-- The C `isspace` of the default locale: space, `\t`, `\n`, `\v`, `\f`, `\r`. -/
def isspace (c : Char) : Bool :=
  c.toNat = 32 || (9 ≤ c.toNat && c.toNat ≤ 13)

/-- The number written by a list of decimal digits. -/
def digitsValue (ds : List Char) : Nat :=
  ds.foldl (fun acc c => 10 * acc + (c.toNat - 48)) 0

/-- What a call of `std::stoi` or `std::stof` does: it returns a value or throws
`std::invalid_argument` or `std::out_of_range`. -/
inductive Conversion (α : Type) where
  | value (v : α)
  | invalid_argument
  | out_of_range
deriving DecidableEq

/-- The sign that `strtol` reads after the leading white space is dropped. -/
def stoi.afterSign : List Char → List Char
  | [] => []
  | c :: cs => if c = '-' ∨ c = '+' then cs else c :: cs

/-- `std::stoi(str)`: leading white space is skipped, an optional sign and the
longest run of decimal digits are read and what follows is ignored; no digit is
`std::invalid_argument`, a value that does not fit an `int` is
`std::out_of_range`. -/
def stoi (str : String) : Conversion CInt :=
  let text := str.data.dropWhile isspace
  let digits := (stoi.afterSign text).takeWhile Char.isDigit
  if digits = [] then Conversion.invalid_argument
  else
    let v : Int := if text.head? = some '-' then -(digitsValue digits : Int) else digitsValue digits
    if h : -2147483648 ≤ v ∧ v ≤ 2147483647 then Conversion.value ⟨v, h⟩
    else Conversion.out_of_range

/-! ## Text: streams -/

/-- An input stream (`std::stringstream`, `std::ifstream`): the characters not
yet read, and whether the stream is still `good()`, that is neither `eofbit`
nor `failbit` is set. -/
structure IStream where
  rest : List Char
  good : Bool
deriving DecidableEq

/-- A stream opened on a text. -/
def IStream.ofString (text : String) : IStream := ⟨text.data, true⟩

/-- The characters before the first `delim`, and the characters after it when
there is one. -/
def untilDelim (delim : Char) : List Char → List Char × Option (List Char)
  | [] => ([], none)
  | c :: cs =>
    if c = delim then ([], some cs)
    else (c :: (untilDelim delim cs).1, (untilDelim delim cs).2)

/-- `std::getline(stream, str, delim)`: the stream after the call, `str` after
the call, and whether the call succeeded (`!stream.fail()`).  On a stream that
is not `good()` the call fails and leaves `str` alone.  Otherwise `str` is
erased and receives the characters up to the delimiter, which is consumed; when
the end of the text comes first `eofbit` is set, and also `failbit` when no
character was extracted. -/
def getline (stream : IStream) (str : String) (delim : Char) : IStream × String × Bool :=
  if stream.good then
    match untilDelim delim stream.rest with
    | (token, some after) => (⟨after, true⟩, String.mk token, true)
    | (token, none) => (⟨[], false⟩, String.mk token, !token.isEmpty)
  else (stream, str, false)

/-- The loop `while (getline(stream, str, delim)) body(str)`: the successive
values of `str` the body sees.  `fuel` bounds the number of rounds. -/
def getlines.loop (delim : Char) : Nat → IStream → String → List String
  | 0, _, _ => []
  | fuel + 1, stream, str =>
    if (getline stream str delim).2.2 then
      (getline stream str delim).2.1 ::
        getlines.loop delim fuel (getline stream str delim).1 (getline stream str delim).2.1
    else []

/-- The loop `while (getline(stream, str, delim))` on a stream opened on `text`;
every round but the last consumes a character, so `text.length + 1` rounds are
enough. -/
def getlines (text : String) (delim : Char) : List String :=
  getlines.loop delim (text.length + 1) (IStream.ofString text) ""

/-! ## Record codec -/

/-- What a call of `fromString` does: it returns a record without a message
(`clean`), it catches `std::invalid_argument`, prints "Error parsing ..." and
returns the record as far as it was filled (`reported`), or it is left by a
`std::out_of_range`, which it does not catch (`uncaught`). -/
inductive Decoded (α : Type) where
  | clean (record : α)
  | reported (record : α)
  | uncaught
deriving DecidableEq

/-- `Trainer::toString()`. -/
def Trainer.toString (t : Trainer) : String :=
  to_string t.id ++ "," ++ t.name ++ "," ++ t.specialization ++ "," ++ t.contact ++ "," ++
    t.password

/-- `Trainer::fromString(line)`.  `Trainer()` leaves `id` uninitialised: `uninit`
is the value it happens to hold in this call. -/
def Trainer.fromString (uninit : CInt) (line : String) : Decoded Trainer :=
  let r1 := getline (IStream.ofString line) "" ','
  match stoi r1.2.1 with
  | Conversion.out_of_range => Decoded.uncaught
  | Conversion.invalid_argument => Decoded.reported ⟨uninit, "", "", "", ""⟩
  | Conversion.value id =>
    let r2 := getline r1.1 "" ','
    let r3 := getline r2.1 "" ','
    let r4 := getline r3.1 "" ','
    let r5 := getline r4.1 "" ','
    Decoded.clean ⟨id, r2.2.1, r3.2.1, r4.2.1, r5.2.1⟩

/-- The loop of `GymClass::toString()` over `enrolledTraineeIds`: the ids in
decimal with a `;` after each one but the last. -/
def GymClass.idsToString : List CInt → String
  | [] => ""
  | [id] => to_string id
  | id :: next :: more => to_string id ++ ";" ++ GymClass.idsToString (next :: more)

/-- `GymClass::toString()`. -/
def GymClass.toString (c : GymClass) : String :=
  c.className ++ "," ++ c.schedule ++ "," ++ c.trainerName ++ "," ++
    to_string c.capacity ++ "," ++ to_string c.enrolled ++ "," ++
    GymClass.idsToString c.enrolledTraineeIds

/-- The body of the loop `while (getline(idStream, idStr, ';'))` of
`GymClass::fromString`, run over the successive values of `idStr`: an empty
one is passed over, the others go through `stoi` and are pushed; the ids pushed
before an exception stay in the record. -/
def GymClass.fromString.ids : List String → List CInt × Conversion Unit
  | [] => ([], Conversion.value ())
  | idStr :: more =>
    if idStr = "" then GymClass.fromString.ids more
    else
      match stoi idStr with
      | Conversion.value id =>
        (id :: (GymClass.fromString.ids more).1, (GymClass.fromString.ids more).2)
      | Conversion.invalid_argument => ([], Conversion.invalid_argument)
      | Conversion.out_of_range => ([], Conversion.out_of_range)

/-- `GymClass::fromString(line)`.  `GymClass()` sets `capacity` and `enrolled` to
0.  The string `item` is reused by the three last calls of `getline`. -/
def GymClass.fromString (line : String) : Decoded GymClass :=
  let r1 := getline (IStream.ofString line) "" ','
  let r2 := getline r1.1 "" ','
  let r3 := getline r2.1 "" ','
  let r4 := getline r3.1 "" ','
  match stoi r4.2.1 with
  | Conversion.out_of_range => Decoded.uncaught
  | Conversion.invalid_argument =>
    Decoded.reported ⟨r1.2.1, r2.2.1, r3.2.1, CInt.wrap 0, CInt.wrap 0, []⟩
  | Conversion.value capacity =>
    let r5 := getline r4.1 r4.2.1 ','
    match stoi r5.2.1 with
    | Conversion.out_of_range => Decoded.uncaught
    | Conversion.invalid_argument =>
      Decoded.reported ⟨r1.2.1, r2.2.1, r3.2.1, capacity, CInt.wrap 0, []⟩
    | Conversion.value enrolled =>
      let r6 := getline r5.1 r5.2.1 ','
      if r6.2.1 ≠ "" then
        match GymClass.fromString.ids (getlines r6.2.1 ';') with
        | (ids, Conversion.value _) =>
          Decoded.clean ⟨r1.2.1, r2.2.1, r3.2.1, capacity, enrolled, ids⟩
        | (ids, Conversion.invalid_argument) =>
          Decoded.reported ⟨r1.2.1, r2.2.1, r3.2.1, capacity, enrolled, ids⟩
        | (_, Conversion.out_of_range) => Decoded.uncaught
      else Decoded.clean ⟨r1.2.1, r2.2.1, r3.2.1, capacity, enrolled, []⟩

/-- `Trainee::toString()`.  `ftoa` stands for `std::to_string(float)`. -/
def Trainee.toString (ftoa : ℚ → String) (t : Trainee) : String :=
  to_string t.id ++ "," ++ t.name ++ "," ++ t.contact ++ "," ++ t.password ++ "," ++
    t.membership_package ++ "," ++ to_string t.membership_duration_months ++ "," ++
    t.payment_status ++ "," ++ ftoa t.height_m ++ "," ++ ftoa t.weight_kg

/-- `Trainee::fromString(line)`.  `stof` stands for `std::stof`.  `Trainee()` sets
the duration, the height and the weight to 0 and leaves `id` uninitialised:
`uninit` is the value it happens to hold in this call.  The string `item` is
reused. -/
def Trainee.fromString (stof : String → Conversion ℚ) (uninit : CInt) (line : String) :
    Decoded Trainee :=
  let r1 := getline (IStream.ofString line) "" ','
  match stoi r1.2.1 with
  | Conversion.out_of_range => Decoded.uncaught
  | Conversion.invalid_argument =>
    Decoded.reported ⟨uninit, "", "", "", "", CInt.wrap 0, "", 0, 0⟩
  | Conversion.value id =>
    let r2 := getline r1.1 "" ','
    let r3 := getline r2.1 "" ','
    let r4 := getline r3.1 "" ','
    let r5 := getline r4.1 "" ','
    let r6 := getline r5.1 r1.2.1 ','
    match stoi r6.2.1 with
    | Conversion.out_of_range => Decoded.uncaught
    | Conversion.invalid_argument =>
      Decoded.reported ⟨id, r2.2.1, r3.2.1, r4.2.1, r5.2.1, CInt.wrap 0, "", 0, 0⟩
    | Conversion.value duration =>
      let r7 := getline r6.1 "" ','
      let r8 := getline r7.1 r6.2.1 ','
      match stof r8.2.1 with
      | Conversion.out_of_range => Decoded.uncaught
      | Conversion.invalid_argument =>
        Decoded.reported ⟨id, r2.2.1, r3.2.1, r4.2.1, r5.2.1, duration, r7.2.1, 0, 0⟩
      | Conversion.value height =>
        let r9 := getline r8.1 r8.2.1 ','
        match stof r9.2.1 with
        | Conversion.out_of_range => Decoded.uncaught
        | Conversion.invalid_argument =>
          Decoded.reported ⟨id, r2.2.1, r3.2.1, r4.2.1, r5.2.1, duration, r7.2.1, height, 0⟩
        | Conversion.value weight =>
          Decoded.clean ⟨id, r2.2.1, r3.2.1, r4.2.1, r5.2.1, duration, r7.2.1, height, weight⟩

/-! ## Flat-file store -/

/-- What a call of `loadTrainers`, `loadTrainees` or `loadClasses` does: it
returns the records (`reportedLines` are the lines for which "Error parsing
..." was printed), or an exception that is not caught anywhere ends the
program. -/
inductive Loaded (α : Type) where
  | returned (records : List α) (reportedLines : List String)
  | terminated
deriving DecidableEq

/-- The loop `while (getline(file, line)) if (!line.empty()) push_back(fromString(line))`
of the three loaders, over the lines read.  Every call of `fromString` builds
a record of its own, so what an uninitialised field holds may differ from one
call to the next: `fromString` is given the number of the call, and `call`
counts the calls made so far. -/
def loadRecords {α : Type} (fromString : Nat → String → Decoded α) :
    Nat → List String → Loaded α
  | _, [] => Loaded.returned [] []
  | call, line :: more =>
    if line = "" then loadRecords fromString call more
    else
      match fromString call line, loadRecords fromString (call + 1) more with
      | Decoded.clean r, Loaded.returned rs reportedLines =>
        Loaded.returned (r :: rs) reportedLines
      | Decoded.reported r, Loaded.returned rs reportedLines =>
        Loaded.returned (r :: rs) (line :: reportedLines)
      | _, _ => Loaded.terminated

/-- `GymManagement::loadTrainers()` on the content of `trainers.txt` (the empty
text when the file is missing).  `uninit call` is what the uninitialised `id`
of the `Trainer t` built by call number `call` of `fromString` holds. -/
def loadTrainers (uninit : Nat → CInt) (file : String) : Loaded Trainer :=
  loadRecords (fun call => Trainer.fromString (uninit call)) 0 (getlines file (Char.ofNat 10))

/-- `GymManagement::loadTrainees()` on the content of `trainees.txt`; `uninit` as
for `loadTrainers`. -/
def loadTrainees (stof : String → Conversion ℚ) (uninit : Nat → CInt) (file : String) :
    Loaded Trainee :=
  loadRecords (fun call => Trainee.fromString stof (uninit call)) 0
    (getlines file (Char.ofNat 10))

/-- `GymManagement::loadClasses()` on the content of `classes.txt`; `GymClass()`
leaves no field uninitialised. -/
def loadClasses (file : String) : Loaded GymClass :=
  loadRecords (fun _ => GymClass.fromString) 0 (getlines file (Char.ofNat 10))

/-- `GymManagement::saveTrainers(trainers)`: the content written to
`trainers.txt`, one line per trainer. -/
def saveTrainers : List Trainer → String
  | [] => ""
  | t :: more => t.toString ++ "\n" ++ saveTrainers more

/-- `GymManagement::saveClasses(classes)`: the content written to `classes.txt`. -/
def saveClasses : List GymClass → String
  | [] => ""
  | c :: more => c.toString ++ "\n" ++ saveClasses more

/-- `GymManagement::saveTrainees(trainees)`: the content written to
`trainees.txt`. -/
def saveTrainees (ftoa : ℚ → String) : List Trainee → String
  | [] => ""
  | t :: more => t.toString ftoa ++ "\n" ++ saveTrainees ftoa more

/-! ## Login -/

/-- What the login operations report. -/
inductive LoginResult where
  | Success
  | InvalidCredentials
deriving DecidableEq, Repr

/-- The loop of `trainerLogin` over the loaded trainers: the first trainer with
that id and that password. -/
def trainerLogin.loop (id : CInt) (password : String) : List Trainer → Option Trainer
  | [] => none
  | t :: more =>
    if t.id = id ∧ t.password = password then some t
    else trainerLogin.loop id password more

/-- `GymManagement::trainerLogin(loggedInTrainer)`, with the id and the password
typed at its prompts: the report, and `loggedInTrainer` after the call. -/
def trainerLogin (trainers : List Trainer) (id : CInt) (password : String)
    (loggedInTrainer : Trainer) : LoginResult × Trainer :=
  match trainerLogin.loop id password trainers with
  | some t => (LoginResult.Success, t)
  | none => (LoginResult.InvalidCredentials, loggedInTrainer)

/-- The loop of `traineeLogin` over the loaded trainees. -/
def traineeLogin.loop (id : CInt) (password : String) : List Trainee → Option Trainee
  | [] => none
  | t :: more =>
    if t.id = id ∧ t.password = password then some t
    else traineeLogin.loop id password more

/-- `GymManagement::traineeLogin(loggedInTrainee)`. -/
def traineeLogin (trainees : List Trainee) (id : CInt) (password : String)
    (loggedInTrainee : Trainee) : LoginResult × Trainee :=
  match traineeLogin.loop id password trainees with
  | some t => (LoginResult.Success, t)
  | none => (LoginResult.InvalidCredentials, loggedInTrainee)

/-! ## Sample data for the codec, the login and the class operations -/

/-- A second class named Yoga, as `addClass` lets one be added. -/
def yogaEvening : GymClass :=
  ⟨"Yoga", "Sat-18:00", "Casey", CInt.wrap 5, CInt.wrap 0, []⟩

/-- A store in which two classes share the name Yoga. -/
def sharedNameStore : Store := ⟨[bob, cara], [alex, casey], [yoga, barre, yogaEvening]⟩

/-- A trainer without a password. -/
def drew : Trainer := ⟨CInt.wrap (-3), "Drew", "Boxing", "0123456785", ""⟩

/-- The content of a `trainers.txt` with three lines: the id field of the first
is not a number, the second has two fields instead of five, the third is well
formed. -/
def corruptTrainersFile : String :=
  "abc,Al,Yoga,0123456789,pw\n1,Bo\n2,Cy,Spin,0123456780,pw2\n"

/-- The content of a `trainers.txt` with three lines: the id field of the first
and of the third is not a number, the second is empty. -/
def twoCorruptIdsFile : String := "abc,Al\n\nxyz,Bo\n"

/-- The content of a `classes.txt` with two lines: the capacity field of the
first is not a number, the second has two fields instead of six. -/
def corruptClassesFile : String :=
  "Yoga,Mon-10:00,Alex,many,0,\nHIIT,Tue-09:00\n"

/-- The content of a `trainers.txt` whose second line has an id that is a digit
string above the greatest `int`. -/
def overflowTrainersFile : String :=
  "1,Al,Yoga,0123456789,pw\n99999999999,Bo,Spin,0123456780,pw2\n2,Cy,Spin,0123456780,pw2\n"

/-- The content of a `classes.txt` whose only line lists the id 4294967296. -/
def overflowClassesFile : String :=
  "Yoga,Mon-10:00,Alex,20,1,4294967296\n"

/-- The content of a `trainees.txt` whose only line has the id 2147483648. -/
def overflowTraineesFile : String :=
  "2147483648,Bo,0123456780,pw,Basic,3,Paid,0.000000,0.000000\n"

/-- The content of a `trainees.txt` with two lines: the first is well formed,
the duration field of the second is not a number. -/
def corruptTraineesFile : String :=
  "5,Bob,0123456780,pw5,Premium,3,Paid,0.000000,0.000000\n7,Cara,0123456781,pw7,Premium,six\n"

/-- A stand-in for `std::stof` that reads the one text `0.000000` and rejects
every other. -/
def sampleStof (s : String) : Conversion ℚ :=
  if s = "0.000000" then Conversion.value 0 else Conversion.invalid_argument

/-! ## Well-formed numbers in a line -/

/-- Canonical decimal digits: at least one digit, only digits, and no leading
`0` except in the one-digit text `0`. -/
def canonicalDigits (ds : List Char) : Bool :=
  !ds.isEmpty && ds.all Char.isDigit && (ds.head? != some '0' || ds.length == 1)

/-- The text is an `int` written as a canonical decimal number: canonical
digits that are at most 2147483647, or a minus sign followed by canonical
digits that are not `0` and at most 2147483648. -/
def isCanonicalInt (s : String) : Bool :=
  match s.data with
  | [] => false
  | c :: cs =>
    if c = '-' then
      canonicalDigits cs && cs.head? != some '0' && decide (digitsValue cs ≤ 2147483648)
    else
      canonicalDigits (c :: cs) && decide (digitsValue (c :: cs) ≤ 2147483647)

/-- The text holds no comma. -/
def commaFree (s : String) : Prop := ',' ∉ s.data

instance (s : String) : Decidable (commaFree s) := by
  unfold commaFree; infer_instance

/-- The text holds no line feed. -/
def lineFeedFree (s : String) : Prop := Char.ofNat 10 ∉ s.data

instance (s : String) : Decidable (lineFeedFree s) := by
  unfold lineFeedFree; infer_instance

/-- Tokens joined by a delimiter, none after the last. -/
def joinTokens (delim : Char) : List (List Char) → List Char
  | [] => []
  | [t] => t
  | t :: next :: more => t ++ delim :: joinTokens delim (next :: more)

/-! ## The classes on file after an operation -/

/-- The text can stand as one field of one line of a file: it holds neither a
comma nor a line feed. -/
def fieldText (s : String) : Prop := commaFree s ∧ lineFeedFree s

instance (s : String) : Decidable (fieldText s) := by
  unfold fieldText; infer_instance

/-- The class name, the schedule and the trainer name of the class can each
stand as one field of one line. -/
def GymClass.storable (c : GymClass) : Prop :=
  fieldText c.className ∧ fieldText c.schedule ∧ fieldText c.trainerName

instance (c : GymClass) : Decidable c.storable := by
  unfold GymClass.storable; infer_instance

/-- The store as the next operation finds it once `s.classes` went through
`saveClasses`: the classes are the ones its `loadClasses()` reads back from the
text written, the trainees and the trainers are taken as they are; `none`
when that load does not return. -/
def Store.reloaded (s : Store) : Option Store :=
  match loadClasses (saveClasses s.classes) with
  | Loaded.returned classes _ => some { s with classes := classes }
  | Loaded.terminated => none

/-! ## Sample data for the sign-up among classes of one name -/

/-- A second class named Pilates, with free places. -/
def pilatesNoon : GymClass :=
  ⟨"Pilates", "Sat-12:00", "Casey", CInt.wrap 10, CInt.wrap 0, []⟩

/-- A store whose first class named Pilates is full and whose second class
named Pilates has free places; so for Yoga, whose first class lists Cara. -/
def fullThenFreeStore : Store :=
  ⟨[bob, cara], [alex, casey], [barre, pilates, yoga, pilatesNoon, yogaEvening]⟩

/-! ## Schedule views -/

/-- The comparison handed to `std::sort` in both schedule views,
`a.schedule < b.schedule`: the lexicographic order of `std::string`, character
by character. -/
def scheduleLess (a b : GymClass) : Prop := a.schedule.data < b.schedule.data

instance (a b : GymClass) : Decidable (scheduleLess a b) := by
  unfold scheduleLess; infer_instance

/-- One insertion of `std::sort`: `c` goes behind every class that is not
greater and before the first class that is greater. -/
def sortBySchedule.insert (c : GymClass) : List GymClass → List GymClass
  | [] => [c]
  | d :: rest =>
    if scheduleLess c d then c :: d :: rest else d :: sortBySchedule.insert c rest

/-- The insertions of `std::sort`, from the first class to the last. -/
def sortBySchedule.loop (sorted : List GymClass) : List GymClass → List GymClass
  | [] => sorted
  | c :: rest => sortBySchedule.loop (sortBySchedule.insert c sorted) rest

/-- `std::sort(classes.begin(), classes.end(), comp)` with the comparison of the
schedule views.  The standard leaves open in which order classes with equal
schedules come out; the model is the insertion sort libstdc++ runs on a range
of up to 16 elements, which keeps them in their order, while on a longer range
libstdc++ may leave them in another order.  What is proved of the views does
not depend on that order: it is proved of every vector that is a permutation
of the classes with no class before one of a lesser schedule. -/
def sortBySchedule (classes : List GymClass) : List GymClass :=
  sortBySchedule.loop [] classes

/-- The test `c.schedule.rfind(day, 0) == 0`: the schedule starts with `day`. -/
def startsWithDay (day : String) (c : GymClass) : Bool :=
  day.data.isPrefixOf c.schedule.data

/-- The text `c.schedule.substr(c.schedule.find('-') + 1)`: what follows the
first `-`, and the whole schedule when it holds none (`npos + 1` is 0). -/
def timeOf (schedule : String) : String :=
  match untilDelim '-' schedule.data with
  | (_, some after) => String.mk after
  | (all, none) => String.mk all

/-- A line printed for a class in a schedule view: the time, then the class
with its name, trainer, enrolled count and capacity. -/
structure ScheduleRow where
  time : String
  shown : GymClass
deriving DecidableEq

/-- The lines printed under one day: the classes of the sorted list whose
schedule starts with the day, in the order of that list. -/
def dayRows (day : String) (sorted : List GymClass) : List ScheduleRow :=
  (sorted.filter (startsWithDay day)).map (fun c => ⟨timeOf c.schedule, c⟩)

/-- The vector `days` of `displayWeeklySchedule`. -/
def weekDays : List String := ["Mon", "Tue", "Wed", "Thu", "Fri", "Sat", "Sun"]

/-- `GymManagement::displayWeeklySchedule()` on the loaded classes: nothing but
a message when there is no class, else one section for each day of `days` in
turn, with the day as its heading and the lines of that day. -/
def displayWeeklySchedule (classes : List GymClass) : List (String × List ScheduleRow) :=
  if classes.isEmpty then []
  else weekDays.map (fun day => (day, dayRows day (sortBySchedule classes)))

/-- `GymManagement::displayDailySchedule()` on the loaded classes; `tm_wday` is
the day of the week of the local clock, 0 for Sunday. -/
def displayDailySchedule (tm_wday : Fin 7) (classes : List GymClass) : List ScheduleRow :=
  dayRows (["Sun", "Mon", "Tue", "Wed", "Thu", "Fri", "Sat"].get tm_wday) (sortBySchedule classes)

/-- The schedules `InputUtils::get_valid_schedule` returns: `Day-HH:MM` with
`Day` one of Mon, Tue, Wed, Thu, Fri, Sat, Sun, `HH` from 00 to 23 and `MM`
from 00 to 59. -/
def wellFormedSchedule (schedule : String) : Bool :=
  match schedule.data with
  | [d1, d2, d3, dash, h1, h2, colon, m1, m2] =>
    weekDays.contains (String.mk [d1, d2, d3]) && dash == '-' && colon == ':' &&
    (((h1 == '0' || h1 == '1') && h2.isDigit) ||
      (h1 == '2' && (h2 == '0' || h2 == '1' || h2 == '2' || h2 == '3'))) &&
    (m1 == '0' || m1 == '1' || m1 == '2' || m1 == '3' || m1 == '4' || m1 == '5') &&
    m2.isDigit
  | _ => false

/-- The minute of the day a schedule `Day-HH:MM` names: `60 * HH + MM`. -/
def minuteOfDay (schedule : String) : Nat :=
  match schedule.data with
  | [_, _, _, _, h1, h2, _, m1, m2] =>
    60 * (10 * (h1.toNat - 48) + (h2.toNat - 48)) + (10 * (m1.toNat - 48) + (m2.toNat - 48))
  | _ => 0

/-- The day a schedule `Day-HH:MM` names: its first three characters. -/
def dayOf (schedule : String) : String := String.mk (schedule.data.take 3)

/-- The position of the day of a schedule in the week, 0 for Mon up to 6 for
Sun. -/
def dayOfWeek (schedule : String) : Nat := weekDays.indexOf (dayOf schedule)

/-- The minute of the week a schedule names, counted from Monday 00:00. -/
def minuteOfWeek (schedule : String) : Nat :=
  1440 * dayOfWeek schedule + minuteOfDay schedule

/-! ## Sample data for the schedule views -/

/-- A class on Monday. -/
def mondayClass : GymClass := ⟨"Yoga", "Mon-10:00", "Alex", CInt.wrap 20, CInt.wrap 0, []⟩

/-- A class on Friday. -/
def fridayClass : GymClass := ⟨"Pilates", "Fri-09:00", "Alex", CInt.wrap 10, CInt.wrap 0, []⟩

/-- Classes over the week, in no order. -/
def weekClasses : List GymClass :=
  [mondayClass, fridayClass,
    ⟨"Spin", "Mon-09:30", "Casey", CInt.wrap 12, CInt.wrap 0, []⟩,
    ⟨"Barre", "Sun-08:00", "Casey", CInt.wrap 8, CInt.wrap 0, []⟩,
    ⟨"HIIT", "Mon-10:00", "Casey", CInt.wrap 15, CInt.wrap 0, []⟩]

/-! ## Floating point -/

/-- A value of the C++ type `float`, IEEE 754 binary32.  Every finite `float` is
a whole number of units of `2^-149`, the least positive `float`: `finite k`
is the number `k * 2^-149`.  The sign of a zero is not kept. -/
inductive F32 where
  | finite (units : Int)
  | infinity (negative : Bool)
  | nan
deriving DecidableEq

/-- The number of units of `2^-149` in 1. -/
def F32.one : Nat := 2 ^ 149

/-- The number a finite `float` stands for (0 for an infinity and for a NaN). -/
def F32.toRat : F32 → ℚ
  | F32.finite k => (k : ℚ) / (F32.one : ℚ)
  | _ => 0

/-- The spacing, in units, of the `float`s around a number of `x` whole units:
1 unit below `2^24` units (the subnormal range and the first binade of the
normal range), and twice as much each time the number doubles.  `fuel` bounds
the number of doublings, and `x` is always enough. -/
def F32.spacing : Nat → Nat → Nat
  | 0, _ => 1
  | fuel + 1, x => if x < 2 ^ 24 then 1 else 2 * F32.spacing fuel (x / 2)

/-- Rounding to nearest, ties to even, of the positive number `num / den`
units: the quotient by the spacing is rounded to a whole number, to the even
one when it lies half way, and `2^128` or more is an overflow (`none`). -/
def F32.roundUnits (num den : Nat) : Option Nat :=
  let spacing := F32.spacing (num / den) (num / den)
  let n := num / (den * spacing)
  let r := num % (den * spacing)
  let k :=
    if 2 * r < den * spacing then n
    else if den * spacing < 2 * r then n + 1
    else if n % 2 = 0 then n else n + 1
  if k * spacing < 2 ^ 128 * F32.one then some (k * spacing) else none

/-- The `float` nearest to `negative ? -num/den : num/den` units. -/
def F32.round (negative : Bool) (num den : Nat) : F32 :=
  match F32.roundUnits num den with
  | some k => F32.finite (if negative then -(k : Int) else k)
  | none => F32.infinity negative

/-- The `float` an `int` converts to, for the small values used here. -/
def F32.ofInt (n : Int) : F32 := F32.finite (n * F32.one)

/-- The `float` nearest to the decimal number `num / den`, as reading a number
gives it. -/
def F32.ofDecimal (num den : Nat) : F32 := F32.round false (num * F32.one) den

/-- `x * y` on `float`s. -/
def F32.mul : F32 → F32 → F32
  | F32.nan, _ => F32.nan
  | _, F32.nan => F32.nan
  | F32.infinity s, F32.infinity t => F32.infinity (xor s t)
  | F32.infinity s, F32.finite b =>
    if b = 0 then F32.nan else F32.infinity (xor s (decide (b < 0)))
  | F32.finite a, F32.infinity t =>
    if a = 0 then F32.nan else F32.infinity (xor (decide (a < 0)) t)
  | F32.finite a, F32.finite b =>
    F32.round (xor (decide (a < 0)) (decide (b < 0))) (a.natAbs * b.natAbs) F32.one

/-- `x / y` on `float`s; a zero divisor is taken as `+0`, which is what the
square of a positive number rounds to when it underflows. -/
def F32.div : F32 → F32 → F32
  | F32.nan, _ => F32.nan
  | _, F32.nan => F32.nan
  | F32.infinity _, F32.infinity _ => F32.nan
  | F32.infinity s, F32.finite b => F32.infinity (xor s (decide (b < 0)))
  | F32.finite _, F32.infinity _ => F32.finite 0
  | F32.finite a, F32.finite b =>
    if b = 0 then (if a = 0 then F32.nan else F32.infinity (decide (a < 0)))
    else F32.round (xor (decide (a < 0)) (decide (b < 0))) (a.natAbs * F32.one) b.natAbs

/-- `x < c` for a `float` `x` and the number `num / den`; false for a NaN. -/
def F32.lt (x : F32) (num den : Nat) : Bool :=
  match x with
  | F32.finite k => decide (k * den < num * F32.one)
  | F32.infinity negative => negative
  | F32.nan => false

/-- `x >= c` for a `float` `x` and the number `num / den`; false for a NaN. -/
def F32.ge (x : F32) (num den : Nat) : Bool :=
  match x with
  | F32.finite k => decide (num * F32.one ≤ k * den)
  | F32.infinity negative => !negative
  | F32.nan => false

/-- `x > 0` for a `float`; false for a NaN. -/
def F32.positive (x : F32) : Bool :=
  match x with
  | F32.finite k => decide (0 < k)
  | F32.infinity negative => !negative
  | F32.nan => false

/-- `Trainee::calculateBMI()`, as a function of the two fields it reads. -/
def calculateBMI (height_m weight_kg : F32) : F32 :=
  if height_m.positive && weight_kg.positive then
    F32.div weight_kg (F32.mul height_m height_m)
  else F32.ofInt 0

/-- The category `provideBmiFeedback` prints. -/
inductive BmiCategory where
  | Underweight
  | NormalWeight
  | Overweight
  | Obese
deriving DecidableEq, Repr

/-- `GymManagement::provideBmiFeedback(bmi)`: the category printed.  The
constants 18.5, 25 and 30 are `double`s, which the `float` is compared with
exactly. -/
def provideBmiFeedback (bmi : F32) : BmiCategory :=
  if bmi.lt 37 2 then BmiCategory.Underweight
  else if bmi.ge 37 2 && bmi.lt 25 1 then BmiCategory.NormalWeight
  else if bmi.ge 25 1 && bmi.lt 30 1 then BmiCategory.Overweight
  else BmiCategory.Obese

/-! # Theorems -/

/-! ## Machine integers: lemmas -/

theorem CInt.wrap_val {i : Int} (h : -2147483648 ≤ i ∧ i ≤ 2147483647) :
    (CInt.wrap i).val = i := by
  simp only [CInt.wrap]; omega

theorem CInt.inc_val {x : CInt} (h : x.val < 2147483647) : x.inc.val = x.val + 1 := by
  have := x.inRange
  simp only [CInt.inc, CInt.wrap]; omega

theorem CInt.dec_val {x : CInt} (h : -2147483648 < x.val) : x.dec.val = x.val - 1 := by
  have := x.inRange
  simp only [CInt.dec, CInt.wrap]; omega

theorem CInt.inc_val_of_lt {x y : CInt} (h : x.val < y.val) : x.inc.val = x.val + 1 := by
  have := y.inRange
  exact CInt.inc_val (by omega)

/-! ## Lists: lemmas -/

theorem find?_split {α : Type} (p : α → Bool) :
    ∀ (l : List α) (c : α), l.find? p = some c →
      ∃ pre post, l = pre ++ c :: post ∧ (∀ d ∈ pre, p d = false) ∧ p c = true
  | [], c, h => by simp at h
  | a :: l, c, h => by
    by_cases ha : p a = true
    · rw [List.find?_cons_of_pos _ ha] at h
      cases h
      exact ⟨[], l, rfl, by simp, ha⟩
    · rw [List.find?_cons_of_neg _ ha] at h
      obtain ⟨pre, post, e, h1, h2⟩ := find?_split p l c h
      refine ⟨a :: pre, post, by simp [e], ?_, h2⟩
      intro d hd
      rcases List.mem_cons.1 hd with rfl | hd
      · simpa using ha
      · exact h1 d hd

theorem get_numeric_input_range {answers : List CInt} {lo hi v : CInt}
    (h : get_numeric_input answers lo hi = some v) : lo.val ≤ v.val ∧ v.val ≤ hi.val := by
  have := List.find?_some h
  simpa using this

/-! ## Sign-up: lemmas -/

theorem signUpLoop_cons (tid : CInt) (cn : String) (c : GymClass) (rest : List GymClass) :
    signUpForClass.loop tid cn (c :: rest) =
      if c.className = cn then
        if tid ∈ c.enrolledTraineeIds then (SignUpResult.AlreadyEnrolled, c :: rest)
        else if c.enrolled.val < c.capacity.val then
          (SignUpResult.Success,
            GymClass.mk c.className c.schedule c.trainerName c.capacity c.enrolled.inc
              (c.enrolledTraineeIds ++ [tid]) :: rest)
        else (SignUpResult.ClassFull, c :: rest)
      else ((signUpForClass.loop tid cn rest).1, c :: (signUpForClass.loop tid cn rest).2) := by
  rw [signUpForClass.loop]

theorem signUpLoop_of_split (tid : CInt) (cn : String) (pre post : List GymClass) (c : GymClass)
    (hpre : ∀ d ∈ pre, d.className ≠ cn) :
    signUpForClass.loop tid cn (pre ++ c :: post) =
      ((signUpForClass.loop tid cn (c :: post)).1,
        pre ++ (signUpForClass.loop tid cn (c :: post)).2) := by
  induction pre with
  | nil => simp
  | cons d pre ih =>
    have hd : d.className ≠ cn := hpre d (List.mem_cons_self _ _)
    have ih2 := ih (fun e he => hpre e (List.mem_cons_of_mem _ he))
    rw [List.cons_append, signUpLoop_cons, if_neg hd, ih2]
    simp

theorem signUpLoop_again (tid : CInt) (cn : String) (cs : List GymClass)
    (h : (signUpForClass.loop tid cn cs).1 = SignUpResult.Success) :
    signUpForClass.loop tid cn (signUpForClass.loop tid cn cs).2 =
      (SignUpResult.AlreadyEnrolled, (signUpForClass.loop tid cn cs).2) := by
  induction cs with
  | nil => simp [signUpForClass.loop] at h
  | cons c rest ih =>
    rw [signUpLoop_cons] at h ⊢
    by_cases h1 : c.className = cn
    · rw [if_pos h1] at h ⊢
      by_cases h2 : tid ∈ c.enrolledTraineeIds
      · rw [if_pos h2] at h; simp at h
      · rw [if_neg h2] at h ⊢
        by_cases h3 : c.enrolled.val < c.capacity.val
        · rw [if_pos h3]
          rw [signUpLoop_cons]
          simp [h1]
        · rw [if_neg h3] at h; simp at h
    · rw [if_neg h1] at h ⊢
      have ih2 := ih h
      rw [signUpLoop_cons]
      simp only [if_neg h1, ih2]

theorem signUpLoop_enrolledOk (tid : CInt) (cn : String) (cs : List GymClass)
    (h : ∀ c ∈ cs, c.enrolledOk) :
    ∀ c ∈ (signUpForClass.loop tid cn cs).2, c.enrolledOk := by
  induction cs with
  | nil => simp [signUpForClass.loop]
  | cons c rest ih =>
    have hc := h c (List.mem_cons_self _ _)
    have hrest : ∀ d ∈ rest, d.enrolledOk := fun d hd => h d (List.mem_cons_of_mem _ hd)
    rw [signUpLoop_cons]
    split_ifs with h1 h2 h3
    · exact h
    · intro d hd
      rcases List.mem_cons.1 hd with rfl | hd
      · have hinc : c.enrolled.inc.val = c.enrolled.val + 1 := CInt.inc_val_of_lt h3
        obtain ⟨e1, e2⟩ := hc
        refine ⟨?_, ?_⟩
        · simp only [hinc, List.length_append, List.length_singleton]; push_cast; omega
        · simp only [hinc]; omega
      · exact hrest d hd
    · exact h
    · intro d hd
      rcases List.mem_cons.1 hd with rfl | hd
      · exact hc
      · exact ih hrest d hd

/-! ## Deleting: lemmas -/

theorem unenroll_enrolledOk (id : CInt) (c : GymClass) (h : c.enrolledOk) :
    (deleteTrainee.unenroll id c).enrolledOk := by
  unfold deleteTrainee.unenroll
  split_ifs with hm
  · obtain ⟨e1, e2⟩ := h
    have hpos : 0 < c.enrolledTraineeIds.length := List.length_pos_of_mem hm
    have hdec : c.enrolled.dec.val = c.enrolled.val - 1 := CInt.dec_val (by omega)
    have hlen := List.length_erase_of_mem hm
    refine ⟨?_, ?_⟩
    · simp only [hdec, hlen]; omega
    · simp only [hdec]; omega
  · exact h

/-! ## Sign-up -/

/-- C2. For a Premium trainee, when the first class named `className` does not
list the trainee and has `enrolled < capacity`, `signUpForClass` succeeds:
the trainee's id is appended at the end of that class's `enrolledTraineeIds`,
its `enrolled` grows by exactly 1, its other fields, every other class, the
order of the classes and the other collections are unchanged. -/
theorem signUp_success_postcondition (trainee : Trainee) (className : String) (s : Store)
    (before after : List GymClass) (c : GymClass)
    (hprem : trainee.membership_package = "Premium")
    (hsplit : s.classes = before ++ c :: after)
    (hfirst : ∀ d ∈ before, d.className ≠ className)
    (hname : c.className = className)
    (hnew : trainee.id ∉ c.enrolledTraineeIds)
    (hroom : c.enrolled.val < c.capacity.val) :
    signUpForClass trainee className s =
      (SignUpResult.Success,
        Store.mk s.trainees s.trainers
          (before ++ GymClass.mk c.className c.schedule c.trainerName c.capacity
              c.enrolled.inc (c.enrolledTraineeIds ++ [trainee.id]) :: after)) ∧
    c.enrolled.inc.val = c.enrolled.val + 1 := by
  refine ⟨?_, CInt.inc_val_of_lt hroom⟩
  unfold signUpForClass
  rw [if_neg (not_not.2 hprem), hsplit, signUpLoop_of_split _ _ _ _ _ hfirst, signUpLoop_cons,
    if_pos hname, if_neg hnew, if_pos hroom]

/-- C2, at the sample store: Bob (id 5) signs up for Yoga, the second class. -/
theorem signUp_success_postcondition_witness :
    (bob.membership_package = "Premium" ∧ sampleStore.classes = [pilates] ++ yoga :: [] ∧
      bob.id ∉ yoga.enrolledTraineeIds ∧ yoga.enrolled.val < yoga.capacity.val) ∧
    (signUpForClass bob "Yoga" sampleStore =
      (SignUpResult.Success,
        Store.mk sampleStore.trainees sampleStore.trainers
          ([pilates] ++ GymClass.mk yoga.className yoga.schedule yoga.trainerName yoga.capacity
              yoga.enrolled.inc (yoga.enrolledTraineeIds ++ [bob.id]) :: [])) ∧
      yoga.enrolled.inc.val = yoga.enrolled.val + 1) :=
  ⟨by decide,
    signUp_success_postcondition bob "Yoga" sampleStore [pilates] [] yoga
      (by decide) (by decide) (by decide) (by decide) (by decide) (by decide)⟩

/-- C3. When `signUpForClass` succeeds, a second call by the same trainee for
the same class name reports `AlreadyEnrolled` and returns the store exactly as
the first call left it. -/
theorem signUp_twice_already_enrolled (trainee : Trainee) (className : String) (s : Store)
    (h : (signUpForClass trainee className s).1 = SignUpResult.Success) :
    signUpForClass trainee className (signUpForClass trainee className s).2 =
      (SignUpResult.AlreadyEnrolled, (signUpForClass trainee className s).2) := by
  by_cases hprem : trainee.membership_package = "Premium"
  · have h1 : (signUpForClass.loop trainee.id className s.classes).1 = SignUpResult.Success := by
      simpa [signUpForClass, hprem] using h
    have h2 := signUpLoop_again _ _ _ h1
    simp [signUpForClass, hprem, h2]
  · simp [signUpForClass, hprem] at h

/-- C3, at the sample store: Bob's first sign-up takes the last place of Yoga,
his second one is answered with `AlreadyEnrolled`. -/
theorem signUp_twice_already_enrolled_witness :
    (signUpForClass bob "Yoga" sampleStore).1 = SignUpResult.Success ∧
    signUpForClass bob "Yoga" (signUpForClass bob "Yoga" sampleStore).2 =
      (SignUpResult.AlreadyEnrolled, (signUpForClass bob "Yoga" sampleStore).2) :=
  ⟨by decide, signUp_twice_already_enrolled bob "Yoga" sampleStore (by decide)⟩

/-- C4. For a Premium trainee, when the first class named `className` does not
list the trainee and has `enrolled == capacity`, `signUpForClass` reports
`ClassFull` and returns the store unchanged. -/
theorem signUp_at_capacity (trainee : Trainee) (className : String) (s : Store) (c : GymClass)
    (hprem : trainee.membership_package = "Premium")
    (hfind : s.classes.find? (fun d => decide (d.className = className)) = some c)
    (hnew : trainee.id ∉ c.enrolledTraineeIds)
    (hfull : c.enrolled = c.capacity) :
    signUpForClass trainee className s = (SignUpResult.ClassFull, s) := by
  obtain ⟨before, after, hsplit, hfirst, hname⟩ := find?_split _ _ _ hfind
  have hfirst2 : ∀ d ∈ before, d.className ≠ className := fun d hd => by
    simpa using hfirst d hd
  have hname2 : c.className = className := by simpa using hname
  have hroom : ¬ c.enrolled.val < c.capacity.val := by rw [hfull]; exact lt_irrefl _
  obtain ⟨trainees, trainers, classes⟩ := s
  simp only at hsplit
  subst hsplit
  unfold signUpForClass
  rw [if_neg (not_not.2 hprem)]
  simp only [signUpLoop_of_split _ _ _ _ _ hfirst2, signUpLoop_cons,
    if_pos hname2, if_neg hnew, if_neg hroom]

/-- C4, at the sample store: Cara (id 7) asks for Pilates, whose one place is
taken. -/
theorem signUp_at_capacity_witness :
    (cara.membership_package = "Premium" ∧
      sampleStore.classes.find? (fun d => decide (d.className = "Pilates")) = some pilates ∧
      cara.id ∉ pilates.enrolledTraineeIds ∧ pilates.enrolled = pilates.capacity) ∧
    signUpForClass cara "Pilates" sampleStore = (SignUpResult.ClassFull, sampleStore) :=
  ⟨by decide,
    signUp_at_capacity cara "Pilates" sampleStore pilates
      (by decide) (by decide) (by decide) (by decide)⟩

/-- C5. For a trainee whose package is not exactly "Premium", `signUpForClass`
reports `NotPremium` and returns the store unchanged, whatever the class name
and the classes: the check comes before the classes are looked at. -/
theorem signUp_not_premium (trainee : Trainee) (className : String) (s : Store)
    (h : trainee.membership_package ≠ "Premium") :
    signUpForClass trainee className s = (SignUpResult.NotPremium, s) := by
  unfold signUpForClass
  rw [if_pos h]

/-- C5, at the sample store: Dan has the Basic package; he is refused with
`NotPremium` although no class is named Zumba. -/
theorem signUp_not_premium_witness :
    dan.membership_package ≠ "Premium" ∧
    signUpForClass dan "Zumba" sampleStore = (SignUpResult.NotPremium, sampleStore) :=
  ⟨by decide, signUp_not_premium dan "Zumba" sampleStore (by decide)⟩

/-! ## Cascading deletes -/

theorem filter_ne_erase (id : CInt) (l : List CInt) :
    (l.erase id).filter (fun x => decide (x ≠ id)) = l.filter (fun x => decide (x ≠ id)) := by
  induction l with
  | nil => rfl
  | cons a l ih =>
    by_cases ha : a = id
    · subst ha
      simp
    · have hb : ¬ (a == id) = true := by simpa using ha
      rw [List.erase_cons_tail hb, List.filter_cons, List.filter_cons, ih]

theorem not_mem_erase_of_count_le_one (id : CInt) (l : List CInt) (h : l.count id ≤ 1) :
    id ∉ l.erase id := by
  have h1 : (l.erase id).count id = l.count id - 1 := List.count_erase_self id l
  have h2 : (l.erase id).count id = 0 := by omega
  exact List.count_eq_zero.1 h2

/-- C6, refuted as stated: trainee 5 exists and the class Spin lists the id 5
twice; `deleteTrainee(5)` erases one occurrence and decrements `enrolled`
once, so the class still lists 5 and `enrolled` went down by 1, not by 2. -/
theorem deleteTrainee_cascade_counterexample :
    (∃ t ∈ duplicateEnrolmentStore.trainees, t.id = CInt.wrap 5) ∧
    duplicateEnrolmentStore.classes = [spin] ∧
    spin.enrolledTraineeIds.count (CInt.wrap 5) = 2 ∧
    (deleteTrainee (CInt.wrap 5) duplicateEnrolmentStore).2.classes =
      [⟨"Spin", "Wed-18:00", "Alex", CInt.wrap 3, CInt.wrap 1, [CInt.wrap 5]⟩] ∧
    ¬ (∀ c ∈ (deleteTrainee (CInt.wrap 5) duplicateEnrolmentStore).2.classes,
        CInt.wrap 5 ∉ c.enrolledTraineeIds) := by
  decide

/-- C6, amended. For the id of an existing trainee, `deleteTrainee(id)` reports
success, keeps no trainee with that id, and turns each class `c` into a class
`d` at the same position with the same name, schedule, trainer name and
capacity, whose id list is that of `c` with the first occurrence of `id`
erased (the other ids and their order are those of `c`), and whose `enrolled`
is decremented once when `id` was listed (by exactly 1 unless `enrolled` was
the least `int`) and untouched otherwise.  Where `id` is listed at most once
in `c`, it is not listed in `d`, and `enrolled` went down by the number of
occurrences. -/
theorem deleteTrainee_cascade (id : CInt) (s : Store) (h : ∃ t ∈ s.trainees, t.id = id) :
    (deleteTrainee id s).1 = DeleteResult.Deleted ∧
    (∀ t ∈ (deleteTrainee id s).2.trainees, t.id ≠ id) ∧
    List.Forall₂
      (fun c d =>
        d.className = c.className ∧ d.schedule = c.schedule ∧
        d.trainerName = c.trainerName ∧ d.capacity = c.capacity ∧
        d.enrolledTraineeIds = c.enrolledTraineeIds.erase id ∧
        d.enrolledTraineeIds.filter (fun x => decide (x ≠ id)) =
          c.enrolledTraineeIds.filter (fun x => decide (x ≠ id)) ∧
        (id ∉ c.enrolledTraineeIds → d = c) ∧
        (id ∈ c.enrolledTraineeIds → d.enrolled = c.enrolled.dec ∧
          (-2147483648 < c.enrolled.val → d.enrolled.val = c.enrolled.val - 1)) ∧
        (c.enrolledTraineeIds.count id ≤ 1 → id ∉ d.enrolledTraineeIds ∧
          (-2147483648 < c.enrolled.val →
            d.enrolled.val = c.enrolled.val - (c.enrolledTraineeIds.count id : Int))))
      s.classes (deleteTrainee id s).2.classes := by
  have hany : s.trainees.any (fun t => decide (t.id = id)) = true := by
    obtain ⟨t, ht, e⟩ := h
    exact List.any_eq_true.2 ⟨t, ht, by simpa using e⟩
  unfold deleteTrainee
  rw [if_pos hany]
  refine ⟨rfl, ?_, ?_⟩
  · intro t ht
    have := (List.mem_filter.1 ht).2
    simpa using this
  · simp only
    rw [List.forall₂_map_right_iff]
    apply List.forall₂_same.2
    intro c _
    by_cases hm : id ∈ c.enrolledTraineeIds
    · have hu : deleteTrainee.unenroll id c =
          { c with enrolledTraineeIds := c.enrolledTraineeIds.erase id,
                   enrolled := c.enrolled.dec } := by
        unfold deleteTrainee.unenroll; rw [if_pos hm]
      rw [hu]
      refine ⟨rfl, rfl, rfl, rfl, rfl, filter_ne_erase id _, fun hn => absurd hm hn,
        fun _ => ⟨rfl, fun hlow => CInt.dec_val hlow⟩, ?_⟩
      intro hc
      refine ⟨not_mem_erase_of_count_le_one id _ hc, fun hlow => ?_⟩
      have hpos : 0 < c.enrolledTraineeIds.count id := List.count_pos_iff.2 hm
      have h1 : c.enrolledTraineeIds.count id = 1 := by omega
      simp only [h1, CInt.dec_val hlow]
      norm_num
    · have hu : deleteTrainee.unenroll id c = c := by
        unfold deleteTrainee.unenroll; rw [if_neg hm]
      rw [hu]
      have h0 : c.enrolledTraineeIds.count id = 0 := List.count_eq_zero.2 hm
      refine ⟨rfl, rfl, rfl, rfl, (List.erase_of_not_mem hm).symm, rfl, fun _ => rfl,
        fun hn => absurd hn hm, fun _ => ⟨hm, fun _ => ?_⟩⟩
      simp [h0]

/-- C6 amended, at the sample store: trainee 5 is deleted; Pilates lists the id
once, Yoga does not list it. -/
theorem deleteTrainee_cascade_witness :
    (∃ t ∈ sampleStore.trainees, t.id = CInt.wrap 5) ∧
    ((deleteTrainee (CInt.wrap 5) sampleStore).1 = DeleteResult.Deleted ∧
    (∀ t ∈ (deleteTrainee (CInt.wrap 5) sampleStore).2.trainees, t.id ≠ CInt.wrap 5) ∧
    List.Forall₂
      (fun c d =>
        d.className = c.className ∧ d.schedule = c.schedule ∧
        d.trainerName = c.trainerName ∧ d.capacity = c.capacity ∧
        d.enrolledTraineeIds = c.enrolledTraineeIds.erase (CInt.wrap 5) ∧
        d.enrolledTraineeIds.filter (fun x => decide (x ≠ CInt.wrap 5)) =
          c.enrolledTraineeIds.filter (fun x => decide (x ≠ CInt.wrap 5)) ∧
        (CInt.wrap 5 ∉ c.enrolledTraineeIds → d = c) ∧
        (CInt.wrap 5 ∈ c.enrolledTraineeIds → d.enrolled = c.enrolled.dec ∧
          (-2147483648 < c.enrolled.val → d.enrolled.val = c.enrolled.val - 1)) ∧
        (c.enrolledTraineeIds.count (CInt.wrap 5) ≤ 1 → CInt.wrap 5 ∉ d.enrolledTraineeIds ∧
          (-2147483648 < c.enrolled.val →
            d.enrolled.val = c.enrolled.val - (c.enrolledTraineeIds.count (CInt.wrap 5) : Int))))
      sampleStore.classes (deleteTrainee (CInt.wrap 5) sampleStore).2.classes) :=
  ⟨by decide, deleteTrainee_cascade (CInt.wrap 5) sampleStore (by decide)⟩

theorem eq_of_distinct_ids {trainers : List Trainer} (hd : distinctTrainerIds trainers)
    {t u : Trainer} (ht : t ∈ trainers) (hu : u ∈ trainers) (e : u.id = t.id) : u = t :=
  List.inj_on_of_nodup_map hd hu ht e

/-- C7, refuted as stated: in a store where the trainers Alex and Blake both
carry the id 1, Blake is an existing trainer with id 1 and name "Blake";
`deleteTrainer(1)` takes the name of the first trainer with that id, "Alex",
so it removes Alex's class and keeps Blake's class: the classes left are not
those whose trainer name differs from "Blake". -/
theorem deleteTrainer_cascade_counterexample :
    (blake ∈ sharedIdStore.trainers ∧ blake.id = CInt.wrap 1 ∧ blake.name = "Blake") ∧
    (deleteTrainer (CInt.wrap 1) sharedIdStore).2.classes = [hiit] ∧
    sharedIdStore.classes.filter (fun c => decide (c.trainerName ≠ "Blake")) = [yoga] ∧
    (deleteTrainer (CInt.wrap 1) sharedIdStore).2.classes ≠
      sharedIdStore.classes.filter (fun c => decide (c.trainerName ≠ "Blake")) := by
  decide

/-- C7, amended. When `t` is the first stored trainer with the id `id`,
`deleteTrainer(id)` reports success; the classes left are exactly the previous
classes whose trainer name differs from `t.name`, in their order and
unmodified; the trainers left are exactly the previous trainers with another
id, in their order and unmodified, so none with that id remains; the trainees
are untouched.  When the trainer ids are pairwise distinct, `t` is the only
stored trainer with that id. -/
theorem deleteTrainer_cascade (id : CInt) (s : Store) (t : Trainer)
    (h : s.trainers.find? (fun u => decide (u.id = id)) = some t) :
    (deleteTrainer id s).1 = DeleteResult.Deleted ∧
    (deleteTrainer id s).2.classes =
      s.classes.filter (fun c => decide (c.trainerName ≠ t.name)) ∧
    (deleteTrainer id s).2.trainers = s.trainers.filter (fun u => decide (u.id ≠ id)) ∧
    (∀ u ∈ (deleteTrainer id s).2.trainers, u.id ≠ id) ∧
    (∀ u ∈ s.trainers, u.id ≠ id → u ∈ (deleteTrainer id s).2.trainers) ∧
    (deleteTrainer id s).2.trainees = s.trainees ∧
    (distinctTrainerIds s.trainers → ∀ u ∈ s.trainers, u.id = id → u = t) := by
  have ht : t ∈ s.trainers := List.mem_of_find?_eq_some h
  have hid : t.id = id := by simpa using List.find?_some h
  unfold deleteTrainer
  rw [h]
  refine ⟨rfl, ?_, ?_, ?_, ?_, rfl, ?_⟩
  · simp
  · simp
  · intro u hu
    have := (List.mem_filter.1 hu).2
    simpa using this
  · intro u hu hne
    exact List.mem_filter.2 ⟨hu, by simpa using hne⟩
  · intro hd u hu e
    exact eq_of_distinct_ids hd ht hu (e.trans hid.symm)

/-- C7 amended, at a store with two trainers: trainer 1, Alex, is deleted, and the
two classes of Alex go while the class of Casey stays. -/
theorem deleteTrainer_cascade_witness :
    twoTrainerStore.trainers.find? (fun u => decide (u.id = CInt.wrap 1)) = some alex ∧
    ((deleteTrainer (CInt.wrap 1) twoTrainerStore).1 = DeleteResult.Deleted ∧
    (deleteTrainer (CInt.wrap 1) twoTrainerStore).2.classes =
      twoTrainerStore.classes.filter (fun c => decide (c.trainerName ≠ alex.name)) ∧
    (deleteTrainer (CInt.wrap 1) twoTrainerStore).2.trainers =
      twoTrainerStore.trainers.filter (fun u => decide (u.id ≠ CInt.wrap 1)) ∧
    (∀ u ∈ (deleteTrainer (CInt.wrap 1) twoTrainerStore).2.trainers, u.id ≠ CInt.wrap 1) ∧
    (∀ u ∈ twoTrainerStore.trainers, u.id ≠ CInt.wrap 1 →
      u ∈ (deleteTrainer (CInt.wrap 1) twoTrainerStore).2.trainers) ∧
    (deleteTrainer (CInt.wrap 1) twoTrainerStore).2.trainees = twoTrainerStore.trainees ∧
    (distinctTrainerIds twoTrainerStore.trainers →
      ∀ u ∈ twoTrainerStore.trainers, u.id = CInt.wrap 1 → u = alex)) :=
  ⟨by decide, deleteTrainer_cascade (CInt.wrap 1) twoTrainerStore alex (by decide)⟩

/-! ## Registration and id uniqueness -/

theorem askNewId_duplicate (existing : List CInt) (id : CInt) (more : List CInt)
    (h : id ∈ existing) :
    askNewId existing (id :: more) =
      (Report.DuplicateID :: (askNewId existing more).1, (askNewId existing more).2) := by
  have hany : existing.any (fun e => decide (e = id)) = true :=
    List.any_eq_true.2 ⟨id, h, by simp⟩
  rw [askNewId, if_pos hany]

theorem askNewId_fresh (existing : List CInt) (answers : List CInt) (id : CInt)
    (h : (askNewId existing answers).2 = some id) : id ∉ existing := by
  induction answers with
  | nil => simp [askNewId] at h
  | cons a more ih =>
    rw [askNewId] at h
    split_ifs at h with hany
    · exact ih h
    · simp only [Option.some.injEq] at h
      subst h
      intro hmem
      exact hany (List.any_eq_true.2 ⟨a, hmem, by simp⟩)

theorem addTrainer_saved (trainers : List Trainer) (answers : List CInt)
    (form : Option TrainerForm) (saved : List Trainer)
    (h : (addTrainer trainers answers form).saved = some saved) :
    ∃ t, saved = trainers ++ [t] ∧ t.id ∉ trainers.map (fun u => u.id) := by
  unfold addTrainer at h
  cases hask : askNewId (trainers.map (fun t => t.id)) answers with
  | mk log oid =>
    rw [hask] at h
    cases oid with
    | none => simp at h
    | some id =>
      have hfresh := askNewId_fresh _ answers id (by rw [hask])
      cases form with
      | none => simp at h
      | some f =>
        simp only [Option.some.injEq] at h
        exact ⟨_, h.symm, hfresh⟩

theorem registerTrainee_saved (trainees : List Trainee) (answers : List CInt)
    (form : Option TraineeForm) (saved : List Trainee)
    (h : (registerTrainee trainees answers form).saved = some saved) :
    ∃ t, saved = trainees ++ [t] ∧ t.id ∉ trainees.map (fun u => u.id) := by
  unfold registerTrainee at h
  cases hask : askNewId (trainees.map (fun t => t.id)) answers with
  | mk log oid =>
    rw [hask] at h
    cases oid with
    | none => simp at h
    | some id =>
      have hfresh := askNewId_fresh _ answers id (by rw [hask])
      cases form with
      | none => simp at h
      | some f =>
        simp only at h
        split at h
        · split at h
          · simp only [Option.some.injEq] at h
            exact ⟨_, h.symm, hfresh⟩
          · simp at h
          · simp at h
        · simp at h

/-- C9, refuted as stated: the id 5 of Bob is typed at the id prompt of
`registerTrainee` and then the unused id 11, and the id 1 of Alex at the id
prompt of `addTrainer` and then 11.  Neither operation fails: after
`DuplicateID` each one asks again, reports success and saves a collection
that is not the one it loaded, with a new record under the id 11. -/
theorem duplicate_id_fails_counterexample :
    ((∃ t ∈ sampleStore.trainees, t.id = CInt.wrap 5) ∧
      (registerTrainee sampleStore.trainees [CInt.wrap 5, CInt.wrap 11]
          (some sampleTraineeForm)).log = [Report.DuplicateID, Report.Success] ∧
      (registerTrainee sampleStore.trainees [CInt.wrap 5, CInt.wrap 11]
          (some sampleTraineeForm)).saved =
        some (sampleStore.trainees ++
          [Trainee.new (CInt.wrap 11) "Erin" "0123456786" "pw6" "Premium" (CInt.wrap 6)]) ∧
      traineesAfter sampleStore.trainees
          (registerTrainee sampleStore.trainees [CInt.wrap 5, CInt.wrap 11]
            (some sampleTraineeForm)) ≠ sampleStore.trainees) ∧
    ((∃ t ∈ sampleStore.trainers, t.id = CInt.wrap 1) ∧
      (addTrainer sampleStore.trainers [CInt.wrap 1, CInt.wrap 11]
          (some sampleTrainerForm)).log = [Report.DuplicateID, Report.Success] ∧
      (addTrainer sampleStore.trainers [CInt.wrap 1, CInt.wrap 11]
          (some sampleTrainerForm)).saved =
        some (sampleStore.trainers ++
          [Trainer.mk (CInt.wrap 11) "Drew" "Boxing" "0123456785" "pw4"]) ∧
      trainersAfter sampleStore.trainers
          (addTrainer sampleStore.trainers [CInt.wrap 1, CInt.wrap 11]
            (some sampleTrainerForm)) ≠ sampleStore.trainers) := by
  decide

/-- C9, amended. When the id typed at the id prompt of `registerTrainee` is
already in the trainee collection, it is answered with `DuplicateID` and the
prompt is asked again: the operation does not end there but goes on exactly
as on the remaining input, with `DuplicateID` before the reports of that run
and the same collection saved; when an unused id is typed next and the
registration is completed, success is reported and the collection saved has
a new record under that id.  The rejected id itself leaves nothing on file:
when the input ends after it nothing is saved and the collection is
unchanged, and whatever is saved holds no record with that id that was not
there before.  The same holds of `addTrainer` and the trainer collection. -/
theorem duplicate_id_asks_again (trainees : List Trainee) (trainers : List Trainer)
    (traineeId trainerId : CInt)
    (ht : ∃ t ∈ trainees, t.id = traineeId) (hr : ∃ t ∈ trainers, t.id = trainerId)
    (more : List CInt) (traineeForm : Option TraineeForm) (trainerForm : Option TrainerForm) :
    ((registerTrainee trainees (traineeId :: more) traineeForm).log =
        Report.DuplicateID :: (registerTrainee trainees more traineeForm).log ∧
      (registerTrainee trainees (traineeId :: more) traineeForm).saved =
        (registerTrainee trainees more traineeForm).saved ∧
      registerTrainee trainees [traineeId] traineeForm =
        ⟨[Report.DuplicateID, Report.EndOfInput], none, none⟩ ∧
      traineesAfter trainees (registerTrainee trainees [traineeId] traineeForm) = trainees ∧
      (∀ u ∈ traineesAfter trainees (registerTrainee trainees (traineeId :: more) traineeForm),
        u.id = traineeId → u ∈ trainees) ∧
      (∀ (next : CInt) (rest : List CInt) (f : TraineeForm)
          (package_choice duration_choice : CInt) (password : String),
        next ∉ trainees.map (fun t => t.id) →
        get_numeric_input f.packageAnswers (CInt.wrap 1) (CInt.wrap 2) = some package_choice →
        get_numeric_input f.durationAnswers (CInt.wrap 1) (CInt.wrap 2) = some duration_choice →
        f.confirm = some true → f.password = some password →
        registerTrainee trainees (traineeId :: next :: rest) (some f) =
          ⟨[Report.DuplicateID, Report.Success],
            some (getCost (if package_choice = CInt.wrap 2 then "Premium" else "Basic")
              (if duration_choice = CInt.wrap 2 then CInt.wrap 6 else CInt.wrap 3)),
            some (trainees ++
              [Trainee.new next f.name f.contact password
                (if package_choice = CInt.wrap 2 then "Premium" else "Basic")
                (if duration_choice = CInt.wrap 2 then CInt.wrap 6 else CInt.wrap 3)])⟩)) ∧
    ((addTrainer trainers (trainerId :: more) trainerForm).log =
        Report.DuplicateID :: (addTrainer trainers more trainerForm).log ∧
      (addTrainer trainers (trainerId :: more) trainerForm).saved =
        (addTrainer trainers more trainerForm).saved ∧
      addTrainer trainers [trainerId] trainerForm =
        ⟨[Report.DuplicateID, Report.EndOfInput], none⟩ ∧
      trainersAfter trainers (addTrainer trainers [trainerId] trainerForm) = trainers ∧
      (∀ u ∈ trainersAfter trainers (addTrainer trainers (trainerId :: more) trainerForm),
        u.id = trainerId → u ∈ trainers) ∧
      (∀ (next : CInt) (rest : List CInt) (f : TrainerForm),
        next ∉ trainers.map (fun t => t.id) →
        addTrainer trainers (trainerId :: next :: rest) (some f) =
          ⟨[Report.DuplicateID, Report.Success],
            some (trainers ++
              [Trainer.mk next f.name f.specialization f.contact f.password])⟩)) := by
  have hmemT : traineeId ∈ trainees.map (fun t => t.id) := by
    obtain ⟨t, h1, h2⟩ := ht
    exact List.mem_map.2 ⟨t, h1, h2⟩
  have hmemR : trainerId ∈ trainers.map (fun t => t.id) := by
    obtain ⟨t, h1, h2⟩ := hr
    exact List.mem_map.2 ⟨t, h1, h2⟩
  have stepT : ∀ rest, registerTrainee trainees (traineeId :: rest) traineeForm =
      { registerTrainee trainees rest traineeForm with
        log := Report.DuplicateID :: (registerTrainee trainees rest traineeForm).log } := by
    intro rest
    unfold registerTrainee
    rw [askNewId_duplicate _ _ _ hmemT]
    cases hask : askNewId (trainees.map (fun t => t.id)) rest with
    | mk log oid =>
      cases oid with
      | none => rfl
      | some id =>
        cases traineeForm with
        | none => rfl
        | some f =>
          simp only
          split
          · split <;> rfl
          · rfl
  have stepR : ∀ rest, addTrainer trainers (trainerId :: rest) trainerForm =
      { addTrainer trainers rest trainerForm with
        log := Report.DuplicateID :: (addTrainer trainers rest trainerForm).log } := by
    intro rest
    unfold addTrainer
    rw [askNewId_duplicate _ _ _ hmemR]
    cases hask : askNewId (trainers.map (fun t => t.id)) rest with
    | mk log oid =>
      cases oid with
      | none => rfl
      | some id =>
        cases trainerForm with
        | none => rfl
        | some f => rfl
  have emptyT : registerTrainee trainees [] traineeForm = ⟨[Report.EndOfInput], none, none⟩ := by
    simp [registerTrainee, askNewId]
  have emptyR : addTrainer trainers [] trainerForm = ⟨[Report.EndOfInput], none⟩ := by
    simp [addTrainer, askNewId]
  have fresh : ∀ (existing : List CInt) (next : CInt) (rest : List CInt), next ∉ existing →
      askNewId existing (next :: rest) = ([], some next) := by
    intro existing next rest hnext
    have hany : ¬ existing.any (fun e => decide (e = next)) = true := by
      intro h
      obtain ⟨e, he, heq⟩ := List.any_eq_true.1 h
      have hen : e = next := by simpa using heq
      exact hnext (hen ▸ he)
    rw [askNewId, if_neg hany]
  refine ⟨⟨?_, ?_, ?_, ?_, ?_, ?_⟩, ⟨?_, ?_, ?_, ?_, ?_, ?_⟩⟩
  · rw [stepT]
  · rw [stepT]
  · rw [stepT, emptyT]
  · rw [stepT, emptyT]; rfl
  · intro u hu e
    unfold traineesAfter at hu
    cases hs : (registerTrainee trainees (traineeId :: more) traineeForm).saved with
    | none => rw [hs] at hu; exact hu
    | some saved =>
      rw [hs] at hu
      obtain ⟨t, rfl, hfresh⟩ := registerTrainee_saved _ _ _ _ hs
      rcases List.mem_append.1 hu with hu | hu
      · exact hu
      · rw [List.mem_singleton] at hu
        subst hu
        exact absurd (e ▸ hmemT) hfresh
  · intro next rest f package_choice duration_choice password hnext hp hdur hc hpw
    unfold registerTrainee
    rw [askNewId_duplicate _ _ _ hmemT, fresh _ next rest hnext]
    simp only [hp, hdur, hc, hpw, List.nil_append, List.singleton_append]
  · rw [stepR]
  · rw [stepR]
  · rw [stepR, emptyR]
  · rw [stepR, emptyR]; rfl
  · intro u hu e
    unfold trainersAfter at hu
    cases hs : (addTrainer trainers (trainerId :: more) trainerForm).saved with
    | none => rw [hs] at hu; exact hu
    | some saved =>
      rw [hs] at hu
      obtain ⟨t, rfl, hfresh⟩ := addTrainer_saved _ _ _ _ hs
      rcases List.mem_append.1 hu with hu | hu
      · exact hu
      · rw [List.mem_singleton] at hu
        subst hu
        exact absurd (e ▸ hmemR) hfresh
  · intro next rest f hnext
    unfold addTrainer
    rw [askNewId_duplicate _ _ _ hmemR, fresh _ next rest hnext]
    simp only [List.nil_append, List.singleton_append]

/-- C9 amended, at the sample collections: the id 5 of Bob is typed at the id prompt of
`registerTrainee`, the id 1 of Alex at that of `addTrainer`, each followed by
the unused id 11. -/
theorem duplicate_id_asks_again_witness :
    ((∃ t ∈ sampleStore.trainees, t.id = CInt.wrap 5) ∧
      (∃ t ∈ sampleStore.trainers, t.id = CInt.wrap 1)) ∧
    (((registerTrainee sampleStore.trainees (CInt.wrap 5 :: [CInt.wrap 11])
          (some sampleTraineeForm)).log =
        Report.DuplicateID ::
          (registerTrainee sampleStore.trainees [CInt.wrap 11] (some sampleTraineeForm)).log ∧
      (registerTrainee sampleStore.trainees (CInt.wrap 5 :: [CInt.wrap 11])
          (some sampleTraineeForm)).saved =
        (registerTrainee sampleStore.trainees [CInt.wrap 11] (some sampleTraineeForm)).saved ∧
      registerTrainee sampleStore.trainees [CInt.wrap 5] (some sampleTraineeForm) =
        ⟨[Report.DuplicateID, Report.EndOfInput], none, none⟩ ∧
      traineesAfter sampleStore.trainees
        (registerTrainee sampleStore.trainees [CInt.wrap 5] (some sampleTraineeForm)) =
          sampleStore.trainees ∧
      (∀ u ∈ traineesAfter sampleStore.trainees
          (registerTrainee sampleStore.trainees (CInt.wrap 5 :: [CInt.wrap 11])
            (some sampleTraineeForm)),
        u.id = CInt.wrap 5 → u ∈ sampleStore.trainees) ∧
      (∀ (next : CInt) (rest : List CInt) (f : TraineeForm)
          (package_choice duration_choice : CInt) (password : String),
        next ∉ sampleStore.trainees.map (fun t => t.id) →
        get_numeric_input f.packageAnswers (CInt.wrap 1) (CInt.wrap 2) = some package_choice →
        get_numeric_input f.durationAnswers (CInt.wrap 1) (CInt.wrap 2) = some duration_choice →
        f.confirm = some true → f.password = some password →
        registerTrainee sampleStore.trainees (CInt.wrap 5 :: next :: rest) (some f) =
          ⟨[Report.DuplicateID, Report.Success],
            some (getCost (if package_choice = CInt.wrap 2 then "Premium" else "Basic")
              (if duration_choice = CInt.wrap 2 then CInt.wrap 6 else CInt.wrap 3)),
            some (sampleStore.trainees ++
              [Trainee.new next f.name f.contact password
                (if package_choice = CInt.wrap 2 then "Premium" else "Basic")
                (if duration_choice = CInt.wrap 2 then CInt.wrap 6 else CInt.wrap 3)])⟩)) ∧
    ((addTrainer sampleStore.trainers (CInt.wrap 1 :: [CInt.wrap 11])
          (some sampleTrainerForm)).log =
        Report.DuplicateID ::
          (addTrainer sampleStore.trainers [CInt.wrap 11] (some sampleTrainerForm)).log ∧
      (addTrainer sampleStore.trainers (CInt.wrap 1 :: [CInt.wrap 11])
          (some sampleTrainerForm)).saved =
        (addTrainer sampleStore.trainers [CInt.wrap 11] (some sampleTrainerForm)).saved ∧
      addTrainer sampleStore.trainers [CInt.wrap 1] (some sampleTrainerForm) =
        ⟨[Report.DuplicateID, Report.EndOfInput], none⟩ ∧
      trainersAfter sampleStore.trainers
        (addTrainer sampleStore.trainers [CInt.wrap 1] (some sampleTrainerForm)) =
          sampleStore.trainers ∧
      (∀ u ∈ trainersAfter sampleStore.trainers
          (addTrainer sampleStore.trainers (CInt.wrap 1 :: [CInt.wrap 11])
            (some sampleTrainerForm)),
        u.id = CInt.wrap 1 → u ∈ sampleStore.trainers) ∧
      (∀ (next : CInt) (rest : List CInt) (f : TrainerForm),
        next ∉ sampleStore.trainers.map (fun t => t.id) →
        addTrainer sampleStore.trainers (CInt.wrap 1 :: next :: rest) (some f) =
          ⟨[Report.DuplicateID, Report.Success],
            some (sampleStore.trainers ++
              [Trainer.mk next f.name f.specialization f.contact f.password])⟩))) :=
  ⟨by decide,
    duplicate_id_asks_again sampleStore.trainees sampleStore.trainers (CInt.wrap 5) (CInt.wrap 1)
      (by decide) (by decide) [CInt.wrap 11] (some sampleTraineeForm) (some sampleTrainerForm)⟩

/-- C10. When the trainer ids are pairwise distinct, then for every input the
trainer collection on file after `addTrainer` has pairwise distinct ids and
starts with all previous trainers, unchanged and in their order; the same
holds of the trainee collection after `registerTrainee`, whether the
registration is confirmed, cancelled or cut short by the end of the input. -/
theorem id_uniqueness_preserved (trainers : List Trainer) (trainees : List Trainee)
    (hr : distinctTrainerIds trainers) (ht : distinctTraineeIds trainees)
    (trainerIdAnswers traineeIdAnswers : List CInt)
    (trainerForm : Option TrainerForm) (traineeForm : Option TraineeForm) :
    (distinctTrainerIds (trainersAfter trainers
        (addTrainer trainers trainerIdAnswers trainerForm)) ∧
      trainers <+: trainersAfter trainers (addTrainer trainers trainerIdAnswers trainerForm)) ∧
    (distinctTraineeIds (traineesAfter trainees
        (registerTrainee trainees traineeIdAnswers traineeForm)) ∧
      trainees <+: traineesAfter trainees
        (registerTrainee trainees traineeIdAnswers traineeForm)) := by
  refine ⟨?_, ?_⟩
  · unfold trainersAfter
    cases hs : (addTrainer trainers trainerIdAnswers trainerForm).saved with
    | none => exact ⟨hr, List.prefix_refl _⟩
    | some saved =>
      obtain ⟨t, rfl, hfresh⟩ := addTrainer_saved _ _ _ _ hs
      refine ⟨?_, List.prefix_append _ _⟩
      unfold distinctTrainerIds at hr ⊢
      simp only [Option.getD_some, List.map_append, List.map_cons, List.map_nil]
      exact List.Nodup.append hr (List.nodup_singleton _)
        (List.disjoint_singleton.2 hfresh)
  · unfold traineesAfter
    cases hs : (registerTrainee trainees traineeIdAnswers traineeForm).saved with
    | none => exact ⟨ht, List.prefix_refl _⟩
    | some saved =>
      obtain ⟨t, rfl, hfresh⟩ := registerTrainee_saved _ _ _ _ hs
      refine ⟨?_, List.prefix_append _ _⟩
      unfold distinctTraineeIds at ht ⊢
      simp only [Option.getD_some, List.map_append, List.map_cons, List.map_nil]
      exact List.Nodup.append ht (List.nodup_singleton _)
        (List.disjoint_singleton.2 hfresh)

/-- C10, at the sample collections: the id prompt of `addTrainer` is given the
used id 1 and then 11; that of `registerTrainee` the used id 9 and then 11,
and the registration is confirmed. -/
theorem id_uniqueness_preserved_witness :
    (distinctTrainerIds sampleStore.trainers ∧ distinctTraineeIds sampleStore.trainees) ∧
    ((distinctTrainerIds (trainersAfter sampleStore.trainers
        (addTrainer sampleStore.trainers [CInt.wrap 1, CInt.wrap 11]
          (some sampleTrainerForm))) ∧
      sampleStore.trainers <+: trainersAfter sampleStore.trainers
        (addTrainer sampleStore.trainers [CInt.wrap 1, CInt.wrap 11]
          (some sampleTrainerForm))) ∧
    (distinctTraineeIds (traineesAfter sampleStore.trainees
        (registerTrainee sampleStore.trainees [CInt.wrap 9, CInt.wrap 11]
          (some sampleTraineeForm))) ∧
      sampleStore.trainees <+: traineesAfter sampleStore.trainees
        (registerTrainee sampleStore.trainees [CInt.wrap 9, CInt.wrap 11]
          (some sampleTraineeForm)))) :=
  ⟨by decide,
    id_uniqueness_preserved sampleStore.trainers sampleStore.trainees (by decide) (by decide)
      [CInt.wrap 1, CInt.wrap 11] [CInt.wrap 9, CInt.wrap 11]
      (some sampleTrainerForm) (some sampleTraineeForm)⟩

/-! ## Text: lemmas on digits -/

theorem digitChar_facts (d : Nat) (h : d < 10) :
    (Char.ofNat (48 + d)).isDigit = true ∧ (Char.ofNat (48 + d)).toNat = 48 + d ∧
    isspace (Char.ofNat (48 + d)) = false ∧ Char.ofNat (48 + d) ≠ '-' ∧
    Char.ofNat (48 + d) ≠ '+' ∧ Char.ofNat (48 + d) ≠ ',' ∧ Char.ofNat (48 + d) ≠ ';' ∧
    Char.ofNat (48 + d) ≠ Char.ofNat 10 := by
  interval_cases d <;> decide

theorem isDigit_cases (c : Char) (h : c.isDigit = true) :
    ∃ d, d < 10 ∧ c = Char.ofNat (48 + d) := by
  have h1 : 48 ≤ c.toNat ∧ c.toNat ≤ 57 := by
    simp only [Char.isDigit, Bool.and_eq_true, decide_eq_true_eq, ge_iff_le] at h
    exact ⟨h.1, h.2⟩
  refine ⟨c.toNat - 48, by omega, ?_⟩
  have e : 48 + (c.toNat - 48) = c.toNat := by omega
  rw [e, Char.ofNat_toNat]

theorem digitsValue_append (a : List Char) (c : Char) :
    digitsValue (a ++ [c]) = 10 * digitsValue a + (c.toNat - 48) := by
  simp [digitsValue, List.foldl_append]

theorem decimalDigits_fuel (fuel1 : Nat) :
    ∀ (fuel2 n : Nat), n < fuel1 → n < fuel2 →
      decimalDigits fuel1 n = decimalDigits fuel2 n := by
  induction fuel1 with
  | zero => intro fuel2 n h; omega
  | succ f ih =>
    intro fuel2 n h1 h2
    cases fuel2 with
    | zero => omega
    | succ g =>
      rw [decimalDigits, decimalDigits]
      by_cases hn : n < 10
      · rw [if_pos hn, if_pos hn]
      · rw [if_neg hn, if_neg hn, ih g (n / 10) (by omega) (by omega)]

theorem decimalDigits_spec (fuel : Nat) :
    ∀ n, n < fuel →
      decimalDigits fuel n ≠ [] ∧ (∀ c ∈ decimalDigits fuel n, c.isDigit = true) ∧
      digitsValue (decimalDigits fuel n) = n := by
  induction fuel with
  | zero => intro n h; omega
  | succ f ih =>
    intro n h
    rw [decimalDigits]
    by_cases hn : n < 10
    · rw [if_pos hn]
      obtain ⟨h1, h2, _⟩ := digitChar_facts n hn
      refine ⟨by simp, ?_, ?_⟩
      · intro c hc
        rw [List.mem_singleton] at hc
        rw [hc]; exact h1
      · simp [digitsValue, h2]
    · rw [if_neg hn]
      obtain ⟨i1, i2, i3⟩ := ih (n / 10) (by omega)
      obtain ⟨h1, h2, _⟩ := digitChar_facts (n % 10) (Nat.mod_lt _ (by omega))
      refine ⟨by simp, ?_, ?_⟩
      · intro c hc
        rcases List.mem_append.1 hc with hc | hc
        · exact i2 c hc
        · rw [List.mem_singleton] at hc
          rw [hc]; exact h1
      · rw [digitsValue_append, i3, h2]
        omega

theorem takeWhile_eq_self_of_all {α : Type} (p : α → Bool) (l : List α)
    (h : ∀ x ∈ l, p x = true) : l.takeWhile p = l := by
  induction l with
  | nil => rfl
  | cons a l ih =>
    rw [List.takeWhile_cons, h a (List.mem_cons_self _ _),
      ih (fun x hx => h x (List.mem_cons_of_mem _ hx))]
    rfl

theorem isDigit_facts (c : Char) (h : c.isDigit = true) :
    isspace c = false ∧ c ≠ '-' ∧ c ≠ '+' ∧ c ≠ ',' ∧ c ≠ ';' ∧ c ≠ Char.ofNat 10 := by
  obtain ⟨d, hd, rfl⟩ := isDigit_cases c h
  obtain ⟨_, _, h3, h4, h5, h6, h7, h8⟩ := digitChar_facts d hd
  exact ⟨h3, h4, h5, h6, h7, h8⟩

theorem CInt.eq_of_val_eq {a b : CInt} (h : a.val = b.val) : a = b := by
  cases a; cases b; simp only at h; subst h; rfl

theorem dropWhile_isspace_digits (ds : List Char) (h : ∀ c ∈ ds, c.isDigit = true) :
    ds.dropWhile isspace = ds := by
  cases ds with
  | nil => rfl
  | cons c cs =>
    rw [List.dropWhile_cons, (isDigit_facts c (h c (List.mem_cons_self _ _))).1]
    rfl

theorem afterSign_digits (ds : List Char) (h : ∀ c ∈ ds, c.isDigit = true) :
    stoi.afterSign ds = ds := by
  cases ds with
  | nil => rfl
  | cons c cs =>
    obtain ⟨_, h2, h3, _⟩ := isDigit_facts c (h c (List.mem_cons_self _ _))
    rw [stoi.afterSign, if_neg (by simp [h2, h3])]

theorem head?_digits_ne_minus (ds : List Char) (h : ∀ c ∈ ds, c.isDigit = true) :
    ds.head? ≠ some '-' := by
  cases ds with
  | nil => simp
  | cons c cs =>
    obtain ⟨_, h2, _⟩ := isDigit_facts c (h c (List.mem_cons_self _ _))
    simpa using h2

/-- `stoi` on a run of digits: the value they write, when it fits an `int`. -/
theorem stoi_digits (ds : List Char) (hne : ds ≠ []) (h : ∀ c ∈ ds, c.isDigit = true)
    (v : CInt) (hv : v.val = (digitsValue ds : Int)) :
    stoi (String.mk ds) = Conversion.value v := by
  have hr := v.inRange
  unfold stoi
  simp only [dropWhile_isspace_digits ds h, afterSign_digits ds h,
    takeWhile_eq_self_of_all _ ds h, if_neg hne, if_neg (head?_digits_ne_minus ds h)]
  rw [dif_pos (by omega)]
  exact congrArg _ (CInt.eq_of_val_eq hv.symm)

/-- `stoi` on a minus sign and a run of digits. -/
theorem stoi_minus_digits (ds : List Char) (hne : ds ≠ []) (h : ∀ c ∈ ds, c.isDigit = true)
    (v : CInt) (hv : v.val = -(digitsValue ds : Int)) :
    stoi (String.mk ('-' :: ds)) = Conversion.value v := by
  have hr := v.inRange
  have hdrop : ('-' :: ds).dropWhile isspace = '-' :: ds := by
    rw [List.dropWhile_cons]; rfl
  have hsign : stoi.afterSign ('-' :: ds) = ds := by
    rw [stoi.afterSign, if_pos (Or.inl rfl)]
  unfold stoi
  simp only [hdrop, hsign, takeWhile_eq_self_of_all _ ds h, if_neg hne, List.head?_cons,
    if_true]
  rw [dif_pos (by omega)]
  exact congrArg _ (CInt.eq_of_val_eq hv.symm)

/-- Decoding undoes encoding of an `int`. -/
theorem stoi_to_string (v : CInt) : stoi (to_string v) = Conversion.value v := by
  obtain ⟨h1, h2, h3⟩ := decimalDigits_spec (v.val.natAbs + 1) v.val.natAbs (by omega)
  unfold to_string
  split_ifs with hneg
  · exact stoi_minus_digits _ h1 h2 v (by rw [h3]; omega)
  · exact stoi_digits _ h1 h2 v (by rw [h3]; omega)

/-- The text of an `int` is not empty and holds no comma, semicolon or line
break. -/
theorem to_string_chars (v : CInt) :
    (to_string v).data ≠ [] ∧
    ∀ c ∈ (to_string v).data, c ≠ ',' ∧ c ≠ ';' ∧ c ≠ Char.ofNat 10 := by
  obtain ⟨h1, h2, _⟩ := decimalDigits_spec (v.val.natAbs + 1) v.val.natAbs (by omega)
  have hd : ∀ c ∈ decimalDigits (v.val.natAbs + 1) v.val.natAbs,
      c ≠ ',' ∧ c ≠ ';' ∧ c ≠ Char.ofNat 10 := fun c hc =>
    ⟨(isDigit_facts c (h2 c hc)).2.2.2.1, (isDigit_facts c (h2 c hc)).2.2.2.2.1,
      (isDigit_facts c (h2 c hc)).2.2.2.2.2⟩
  unfold to_string
  split_ifs with hneg
  · refine ⟨by simp, ?_⟩
    intro c hc
    rcases List.mem_cons.1 hc with rfl | hc
    · decide
    · exact hd c hc
  · exact ⟨h1, hd⟩

theorem foldl_digits_ge (rest : List Char) :
    ∀ a : Nat, a ≤ rest.foldl (fun acc c => 10 * acc + (c.toNat - 48)) a := by
  induction rest with
  | nil => intro a; exact le_refl a
  | cons c rest ih =>
    intro a
    rw [List.foldl_cons]
    exact le_trans (by omega) (ih (10 * a + (c.toNat - 48)))

theorem digitsValue_pos (ds : List Char) (hne : ds ≠ []) (h : ∀ c ∈ ds, c.isDigit = true)
    (h0 : ds.head? ≠ some '0') : 1 ≤ digitsValue ds := by
  cases ds with
  | nil => exact absurd rfl hne
  | cons c rest =>
    obtain ⟨d, hd, rfl⟩ := isDigit_cases c (h _ (List.mem_cons_self _ _))
    have hd0 : d ≠ 0 := by
      intro e
      subst e
      exact h0 (by simp)
    have hc := (digitChar_facts d hd).2.1
    have := foldl_digits_ge rest (10 * 0 + ((Char.ofNat (48 + d)).toNat - 48))
    rw [hc] at this
    unfold digitsValue
    rw [List.foldl_cons, hc]
    omega

theorem canonical_decimalDigits (ds : List Char) :
    ds ≠ [] → (∀ c ∈ ds, c.isDigit = true) → (ds.head? ≠ some '0' ∨ ds.length = 1) →
      decimalDigits (digitsValue ds + 1) (digitsValue ds) = ds := by
  induction ds using List.reverseRecOn with
  | nil => intro h; exact absurd rfl h
  | append_singleton init c ih =>
    intro _ hall hlead
    obtain ⟨d, hd, rfl⟩ := isDigit_cases c (hall _ (by simp))
    have hc := (digitChar_facts d hd).2.1
    have hval : digitsValue (init ++ [Char.ofNat (48 + d)]) = 10 * digitsValue init + d := by
      rw [digitsValue_append, hc]; omega
    rw [hval]
    by_cases hinit : init = []
    · subst hinit
      have h0 : digitsValue [] = 0 := rfl
      rw [h0, decimalDigits, if_pos (by omega)]
      simp
    · have hall2 : ∀ c ∈ init, c.isDigit = true := fun c hc => hall c (by simp [hc])
      have hlen : (init ++ [Char.ofNat (48 + d)]).length ≠ 1 := by
        have : 0 < init.length := List.length_pos.2 hinit
        simp only [List.length_append, List.length_singleton]; omega
      have hhead : init.head? ≠ some '0' := by
        rcases hlead with hl | hl
        · rwa [List.head?_append_of_ne_nil _ hinit] at hl
        · exact absurd hl hlen
      have hpos := digitsValue_pos init hinit hall2 hhead
      have ih2 := ih hinit hall2 (Or.inl hhead)
      rw [decimalDigits, if_neg (by omega)]
      have e1 : (10 * digitsValue init + d) / 10 = digitsValue init := by omega
      have e2 : (10 * digitsValue init + d) % 10 = d := by omega
      rw [e1, e2, decimalDigits_fuel _ (digitsValue init + 1) _ (by omega) (by omega), ih2]

theorem canonicalDigits_iff (ds : List Char) (h : canonicalDigits ds = true) :
    ds ≠ [] ∧ (∀ c ∈ ds, c.isDigit = true) ∧ (ds.head? ≠ some '0' ∨ ds.length = 1) := by
  simp only [canonicalDigits, Bool.and_eq_true, Bool.not_eq_true', List.isEmpty_eq_false,
    List.all_eq_true, Bool.or_eq_true, bne_iff_ne, ne_eq, beq_iff_eq] at h
  exact ⟨h.1.1, h.1.2, h.2⟩

/-- A canonical decimal `int` is read by `stoi` as a value that `to_string`
writes back as the same text. -/
theorem canonical_roundtrip (s : String) (h : isCanonicalInt s = true) :
    ∃ v : CInt, stoi s = Conversion.value v ∧ to_string v = s := by
  obtain ⟨data⟩ := s
  cases data with
  | nil => simp [isCanonicalInt] at h
  | cons c cs =>
    simp only [isCanonicalInt] at h
    by_cases hc : c = '-'
    · subst hc
      simp only [if_true, Bool.and_eq_true, bne_iff_ne, ne_eq, decide_eq_true_eq] at h
      obtain ⟨⟨hcan, hhead⟩, hle⟩ := h
      obtain ⟨h1, h2, _⟩ := canonicalDigits_iff cs hcan
      have hpos := digitsValue_pos cs h1 h2 hhead
      have hcd := canonical_decimalDigits cs h1 h2 (Or.inl hhead)
      refine ⟨⟨-(digitsValue cs : Int), by omega⟩, stoi_minus_digits cs h1 h2 _ rfl, ?_⟩
      unfold to_string
      have hneg : (-(digitsValue cs : Int)) < 0 := by omega
      have habs : (-(digitsValue cs : Int)).natAbs = digitsValue cs := by omega
      simp only [hneg, if_true, habs, hcd]
    · simp only [if_neg hc, Bool.and_eq_true, decide_eq_true_eq] at h
      obtain ⟨hcan, hle⟩ := h
      obtain ⟨h1, h2, h3⟩ := canonicalDigits_iff (c :: cs) hcan
      have hcd := canonical_decimalDigits (c :: cs) h1 h2 h3
      refine ⟨⟨(digitsValue (c :: cs) : Int), by omega⟩, stoi_digits _ h1 h2 _ rfl, ?_⟩
      unfold to_string
      have hneg : ¬ ((digitsValue (c :: cs) : Int)) < 0 := by omega
      have habs : ((digitsValue (c :: cs) : Int)).natAbs = digitsValue (c :: cs) := by omega
      simp only [hneg, if_false, habs, hcd]

/-! ## Text: lemmas on streams -/

theorem untilDelim_append (delim : Char) (a b : List Char) (h : delim ∉ a) :
    untilDelim delim (a ++ delim :: b) = (a, some b) := by
  induction a with
  | nil => simp [untilDelim]
  | cons c a ih =>
    have hc : c ≠ delim := fun e => h (by simp [e])
    have ha : delim ∉ a := fun e => h (List.mem_cons_of_mem _ e)
    rw [List.cons_append, untilDelim, if_neg hc, ih ha]

theorem untilDelim_none (delim : Char) (a : List Char) (h : delim ∉ a) :
    untilDelim delim a = (a, none) := by
  induction a with
  | nil => rfl
  | cons c a ih =>
    have hc : c ≠ delim := fun e => h (by simp [e])
    have ha : delim ∉ a := fun e => h (List.mem_cons_of_mem _ e)
    rw [untilDelim, if_neg hc, ih ha]

/-- `getline` on a good stream whose text holds the delimiter: the field before
it is read and the stream stays good. -/
theorem getline_field (delim : Char) (a b : List Char) (str : String) (h : delim ∉ a) :
    getline ⟨a ++ delim :: b, true⟩ str delim = (⟨b, true⟩, String.mk a, true) := by
  simp only [getline, if_true, untilDelim_append delim a b h]

/-- `getline` on a good stream whose text holds no delimiter: the rest is read
and the stream is not good any more. -/
theorem getline_last (delim : Char) (a : List Char) (str : String) (h : delim ∉ a) :
    getline ⟨a, true⟩ str delim = (⟨[], false⟩, String.mk a, !a.isEmpty) := by
  simp only [getline, if_true, untilDelim_none delim a h]

theorem getline_not_good (delim : Char) (rest : List Char) (str : String) :
    getline ⟨rest, false⟩ str delim = (⟨rest, false⟩, str, false) := by
  simp [getline]

theorem comma_data : (",".data : List Char) = [','] := rfl

theorem semicolon_data : (";".data : List Char) = [';'] := rfl

theorem lineFeed_data : ("\n".data : List Char) = [Char.ofNat 10] := rfl

theorem String.mk_data_eq (s : String) : String.mk s.data = s := rfl

theorem to_string_commaFree (v : CInt) : ',' ∉ (to_string v).data :=
  fun h => ((to_string_chars v).2 _ h).1 rfl

/-! ## Record codec: lemmas -/

/-- Decoding the line of a trainer gives the trainer back, when the name, the
specialization, the contact and the password hold no comma. -/
theorem trainer_fromString_toString (uninit : CInt) (t : Trainer)
    (h1 : commaFree t.name) (h2 : commaFree t.specialization) (h3 : commaFree t.contact)
    (h4 : commaFree t.password) :
    Trainer.fromString uninit t.toString = Decoded.clean t := by
  obtain ⟨id, ⟨name⟩, ⟨spec⟩, ⟨contact⟩, ⟨password⟩⟩ := t
  unfold commaFree at h1 h2 h3 h4
  simp only at h1 h2 h3 h4
  have hid := to_string_commaFree id
  have hline : (Trainer.toString ⟨id, ⟨name⟩, ⟨spec⟩, ⟨contact⟩, ⟨password⟩⟩).data =
      (to_string id).data ++ ',' :: (name ++ ',' :: (spec ++ ',' :: (contact ++ ',' ::
        password))) := by
    simp [Trainer.toString, comma_data]
  unfold Trainer.fromString IStream.ofString
  simp only [hline, getline_field ',' _ _ _ hid, String.mk_data_eq, stoi_to_string,
    getline_field ',' _ _ _ h1,
    getline_field ',' _ _ _ h2, getline_field ',' _ _ _ h3, getline_last ',' _ _ h4]

theorem getlines_loop_not_good (delim : Char) (fuel : Nat) (rest : List Char) (str : String) :
    getlines.loop delim fuel ⟨rest, false⟩ str = [] := by
  cases fuel with
  | zero => rfl
  | succ f => simp [getlines.loop, getline_not_good]

/-- The lines of a text made of lines that each end with the delimiter. -/
theorem getlines_loop_terminated (delim : Char) (ls : List (List Char))
    (h : ∀ l ∈ ls, delim ∉ l) :
    ∀ (fuel : Nat) (str : String), (ls.map (fun l => l ++ [delim])).flatten.length < fuel →
      getlines.loop delim fuel ⟨(ls.map (fun l => l ++ [delim])).flatten, true⟩ str =
        ls.map String.mk := by
  induction ls with
  | nil =>
    intro fuel str hf
    cases fuel with
    | zero => simp at hf
    | succ f => simp [getlines.loop, getline, untilDelim]
  | cons l ls ih =>
    intro fuel str hf
    have hl : delim ∉ l := h l (List.mem_cons_self _ _)
    have hls : ∀ l ∈ ls, delim ∉ l := fun x hx => h x (List.mem_cons_of_mem _ hx)
    cases fuel with
    | zero => simp at hf
    | succ f =>
      have e : ((l :: ls).map (fun l => l ++ [delim])).flatten =
          l ++ delim :: (ls.map (fun l => l ++ [delim])).flatten := by simp
      rw [e] at hf ⊢
      rw [getlines.loop]
      simp only [getline_field delim _ _ _ hl, if_true, List.map_cons]
      rw [ih hls f _ (by simp only [List.length_append, List.length_cons] at hf; omega)]

/-- The tokens of a text made of non-empty tokens separated by the delimiter. -/
theorem getlines_loop_separated (delim : Char) (ts : List (List Char))
    (h : ∀ t ∈ ts, delim ∉ t ∧ t ≠ []) :
    ∀ (fuel : Nat) (str : String), (joinTokens delim ts).length < fuel →
      getlines.loop delim fuel ⟨joinTokens delim ts, true⟩ str = ts.map String.mk := by
  induction ts with
  | nil =>
    intro fuel str hf
    cases fuel with
    | zero => simp at hf
    | succ f => simp [getlines.loop, getline, untilDelim, joinTokens]
  | cons t ts ih =>
    intro fuel str hf
    obtain ⟨ht, htne⟩ := h t (List.mem_cons_self _ _)
    have hts : ∀ t ∈ ts, delim ∉ t ∧ t ≠ [] := fun x hx => h x (List.mem_cons_of_mem _ hx)
    cases fuel with
    | zero => simp at hf
    | succ f =>
      cases ts with
      | nil =>
        rw [getlines.loop]
        have hemp : t.isEmpty = false := by simpa using htne
        simp only [joinTokens, getline_last delim _ _ ht, hemp, Bool.not_false, if_true,
          getlines_loop_not_good, List.map_cons, List.map_nil]
      | cons next more =>
        rw [getlines.loop]
        simp only [joinTokens] at hf ⊢
        simp only [getline_field delim _ _ _ ht, if_true, List.map_cons]
        have := ih hts f (String.mk t)
          (by simp only [List.length_append, List.length_cons] at hf; omega)
        rw [this]
        rfl

theorem idsToString_data (ids : List CInt) :
    (GymClass.idsToString ids).data = joinTokens ';' (ids.map (fun id => (to_string id).data)) := by
  induction ids with
  | nil => rfl
  | cons id more ih =>
    cases more with
    | nil => rfl
    | cons next more =>
      rw [GymClass.idsToString]
      simp only [String.data_append, semicolon_data, ih, List.map_cons, joinTokens,
        List.append_assoc, List.singleton_append]

theorem joinTokens_not_mem (delim c : Char) (ts : List (List Char)) (hc : c ≠ delim)
    (h : ∀ t ∈ ts, c ∉ t) : c ∉ joinTokens delim ts := by
  induction ts with
  | nil => simp [joinTokens]
  | cons t ts ih =>
    have ht := h t (List.mem_cons_self _ _)
    have hts : ∀ t ∈ ts, c ∉ t := fun x hx => h x (List.mem_cons_of_mem _ hx)
    cases ts with
    | nil => simpa [joinTokens] using ht
    | cons next more =>
      simp only [joinTokens, List.mem_append, List.mem_cons, not_or]
      exact ⟨ht, hc, ih hts⟩

theorem joinTokens_eq_nil (delim : Char) (ts : List (List Char)) (h : ∀ t ∈ ts, t ≠ []) :
    joinTokens delim ts = [] ↔ ts = [] := by
  cases ts with
  | nil => simp [joinTokens]
  | cons t ts =>
    cases ts with
    | nil => simpa [joinTokens] using h t (List.mem_cons_self _ _)
    | cons next more => simp [joinTokens]

theorem fromString_ids_to_string (ids : List CInt) :
    GymClass.fromString.ids (ids.map to_string) = (ids, Conversion.value ()) := by
  induction ids with
  | nil => rfl
  | cons id more ih =>
    have hne : to_string id ≠ "" := by
      intro e
      exact (to_string_chars id).1 (by rw [e])
    rw [List.map_cons, GymClass.fromString.ids, if_neg hne]
    simp only [stoi_to_string, ih]

/-- The ids that `fromString` reads from the last field written by `toString`. -/
theorem getlines_idsToString (ids : List CInt) :
    getlines (GymClass.idsToString ids) ';' = ids.map to_string := by
  have h : ∀ t ∈ ids.map (fun id => (to_string id).data), ';' ∉ t ∧ t ≠ [] := by
    intro t ht
    obtain ⟨id, _, rfl⟩ := List.mem_map.1 ht
    exact ⟨fun hm => ((to_string_chars id).2 _ hm).2.1 rfl, (to_string_chars id).1⟩
  unfold getlines IStream.ofString
  rw [idsToString_data]
  have := getlines_loop_separated ';' _ h
    ((GymClass.idsToString ids).length + 1) ""
    (by rw [String.length, idsToString_data]; omega)
  rw [this, List.map_map]
  rfl

/-- Decoding the line of a class gives the class back, when the class name, the
schedule and the trainer name hold no comma. -/
theorem gymClass_fromString_toString (c : GymClass)
    (h1 : commaFree c.className) (h2 : commaFree c.schedule) (h3 : commaFree c.trainerName) :
    GymClass.fromString c.toString = Decoded.clean c := by
  obtain ⟨⟨cn⟩, ⟨sch⟩, ⟨tn⟩, capacity, enrolled, ids⟩ := c
  unfold commaFree at h1 h2 h3
  simp only at h1 h2 h3
  have hcap := to_string_commaFree capacity
  have henr := to_string_commaFree enrolled
  have hids : ',' ∉ (GymClass.idsToString ids).data := by
    rw [idsToString_data]
    apply joinTokens_not_mem _ _ _ (by decide)
    intro t ht
    obtain ⟨id, _, rfl⟩ := List.mem_map.1 ht
    exact to_string_commaFree id
  have hline : (GymClass.toString ⟨⟨cn⟩, ⟨sch⟩, ⟨tn⟩, capacity, enrolled, ids⟩).data =
      cn ++ ',' :: (sch ++ ',' :: (tn ++ ',' :: ((to_string capacity).data ++ ',' ::
        ((to_string enrolled).data ++ ',' :: (GymClass.idsToString ids).data)))) := by
    simp [GymClass.toString, comma_data]
  unfold GymClass.fromString IStream.ofString
  simp only [hline, getline_field ',' _ _ _ h1, getline_field ',' _ _ _ h2,
    getline_field ',' _ _ _ h3, getline_field ',' _ _ _ hcap, getline_field ',' _ _ _ henr,
    getline_last ',' _ _ hids, String.mk_data_eq, stoi_to_string]
  by_cases hempty : ids = []
  · subst hempty
    simp [GymClass.idsToString]
  · have hne : GymClass.idsToString ids ≠ "" := by
      intro e
      have hd : (GymClass.idsToString ids).data = [] := by rw [e]
      rw [idsToString_data, joinTokens_eq_nil] at hd
      · exact hempty (by simpa using hd)
      · intro t ht
        obtain ⟨id, _, rfl⟩ := List.mem_map.1 ht
        exact (to_string_chars id).1
    simp only [ne_eq, hne, not_false_eq_true, if_true, getlines_idsToString,
      fromString_ids_to_string]

theorem intercalate_go_to_string (more : List CInt) :
    ∀ (acc : String) (id : CInt),
      String.intercalate.go (acc ++ to_string id) ";" (more.map to_string) =
        acc ++ GymClass.idsToString (id :: more) := by
  induction more with
  | nil => intro acc id; rfl
  | cons next more ih =>
    intro acc id
    rw [List.map_cons, String.intercalate.go, GymClass.idsToString]
    have := ih (acc ++ to_string id ++ ";") next
    rw [this]
    simp only [String.append_assoc]

theorem intercalate_to_string (ids : List CInt) :
    ";".intercalate (ids.map to_string) = GymClass.idsToString ids := by
  cases ids with
  | nil => rfl
  | cons id more =>
    rw [List.map_cons, String.intercalate]
    have := intercalate_go_to_string more "" id
    simpa using this

theorem canonical_list (texts : List String) (h : ∀ s ∈ texts, isCanonicalInt s = true) :
    ∃ ids : List CInt, texts = ids.map to_string := by
  induction texts with
  | nil => exact ⟨[], rfl⟩
  | cons s more ih =>
    obtain ⟨v, _, hv⟩ := canonical_roundtrip s (h s (List.mem_cons_self _ _))
    obtain ⟨ids, hids⟩ := ih (fun x hx => h x (List.mem_cons_of_mem _ hx))
    exact ⟨v :: ids, by rw [List.map_cons, hv, hids]⟩

/-! ## Record codec: round trips -/

/-- C11. A class line of six fields separated by commas, the first three free of
commas, the capacity, the enrolled count and every id of the list, which may
be empty and is separated by semicolons, written as canonical decimal `int`s,
is decoded by `GymClass::fromString` without a message into a class that
`GymClass::toString` encodes as the very same line. -/
theorem class_line_roundtrip (className schedule trainerName capacityText enrolledText : String)
    (idTexts : List String)
    (h1 : commaFree className) (h2 : commaFree schedule) (h3 : commaFree trainerName)
    (hcap : isCanonicalInt capacityText = true) (henr : isCanonicalInt enrolledText = true)
    (hids : ∀ s ∈ idTexts, isCanonicalInt s = true) :
    ∃ c : GymClass,
      GymClass.fromString
          (className ++ "," ++ schedule ++ "," ++ trainerName ++ "," ++ capacityText ++ "," ++
            enrolledText ++ "," ++ ";".intercalate idTexts) = Decoded.clean c ∧
      c.toString =
        className ++ "," ++ schedule ++ "," ++ trainerName ++ "," ++ capacityText ++ "," ++
          enrolledText ++ "," ++ ";".intercalate idTexts := by
  obtain ⟨capacity, _, hc⟩ := canonical_roundtrip capacityText hcap
  obtain ⟨enrolled, _, he⟩ := canonical_roundtrip enrolledText henr
  obtain ⟨ids, hi⟩ := canonical_list idTexts hids
  have hline : className ++ "," ++ schedule ++ "," ++ trainerName ++ "," ++ capacityText ++
      "," ++ enrolledText ++ "," ++ ";".intercalate idTexts =
      GymClass.toString ⟨className, schedule, trainerName, capacity, enrolled, ids⟩ := by
    rw [hi, intercalate_to_string, ← hc, ← he]
    rfl
  rw [hline]
  exact ⟨_, gymClass_fromString_toString _ h1 h2 h3, rfl⟩

/-- C11, at the line of a class with two enrolled trainees. -/
theorem class_line_roundtrip_witness :
    (commaFree "Yoga" ∧ commaFree "Mon-10:00" ∧ commaFree "Alex" ∧
      isCanonicalInt "20" = true ∧ isCanonicalInt "2" = true ∧
      ∀ s ∈ ["7", "-5"], isCanonicalInt s = true) ∧
    ∃ c : GymClass,
      GymClass.fromString
          ("Yoga" ++ "," ++ "Mon-10:00" ++ "," ++ "Alex" ++ "," ++ "20" ++ "," ++
            "2" ++ "," ++ ";".intercalate ["7", "-5"]) = Decoded.clean c ∧
      c.toString =
        "Yoga" ++ "," ++ "Mon-10:00" ++ "," ++ "Alex" ++ "," ++ "20" ++ "," ++
          "2" ++ "," ++ ";".intercalate ["7", "-5"] :=
  ⟨by decide,
    class_line_roundtrip "Yoga" "Mon-10:00" "Alex" "20" "2" ["7", "-5"]
      (by decide) (by decide) (by decide) (by decide) (by decide) (by decide)⟩

/-- C12. A trainer line of five fields separated by commas, the id written as a
canonical decimal `int` and the four others free of commas, is decoded by
`Trainer::fromString` without a message into a trainer that
`Trainer::toString` encodes as the very same line. -/
theorem trainer_line_roundtrip (uninit : CInt)
    (idText name specialization contact password : String)
    (hid : isCanonicalInt idText = true) (h1 : commaFree name)
    (h2 : commaFree specialization) (h3 : commaFree contact) (h4 : commaFree password) :
    ∃ t : Trainer,
      Trainer.fromString uninit
          (idText ++ "," ++ name ++ "," ++ specialization ++ "," ++ contact ++ "," ++
            password) = Decoded.clean t ∧
      t.toString =
        idText ++ "," ++ name ++ "," ++ specialization ++ "," ++ contact ++ "," ++ password := by
  obtain ⟨id, _, hv⟩ := canonical_roundtrip idText hid
  have hline : idText ++ "," ++ name ++ "," ++ specialization ++ "," ++ contact ++ "," ++
      password = Trainer.toString ⟨id, name, specialization, contact, password⟩ := by
    rw [← hv]
    rfl
  rw [hline]
  exact ⟨_, trainer_fromString_toString uninit _ h1 h2 h3 h4, rfl⟩

/-- C12, at the line of a trainer with a negative id and an empty password. -/
theorem trainer_line_roundtrip_witness :
    (isCanonicalInt "-3" = true ∧ commaFree "Drew" ∧ commaFree "Boxing" ∧
      commaFree "0123456785" ∧ commaFree "") ∧
    ∃ t : Trainer,
      Trainer.fromString (CInt.wrap 0)
          ("-3" ++ "," ++ "Drew" ++ "," ++ "Boxing" ++ "," ++ "0123456785" ++ "," ++ "") =
        Decoded.clean t ∧
      t.toString = "-3" ++ "," ++ "Drew" ++ "," ++ "Boxing" ++ "," ++ "0123456785" ++ "," ++ "" :=
  ⟨by decide,
    trainer_line_roundtrip (CInt.wrap 0) "-3" "Drew" "Boxing" "0123456785" ""
      (by decide) (by decide) (by decide) (by decide) (by decide)⟩

/-! ## Flat-file store: round trip -/

theorem Trainer.toString_lineFeedFree (t : Trainer)
    (h1 : lineFeedFree t.name) (h2 : lineFeedFree t.specialization)
    (h3 : lineFeedFree t.contact) (h4 : lineFeedFree t.password) :
    Char.ofNat 10 ∉ t.toString.data := by
  unfold lineFeedFree at h1 h2 h3 h4
  have hid : Char.ofNat 10 ∉ (to_string t.id).data :=
    fun h => ((to_string_chars t.id).2 _ h).2.2 rfl
  have hcomma : Char.ofNat 10 ≠ ',' := by decide
  simp only [Trainer.toString, String.data_append, comma_data, List.mem_append,
    List.mem_singleton, not_or]
  exact ⟨⟨⟨⟨⟨⟨⟨⟨hid, hcomma⟩, h1⟩, hcomma⟩, h2⟩, hcomma⟩, h3⟩, hcomma⟩, h4⟩

theorem saveTrainers_data (trainers : List Trainer) :
    (saveTrainers trainers).data =
      ((trainers.map (fun t => t.toString.data)).map
        (fun l => l ++ [Char.ofNat 10])).flatten := by
  induction trainers with
  | nil => rfl
  | cons t more ih =>
    rw [saveTrainers]
    simp only [String.data_append, lineFeed_data, ih, List.map_cons, List.flatten_cons,
      List.append_assoc]

theorem getlines_saveTrainers (trainers : List Trainer)
    (h : ∀ t ∈ trainers, Char.ofNat 10 ∉ t.toString.data) :
    getlines (saveTrainers trainers) (Char.ofNat 10) = trainers.map Trainer.toString := by
  unfold getlines IStream.ofString
  rw [saveTrainers_data]
  have hl : ∀ l ∈ trainers.map (fun t => t.toString.data), Char.ofNat 10 ∉ l := by
    intro l hl
    obtain ⟨t, ht, rfl⟩ := List.mem_map.1 hl
    exact h t ht
  rw [getlines_loop_terminated _ _ hl _ _
    (by rw [String.length, saveTrainers_data]; omega), List.map_map]
  rfl

/-- Lines that all decode without a message, none of them empty, load as the
records they decode to. -/
theorem loadRecords_clean {α : Type} (fromString : Nat → String → Decoded α)
    (toLine : α → String) (records : List α)
    (hne : ∀ r ∈ records, toLine r ≠ "")
    (h : ∀ r ∈ records, ∀ call, fromString call (toLine r) = Decoded.clean r) :
    ∀ call, loadRecords fromString call (records.map toLine) = Loaded.returned records [] := by
  induction records with
  | nil => intro call; rfl
  | cons r more ih =>
    intro call
    rw [List.map_cons, loadRecords, if_neg (hne r (List.mem_cons_self _ _)),
      h r (List.mem_cons_self _ _) call,
      ih (fun x hx => hne x (List.mem_cons_of_mem _ hx))
        (fun x hx => h x (List.mem_cons_of_mem _ hx)) (call + 1)]

theorem loadRecords_toString (uninit : Nat → CInt) (trainers : List Trainer)
    (h : ∀ t ∈ trainers, ∀ call, Trainer.fromString (uninit call) t.toString = Decoded.clean t) :
    loadRecords (fun call => Trainer.fromString (uninit call)) 0
        (trainers.map Trainer.toString) =
      Loaded.returned trainers [] := by
  refine loadRecords_clean _ Trainer.toString trainers (fun t _ => ?_) h 0
  intro e
  have hd : t.toString.data = [] := by rw [e]
  simp only [Trainer.toString, String.data_append, List.append_eq_nil] at hd
  exact (to_string_chars t.id).1 hd.1.1.1.1.1.1.1.1

/-- C13. For every list of trainers whose name, specialization, contact and
password hold neither a comma nor a line feed, `loadTrainers` on the content
that `saveTrainers` writes returns that list, record for record in the same
order, and prints no message. -/
theorem trainers_store_roundtrip (uninit : Nat → CInt) (trainers : List Trainer)
    (h : ∀ t ∈ trainers,
      (commaFree t.name ∧ lineFeedFree t.name) ∧
      (commaFree t.specialization ∧ lineFeedFree t.specialization) ∧
      (commaFree t.contact ∧ lineFeedFree t.contact) ∧
      (commaFree t.password ∧ lineFeedFree t.password)) :
    loadTrainers uninit (saveTrainers trainers) = Loaded.returned trainers [] := by
  unfold loadTrainers
  rw [getlines_saveTrainers trainers (fun t ht =>
    Trainer.toString_lineFeedFree t (h t ht).1.2 (h t ht).2.1.2 (h t ht).2.2.1.2
      (h t ht).2.2.2.2)]
  exact loadRecords_toString uninit trainers (fun t ht call =>
    trainer_fromString_toString (uninit call) t (h t ht).1.1 (h t ht).2.1.1 (h t ht).2.2.1.1
      (h t ht).2.2.2.1)

/-- C13, at three trainers, one of them with an empty password. -/
theorem trainers_store_roundtrip_witness :
    (∀ t ∈ [alex, drew, casey],
      (commaFree t.name ∧ lineFeedFree t.name) ∧
      (commaFree t.specialization ∧ lineFeedFree t.specialization) ∧
      (commaFree t.contact ∧ lineFeedFree t.contact) ∧
      (commaFree t.password ∧ lineFeedFree t.password)) ∧
    loadTrainers (fun _ => CInt.wrap 0) (saveTrainers [alex, drew, casey]) =
      Loaded.returned [alex, drew, casey] [] :=
  ⟨by decide, trainers_store_roundtrip (fun _ => CInt.wrap 0) [alex, drew, casey] (by decide)⟩

/-- C14. For every class whose class name, schedule and trainer name hold no
comma, whatever its capacity, its enrolled count and its list of ids,
`GymClass::fromString` decodes the line written by `GymClass::toString`,
without a message, into that class: every field is equal, and the ids are the
same in the same order. -/
theorem class_decode_encode (c : GymClass)
    (h1 : commaFree c.className) (h2 : commaFree c.schedule) (h3 : commaFree c.trainerName) :
    GymClass.fromString c.toString = Decoded.clean c :=
  gymClass_fromString_toString c h1 h2 h3

/-- C14, at a class with the least `int` as capacity, a negative enrolled count
and three ids, one of them twice. -/
theorem class_decode_encode_witness :
    (commaFree "Spin; late" ∧ commaFree "Wed-18:00" ∧ commaFree "") ∧
    GymClass.fromString
        (GymClass.toString ⟨"Spin; late", "Wed-18:00", "", CInt.wrap (-2147483648), CInt.wrap (-1),
          [CInt.wrap 5, CInt.wrap 0, CInt.wrap 5]⟩) =
      Decoded.clean ⟨"Spin; late", "Wed-18:00", "", CInt.wrap (-2147483648), CInt.wrap (-1),
        [CInt.wrap 5, CInt.wrap 0, CInt.wrap 5]⟩ :=
  ⟨by decide,
    class_decode_encode ⟨"Spin; late", "Wed-18:00", "", CInt.wrap (-2147483648), CInt.wrap (-1),
      [CInt.wrap 5, CInt.wrap 0, CInt.wrap 5]⟩ (by decide) (by decide) (by decide)⟩

/-! ## Flat-file store: lines that do not parse -/

/-- When no line is left by an exception, the loop of the loaders returns one
record for every non-empty line: only the empty lines are passed over, and
the lines reported are among the lines read. -/
theorem loadRecords_keeps_lines {α : Type} (fromString : Nat → String → Decoded α)
    (lines : List String)
    (h : ∀ call, ∀ line ∈ lines, line ≠ "" → fromString call line ≠ Decoded.uncaught) :
    ∀ call, ∃ records reportedLines,
      loadRecords fromString call lines = Loaded.returned records reportedLines ∧
      records.length = (lines.filter (fun line => decide (line ≠ ""))).length ∧
      ∀ line ∈ reportedLines, line ∈ lines ∧ line ≠ "" := by
  induction lines with
  | nil =>
    intro call
    exact ⟨[], [], rfl, rfl, by simp⟩
  | cons l more ih =>
    intro call
    have ih2 := ih (fun c x hx => h c x (List.mem_cons_of_mem _ hx))
    by_cases hl : l = ""
    · obtain ⟨rs, rep, e, hlen, hrep⟩ := ih2 call
      refine ⟨rs, rep, by rw [loadRecords, if_pos hl, e], ?_, ?_⟩
      · rw [List.filter_cons_of_neg (by simpa using hl)]
        exact hlen
      · exact fun line hline => ⟨List.mem_cons_of_mem _ (hrep line hline).1, (hrep line hline).2⟩
    · obtain ⟨rs, rep, e, hlen, hrep⟩ := ih2 (call + 1)
      have hun := h call l (List.mem_cons_self _ _) hl
      cases hd : fromString call l with
      | uncaught => exact absurd hd hun
      | clean r =>
        refine ⟨r :: rs, rep, by rw [loadRecords, if_neg hl, hd, e], ?_, ?_⟩
        · rw [List.filter_cons_of_pos (by simpa using hl), List.length_cons, List.length_cons,
            hlen]
        · exact fun line hline =>
            ⟨List.mem_cons_of_mem _ (hrep line hline).1, (hrep line hline).2⟩
      | reported r =>
        refine ⟨r :: rs, l :: rep, by rw [loadRecords, if_neg hl, hd, e], ?_, ?_⟩
        · rw [List.filter_cons_of_pos (by simpa using hl), List.length_cons, List.length_cons,
            hlen]
        · intro line hline
          rcases List.mem_cons.1 hline with rfl | hline
          · exact ⟨List.mem_cons_self _ _, hl⟩
          · exact ⟨List.mem_cons_of_mem _ (hrep line hline).1, (hrep line hline).2⟩

/-- C15, at the failing inputs, whatever the uninitialised ids hold.  In the
first trainers file the first line has the id field `abc` and the second line
has two fields: `loadTrainers` returns three records, one for each line, the
first with the uninitialised id of its call and four empty texts, and reports
the first line only.  In the second trainers file two lines have an id field
that is not a number, with an empty line between them: each contributes a
record with the uninitialised id of its own call.  The classes file and the
trainees file each contribute a record for every line as well.  No line is
skipped but the empty one. -/
theorem corrupt_lines_are_kept (uninit : Nat → CInt) :
    (getlines corruptTrainersFile (Char.ofNat 10) =
        ["abc,Al,Yoga,0123456789,pw", "1,Bo", "2,Cy,Spin,0123456780,pw2"] ∧
      loadTrainers uninit corruptTrainersFile =
        Loaded.returned
          [⟨uninit 0, "", "", "", ""⟩, ⟨CInt.wrap 1, "Bo", "", "", ""⟩,
            ⟨CInt.wrap 2, "Cy", "Spin", "0123456780", "pw2"⟩]
          ["abc,Al,Yoga,0123456789,pw"]) ∧
    (getlines twoCorruptIdsFile (Char.ofNat 10) = ["abc,Al", "", "xyz,Bo"] ∧
      loadTrainers uninit twoCorruptIdsFile =
        Loaded.returned [⟨uninit 0, "", "", "", ""⟩, ⟨uninit 1, "", "", "", ""⟩]
          ["abc,Al", "xyz,Bo"]) ∧
    loadClasses corruptClassesFile =
      Loaded.returned
        [⟨"Yoga", "Mon-10:00", "Alex", CInt.wrap 0, CInt.wrap 0, []⟩,
          ⟨"HIIT", "Tue-09:00", "", CInt.wrap 0, CInt.wrap 0, []⟩]
        ["Yoga,Mon-10:00,Alex,many,0,", "HIIT,Tue-09:00"] ∧
    loadTrainees sampleStof uninit corruptTraineesFile =
      Loaded.returned
        [⟨CInt.wrap 5, "Bob", "0123456780", "pw5", "Premium", CInt.wrap 3, "Paid", 0, 0⟩,
          ⟨CInt.wrap 7, "Cara", "0123456781", "pw7", "Premium", CInt.wrap 0, "", 0, 0⟩]
        ["7,Cara,0123456781,pw7,Premium,six"] := by
  refine ⟨⟨by decide, ?_⟩, ⟨by decide, ?_⟩, by decide, ?_⟩
  · rfl
  · rfl
  · rfl

/-- C16, at the failing inputs: a trainers file whose second line has the id
99999999999, a classes file whose line lists the id 4294967296 and a trainees
file whose line has the id 2147483648.  `stoi` throws `std::out_of_range`,
which no handler catches, and the load does not return. -/
theorem load_out_of_range_terminates :
    loadTrainers (fun _ => CInt.wrap 0) overflowTrainersFile = Loaded.terminated ∧
    loadClasses overflowClassesFile = Loaded.terminated ∧
    loadTrainees sampleStof (fun _ => CInt.wrap 0) overflowTraineesFile = Loaded.terminated ∧
    stoi "99999999999" = Conversion.out_of_range ∧
    Trainer.fromString (CInt.wrap 0) "99999999999,Bo,Spin,0123456780,pw2" = Decoded.uncaught := by
  decide

/-! ## Cost, login and deleting a class -/

theorem getCost_table :
    getCost "Basic" (CInt.wrap 3) = CInt.wrap 100 ∧
    getCost "Basic" (CInt.wrap 6) = CInt.wrap 180 ∧
    getCost "Premium" (CInt.wrap 3) = CInt.wrap 150 ∧
    getCost "Premium" (CInt.wrap 6) = CInt.wrap 270 := by
  decide

/-- C17. `getCost` gives 100 for Basic and 3 months, 180 for Basic and 6 months,
150 for Premium and 3 months, 270 for Premium and 6 months, and whatever is
typed, the cost `registerTrainee` displays, when it displays one, is one of
these four: the package it passes is "Basic" or "Premium" and the duration 3
or 6. -/
theorem registration_cost_table (trainees : List Trainee) (idAnswers : List CInt)
    (form : Option TraineeForm) :
    getCost "Basic" (CInt.wrap 3) = CInt.wrap 100 ∧
    getCost "Basic" (CInt.wrap 6) = CInt.wrap 180 ∧
    getCost "Premium" (CInt.wrap 3) = CInt.wrap 150 ∧
    getCost "Premium" (CInt.wrap 6) = CInt.wrap 270 ∧
    (registerTrainee trainees idAnswers form).cost ∈
      [none, some (CInt.wrap 100), some (CInt.wrap 180), some (CInt.wrap 150),
        some (CInt.wrap 270)] := by
  obtain ⟨h1, h2, h3, h4⟩ := getCost_table
  refine ⟨h1, h2, h3, h4, ?_⟩
  unfold registerTrainee
  cases askNewId (trainees.map (fun t => t.id)) idAnswers with
  | mk log oid =>
    cases oid with
    | none => simp
    | some id =>
      cases form with
      | none => simp
      | some f =>
        simp only
        split
        · rename_i package_choice duration_choice _ _
          have hcost : getCost (if package_choice = CInt.wrap 2 then "Premium" else "Basic")
              (if duration_choice = CInt.wrap 2 then CInt.wrap 6 else CInt.wrap 3) ∈
              [CInt.wrap 100, CInt.wrap 180, CInt.wrap 150, CInt.wrap 270] := by
            split_ifs
            · rw [h4]; simp
            · rw [h3]; simp
            · rw [h2]; simp
            · rw [h1]; simp
          split <;> simp only [List.mem_cons, Option.some.injEq, List.mem_singleton] at hcost ⊢ <;>
            tauto
        · simp

theorem trainerLogin_loop_eq_find (id : CInt) (password : String) (trainers : List Trainer) :
    trainerLogin.loop id password trainers =
      trainers.find? (fun t => decide (t.id = id ∧ t.password = password)) := by
  induction trainers with
  | nil => rfl
  | cons t more ih =>
    rw [trainerLogin.loop]
    by_cases h : t.id = id ∧ t.password = password
    · rw [if_pos h, List.find?_cons_of_pos _ (by simpa using h)]
    · rw [if_neg h, List.find?_cons_of_neg _ (by simpa using h), ih]

theorem traineeLogin_loop_eq_find (id : CInt) (password : String) (trainees : List Trainee) :
    traineeLogin.loop id password trainees =
      trainees.find? (fun t => decide (t.id = id ∧ t.password = password)) := by
  induction trainees with
  | nil => rfl
  | cons t more ih =>
    rw [traineeLogin.loop]
    by_cases h : t.id = id ∧ t.password = password
    · rw [if_pos h, List.find?_cons_of_pos _ (by simpa using h)]
    · rw [if_neg h, List.find?_cons_of_neg _ (by simpa using h), ih]

/-- C18. `trainerLogin` succeeds exactly when a stored trainer has both the id
and the password typed; it then hands back the first such trainer in file
order, and otherwise reports `InvalidCredentials` and leaves the record of the
caller as it was.  The same holds of `traineeLogin` and the trainees. -/
theorem login_first_match (trainers : List Trainer) (trainees : List Trainee) (id : CInt)
    (password : String) (callerTrainer : Trainer) (callerTrainee : Trainee) :
    (((trainerLogin trainers id password callerTrainer).1 = LoginResult.Success ↔
        ∃ t ∈ trainers, t.id = id ∧ t.password = password) ∧
      trainerLogin trainers id password callerTrainer =
        match trainers.find? (fun t => decide (t.id = id ∧ t.password = password)) with
        | some t => (LoginResult.Success, t)
        | none => (LoginResult.InvalidCredentials, callerTrainer)) ∧
    (((traineeLogin trainees id password callerTrainee).1 = LoginResult.Success ↔
        ∃ t ∈ trainees, t.id = id ∧ t.password = password) ∧
      traineeLogin trainees id password callerTrainee =
        match trainees.find? (fun t => decide (t.id = id ∧ t.password = password)) with
        | some t => (LoginResult.Success, t)
        | none => (LoginResult.InvalidCredentials, callerTrainee)) := by
  refine ⟨⟨?_, ?_⟩, ⟨?_, ?_⟩⟩
  · unfold trainerLogin
    rw [trainerLogin_loop_eq_find]
    cases hf : trainers.find? (fun t => decide (t.id = id ∧ t.password = password)) with
    | none =>
      have hnone := List.find?_eq_none.1 hf
      simp only [false_iff, not_exists, not_and, reduceCtorEq]
      intro t ht h1 h2
      exact hnone t ht (by simp [h1, h2])
    | some t =>
      simp only [true_iff]
      exact ⟨t, List.mem_of_find?_eq_some hf, by simpa using List.find?_some hf⟩
  · unfold trainerLogin
    rw [trainerLogin_loop_eq_find]
  · unfold traineeLogin
    rw [traineeLogin_loop_eq_find]
    cases hf : trainees.find? (fun t => decide (t.id = id ∧ t.password = password)) with
    | none =>
      have hnone := List.find?_eq_none.1 hf
      simp only [false_iff, not_exists, not_and, reduceCtorEq]
      intro t ht h1 h2
      exact hnone t ht (by simp [h1, h2])
    | some t =>
      simp only [true_iff]
      exact ⟨t, List.mem_of_find?_eq_some hf, by simpa using List.find?_some hf⟩
  · unfold traineeLogin
    rw [traineeLogin_loop_eq_find]

/-- C20. When a class has exactly the name `className`, `deleteClass` reports
success and the classes left are the previous classes with another name, in
their order and unmodified, so every class of that name is gone; when no
class has it, `deleteClass` reports `NotFound` and returns the store
unchanged. -/
theorem deleteClass_outcome (s : Store) (className : String) :
    ((∃ c ∈ s.classes, c.className = className) →
      deleteClass className s =
        (DeleteResult.Deleted,
          Store.mk s.trainees s.trainers
            (s.classes.filter (fun c => decide (c.className ≠ className)))) ∧
      (∀ c ∈ (deleteClass className s).2.classes, c.className ≠ className) ∧
      (∀ c ∈ s.classes, c.className ≠ className → c ∈ (deleteClass className s).2.classes)) ∧
    ((∀ c ∈ s.classes, c.className ≠ className) →
      deleteClass className s = (DeleteResult.NotFound, s)) := by
  refine ⟨?_, ?_⟩
  · intro hsome
    have hany : s.classes.any (fun c => decide (c.className = className)) = true := by
      obtain ⟨c, hc, e⟩ := hsome
      exact List.any_eq_true.2 ⟨c, hc, by simpa using e⟩
    have heq : deleteClass className s =
        (DeleteResult.Deleted,
          Store.mk s.trainees s.trainers
            (s.classes.filter (fun c => decide (c.className ≠ className)))) := by
      unfold deleteClass
      rw [if_pos hany]
      simp
    refine ⟨heq, ?_, ?_⟩
    · rw [heq]
      intro c hc
      simpa using (List.mem_filter.1 hc).2
    · rw [heq]
      intro c hc hne
      exact List.mem_filter.2 ⟨hc, by simpa using hne⟩
  · intro hno
    have hany : ¬ s.classes.any (fun c => decide (c.className = className)) = true := by
      intro h
      obtain ⟨c, hc, e⟩ := List.any_eq_true.1 h
      exact hno c hc (by simpa using e)
    unfold deleteClass
    rw [if_neg hany]

/-- C20, at a store with two classes named Yoga: both are removed and the class
between them stays. -/
theorem deleteClass_outcome_witness :
    ((∃ c ∈ sharedNameStore.classes, c.className = "Yoga") ∧
      deleteClass "Yoga" sharedNameStore =
        (DeleteResult.Deleted, Store.mk [bob, cara] [alex, casey] [barre])) ∧
    (((∃ c ∈ sharedNameStore.classes, c.className = "Yoga") →
      deleteClass "Yoga" sharedNameStore =
        (DeleteResult.Deleted,
          Store.mk sharedNameStore.trainees sharedNameStore.trainers
            (sharedNameStore.classes.filter (fun c => decide (c.className ≠ "Yoga")))) ∧
      (∀ c ∈ (deleteClass "Yoga" sharedNameStore).2.classes, c.className ≠ "Yoga") ∧
      (∀ c ∈ sharedNameStore.classes, c.className ≠ "Yoga" →
        c ∈ (deleteClass "Yoga" sharedNameStore).2.classes)) ∧
    ((∀ c ∈ sharedNameStore.classes, c.className ≠ "Yoga") →
      deleteClass "Yoga" sharedNameStore = (DeleteResult.NotFound, sharedNameStore))) :=
  ⟨by decide, deleteClass_outcome sharedNameStore "Yoga"⟩

/-! ## The classes on file after an operation: the invariants and `addClass` -/

theorem GymClass.line_lineFeedFree (c : GymClass) (h : c.storable) :
    Char.ofNat 10 ∉ c.toString.data := by
  obtain ⟨⟨_, h1⟩, ⟨_, h2⟩, ⟨_, h3⟩⟩ := h
  unfold lineFeedFree at h1 h2 h3
  have hcap : Char.ofNat 10 ∉ (to_string c.capacity).data :=
    fun h => ((to_string_chars c.capacity).2 _ h).2.2 rfl
  have henr : Char.ofNat 10 ∉ (to_string c.enrolled).data :=
    fun h => ((to_string_chars c.enrolled).2 _ h).2.2 rfl
  have hids : Char.ofNat 10 ∉ (GymClass.idsToString c.enrolledTraineeIds).data := by
    rw [idsToString_data]
    apply joinTokens_not_mem _ _ _ (by decide)
    intro t ht
    obtain ⟨id, _, rfl⟩ := List.mem_map.1 ht
    exact fun h => ((to_string_chars id).2 _ h).2.2 rfl
  have hcomma : Char.ofNat 10 ≠ ',' := by decide
  simp only [GymClass.toString, String.data_append, comma_data, List.mem_append,
    List.mem_singleton, not_or]
  exact ⟨⟨⟨⟨⟨⟨⟨⟨⟨⟨h1, hcomma⟩, h2⟩, hcomma⟩, h3⟩, hcomma⟩, hcap⟩, hcomma⟩, henr⟩, hcomma⟩, hids⟩

theorem saveClasses_data (classes : List GymClass) :
    (saveClasses classes).data =
      ((classes.map (fun c => c.toString.data)).map
        (fun l => l ++ [Char.ofNat 10])).flatten := by
  induction classes with
  | nil => rfl
  | cons c more ih =>
    rw [saveClasses]
    simp only [String.data_append, lineFeed_data, ih, List.map_cons, List.flatten_cons,
      List.append_assoc]

theorem getlines_saveClasses (classes : List GymClass)
    (h : ∀ c ∈ classes, Char.ofNat 10 ∉ c.toString.data) :
    getlines (saveClasses classes) (Char.ofNat 10) = classes.map GymClass.toString := by
  unfold getlines IStream.ofString
  rw [saveClasses_data]
  have hl : ∀ l ∈ classes.map (fun c => c.toString.data), Char.ofNat 10 ∉ l := by
    intro l hl
    obtain ⟨c, hc, rfl⟩ := List.mem_map.1 hl
    exact h c hc
  rw [getlines_loop_terminated _ _ hl _ _
    (by rw [String.length, saveClasses_data]; omega), List.map_map]
  rfl

/-- Classes whose texts can each stand as a field are read back from the text
`saveClasses` writes as they are, in their order and without a message. -/
theorem loadClasses_saveClasses (classes : List GymClass) (h : ∀ c ∈ classes, c.storable) :
    loadClasses (saveClasses classes) = Loaded.returned classes [] := by
  unfold loadClasses
  rw [getlines_saveClasses classes (fun c hc => GymClass.line_lineFeedFree c (h c hc))]
  refine loadRecords_clean _ GymClass.toString classes (fun c _ => ?_)
    (fun c hc _ => gymClass_fromString_toString c (h c hc).1.1 (h c hc).2.1.1 (h c hc).2.2.1) 0
  intro e
  have hd : c.toString.data = [] := by rw [e]
  simp [GymClass.toString, String.data_append] at hd

theorem Store.reloaded_self (s : Store) (h : ∀ c ∈ s.classes, c.storable) :
    s.reloaded = some s := by
  unfold Store.reloaded
  rw [loadClasses_saveClasses s.classes h]

theorem signUpLoop_storable (id : CInt) (className : String) (classes : List GymClass)
    (h : ∀ c ∈ classes, c.storable) :
    ∀ c ∈ (signUpForClass.loop id className classes).2, c.storable := by
  induction classes with
  | nil => intro c hc; simp [signUpForClass.loop] at hc
  | cons d rest ih =>
    have hd := h d (List.mem_cons_self _ _)
    have hrest : ∀ c ∈ rest, c.storable := fun c hc => h c (List.mem_cons_of_mem _ hc)
    rw [signUpForClass.loop]
    split_ifs
    · exact h
    · intro c hc
      rcases List.mem_cons.1 hc with rfl | hc
      · exact hd
      · exact hrest c hc
    · exact h
    · intro c hc
      rcases List.mem_cons.1 hc with rfl | hc
      · exact hd
      · exact ih hrest c hc

theorem unenroll_storable (id : CInt) (c : GymClass) (h : c.storable) :
    (deleteTrainee.unenroll id c).storable := by
  unfold deleteTrainee.unenroll
  split_ifs
  · exact h
  · exact h

theorem untilDelim_fst_not_mem (delim : Char) (l : List Char) :
    delim ∉ (untilDelim delim l).1 := by
  induction l with
  | nil => simp [untilDelim]
  | cons c cs ih =>
    rw [untilDelim]
    split_ifs with hc
    · simp
    · simp only [List.mem_cons, not_or]
      exact ⟨fun e => hc e.symm, ih⟩

theorem untilDelim_mem (delim : Char) (l : List Char) (x : Char) :
    (x ∈ (untilDelim delim l).1 → x ∈ l) ∧
    (∀ after, (untilDelim delim l).2 = some after → x ∈ after → x ∈ l) := by
  induction l with
  | nil => simp [untilDelim]
  | cons c cs ih =>
    rw [untilDelim]
    split_ifs with hc
    · refine ⟨by simp, ?_⟩
      intro after h hx
      simp only [Option.some.injEq] at h
      subst h
      exact List.mem_cons_of_mem _ hx
    · refine ⟨?_, ?_⟩
      · intro hx
        rcases List.mem_cons.1 hx with rfl | hx
        · exact List.mem_cons_self _ _
        · exact List.mem_cons_of_mem _ (ih.1 hx)
      · intro after h hx
        exact List.mem_cons_of_mem _ (ih.2 after h hx)

/-- A character that is neither in the stream nor in `str` is in neither of them
after `getline`. -/
theorem getline_avoids (stream : IStream) (str : String) (delim avoid : Char)
    (hs : avoid ∉ stream.rest) (hstr : avoid ∉ str.data) :
    avoid ∉ (getline stream str delim).1.rest ∧ avoid ∉ (getline stream str delim).2.1.data := by
  unfold getline
  split_ifs with hg
  · have hm := untilDelim_mem delim stream.rest avoid
    cases hu : untilDelim delim stream.rest with
    | mk token after =>
      rw [hu] at hm
      cases after with
      | none => exact ⟨by simp, fun h => hs (hm.1 h)⟩
      | some after => exact ⟨fun h => hs (hm.2 after rfl h), fun h => hs (hm.1 h)⟩
  · exact ⟨hs, hstr⟩

/-- The text `getline` leaves in `str` holds no delimiter when `str` held none. -/
theorem getline_delimFree (stream : IStream) (str : String) (delim : Char)
    (hstr : delim ∉ str.data) : delim ∉ (getline stream str delim).2.1.data := by
  unfold getline
  split_ifs with hg
  · have hm := untilDelim_fst_not_mem delim stream.rest
    cases hu : untilDelim delim stream.rest with
    | mk token after =>
      rw [hu] at hm
      cases after with
      | none => exact hm
      | some after => exact hm
  · exact hstr

theorem getline_success_delimFree (stream : IStream) (str : String) (delim : Char)
    (h : (getline stream str delim).2.2 = true) :
    delim ∉ (getline stream str delim).2.1.data := by
  unfold getline at h ⊢
  split_ifs at h ⊢ with hg
  · have hm := untilDelim_fst_not_mem delim stream.rest
    cases hu : untilDelim delim stream.rest with
    | mk token after =>
      rw [hu] at hm
      cases after with
      | none => exact hm
      | some after => exact hm

theorem getlines_loop_delimFree (delim : Char) (fuel : Nat) :
    ∀ (stream : IStream) (str : String),
      ∀ line ∈ getlines.loop delim fuel stream str, delim ∉ line.data := by
  induction fuel with
  | zero => intro stream str line h; simp [getlines.loop] at h
  | succ f ih =>
    intro stream str line h
    rw [getlines.loop] at h
    split_ifs at h with hok
    · rcases List.mem_cons.1 h with rfl | h
      · exact getline_success_delimFree stream str delim hok
      · exact ih _ _ line h
    · simp at h

/-- The three texts of a record that `GymClass::fromString` returns are what
the first three calls of `getline` read. -/
theorem GymClass.fromString_texts (line : String) (c : GymClass)
    (h : GymClass.fromString line = Decoded.clean c ∨
      GymClass.fromString line = Decoded.reported c) :
    c.className = (getline (IStream.ofString line) "" ',').2.1 ∧
    c.schedule = (getline (getline (IStream.ofString line) "" ',').1 "" ',').2.1 ∧
    c.trainerName =
      (getline (getline (getline (IStream.ofString line) "" ',').1 "" ',').1 "" ',').2.1 := by
  unfold GymClass.fromString at h
  simp only at h
  split at h
  · rcases h with h | h <;> cases h
  · rcases h with h | h <;> cases h
    exact ⟨rfl, rfl, rfl⟩
  · split at h
    · rcases h with h | h <;> cases h
    · rcases h with h | h <;> cases h
      exact ⟨rfl, rfl, rfl⟩
    · split at h
      · split at h
        · rcases h with h | h <;> cases h
          exact ⟨rfl, rfl, rfl⟩
        · rcases h with h | h <;> cases h
          exact ⟨rfl, rfl, rfl⟩
        · rcases h with h | h <;> cases h
      · rcases h with h | h <;> cases h
        exact ⟨rfl, rfl, rfl⟩

/-- A record that `GymClass::fromString` returns for a line without a line feed
has three texts that can each stand as a field. -/
theorem GymClass.fromString_storable (line : String) (c : GymClass)
    (hline : Char.ofNat 10 ∉ line.data)
    (h : GymClass.fromString line = Decoded.clean c ∨
      GymClass.fromString line = Decoded.reported c) : c.storable := by
  obtain ⟨e1, e2, e3⟩ := GymClass.fromString_texts line c h
  have hempty : ∀ ch : Char, ch ∉ ("" : String).data := by intro ch; simp
  have a1 := getline_avoids (IStream.ofString line) "" ',' (Char.ofNat 10) hline (hempty _)
  have a2 := getline_avoids (getline (IStream.ofString line) "" ',').1 "" ',' (Char.ofNat 10)
    a1.1 (hempty _)
  have a3 := getline_avoids (getline (getline (IStream.ofString line) "" ',').1 "" ',').1 ""
    ',' (Char.ofNat 10) a2.1 (hempty _)
  refine ⟨⟨?_, ?_⟩, ⟨?_, ?_⟩, ⟨?_, ?_⟩⟩
  · rw [e1]; exact getline_delimFree _ _ _ (hempty _)
  · rw [e1]; exact a1.2
  · rw [e2]; exact getline_delimFree _ _ _ (hempty _)
  · rw [e2]; exact a2.2
  · rw [e3]; exact getline_delimFree _ _ _ (hempty _)
  · rw [e3]; exact a3.2

theorem loadRecords_mem {α : Type} (fromString : Nat → String → Decoded α)
    (lines : List String) :
    ∀ (call : Nat) (records : List α) (reportedLines : List String),
      loadRecords fromString call lines = Loaded.returned records reportedLines →
      ∀ r ∈ records, ∃ line ∈ lines, ∃ k,
        fromString k line = Decoded.clean r ∨ fromString k line = Decoded.reported r := by
  induction lines with
  | nil =>
    intro call records rep h r hr
    simp only [loadRecords, Loaded.returned.injEq] at h
    rw [← h.1] at hr
    simp at hr
  | cons l more ih =>
    intro call records rep h r hr
    rw [loadRecords] at h
    split_ifs at h with hl
    · obtain ⟨line, hline, k, hk⟩ := ih call records rep h r hr
      exact ⟨line, List.mem_cons_of_mem _ hline, k, hk⟩
    · cases hd : fromString call l with
      | uncaught => rw [hd] at h; simp at h
      | clean x =>
        rw [hd] at h
        cases hm : loadRecords fromString (call + 1) more with
        | terminated => rw [hm] at h; simp at h
        | returned rs rp =>
          rw [hm] at h
          simp only [Loaded.returned.injEq] at h
          rw [← h.1] at hr
          rcases List.mem_cons.1 hr with rfl | hr
          · exact ⟨l, List.mem_cons_self _ _, call, Or.inl hd⟩
          · obtain ⟨line, hline, k, hk⟩ := ih (call + 1) rs rp hm r hr
            exact ⟨line, List.mem_cons_of_mem _ hline, k, hk⟩
      | reported x =>
        rw [hd] at h
        cases hm : loadRecords fromString (call + 1) more with
        | terminated => rw [hm] at h; simp at h
        | returned rs rp =>
          rw [hm] at h
          simp only [Loaded.returned.injEq] at h
          rw [← h.1] at hr
          rcases List.mem_cons.1 hr with rfl | hr
          · exact ⟨l, List.mem_cons_self _ _, call, Or.inr hd⟩
          · obtain ⟨line, hline, k, hk⟩ := ih (call + 1) rs rp hm r hr
            exact ⟨line, List.mem_cons_of_mem _ hline, k, hk⟩

/-- Every class that `loadClasses` returns, from whatever text, has three texts
that can each stand as a field: the lines hold no line feed and the fields no
comma. -/
theorem loadClasses_storable (file : String) (classes : List GymClass)
    (reportedLines : List String)
    (h : loadClasses file = Loaded.returned classes reportedLines) :
    ∀ c ∈ classes, c.storable := by
  intro c hc
  unfold loadClasses at h
  obtain ⟨line, hline, k, hk⟩ := loadRecords_mem _ _ 0 classes reportedLines h c hc
  exact GymClass.fromString_storable line c
    (getlines_loop_delimFree _ _ _ _ line hline) hk

/-- C1, refuted as stated: the sample store satisfies the invariant, and
`addClass` is given the class name `a,b,c,5,7`, the schedule `Mon-10:00`, the
trainer Alex and the capacity 20.  The class is written as the line
`a,b,c,5,7,Mon-10:00,Alex,20,0,`, which the next operation loads as a class
named `a` with capacity 5, enrolled 7 and no enrolled id: in the store it
works on, `enrolled` is neither the number of ids nor at most the capacity. -/
theorem enrolled_invariant_counterexample :
    sampleStore.enrolledInvariant ∧
    (addClass "a,b,c,5,7" "Mon-10:00" "Alex" [CInt.wrap 20] sampleStore).1 =
      AddClassResult.Added ∧
    saveClasses (addClass "a,b,c,5,7" "Mon-10:00" "Alex" [CInt.wrap 20] sampleStore).2.classes =
      "Pilates,Fri-09:00,Alex,1,1,5\nYoga,Mon-10:00,Alex,2,1,7\na,b,c,5,7,Mon-10:00,Alex,20,0,\n" ∧
    (addClass "a,b,c,5,7" "Mon-10:00" "Alex" [CInt.wrap 20] sampleStore).2.reloaded =
      some (Store.mk sampleStore.trainees sampleStore.trainers
        [pilates, yoga, ⟨"a", "b", "c", CInt.wrap 5, CInt.wrap 7, []⟩]) ∧
    ¬ (Store.mk sampleStore.trainees sampleStore.trainers
        [pilates, yoga, ⟨"a", "b", "c", CInt.wrap 5, CInt.wrap 7, []⟩]).enrolledInvariant := by
  decide

/-- C1, amended.  In a store whose classes satisfy
`enrolled == len(enrolledTraineeIds) <= capacity` and have a class name, a
schedule and a trainer name without comma and line feed, as all classes read
from a file have (last part), each of `signUpForClass`, `deleteTrainee`,
`deleteTrainer` and `deleteClass`, whatever its arguments, and `addClass` for a
class name, a schedule and a trainer name without comma and line feed,
whatever the capacity typed, returns classes that the next operation reads
back from the file exactly as they are, and every one of them satisfies the
invariant again. -/
theorem enrolled_invariant_preserved (s : Store) (h : s.enrolledInvariant)
    (hs : ∀ c ∈ s.classes, c.storable)
    (newName schedule trainerName : String) (capacityAnswers : List CInt)
    (hname : fieldText newName) (hschedule : fieldText schedule)
    (htrainer : fieldText trainerName)
    (trainee : Trainee) (signUpName : String) (traineeId trainerId : CInt)
    (deleteName : String) :
    ((addClass newName schedule trainerName capacityAnswers s).2.reloaded =
        some (addClass newName schedule trainerName capacityAnswers s).2 ∧
      (addClass newName schedule trainerName capacityAnswers s).2.enrolledInvariant) ∧
    ((signUpForClass trainee signUpName s).2.reloaded =
        some (signUpForClass trainee signUpName s).2 ∧
      (signUpForClass trainee signUpName s).2.enrolledInvariant) ∧
    ((deleteTrainee traineeId s).2.reloaded = some (deleteTrainee traineeId s).2 ∧
      (deleteTrainee traineeId s).2.enrolledInvariant) ∧
    ((deleteTrainer trainerId s).2.reloaded = some (deleteTrainer trainerId s).2 ∧
      (deleteTrainer trainerId s).2.enrolledInvariant) ∧
    ((deleteClass deleteName s).2.reloaded = some (deleteClass deleteName s).2 ∧
      (deleteClass deleteName s).2.enrolledInvariant) ∧
    (∀ (file : String) (classes : List GymClass) (reportedLines : List String),
      loadClasses file = Loaded.returned classes reportedLines →
      ∀ c ∈ classes, c.storable) := by
  refine ⟨⟨Store.reloaded_self _ ?_, ?_⟩, ⟨Store.reloaded_self _ ?_, ?_⟩,
    ⟨Store.reloaded_self _ ?_, ?_⟩, ⟨Store.reloaded_self _ ?_, ?_⟩,
    ⟨Store.reloaded_self _ ?_, ?_⟩, loadClasses_storable⟩
  · unfold addClass
    cases get_numeric_input capacityAnswers (CInt.wrap 1) (CInt.wrap 100) with
    | none => exact hs
    | some capacity =>
      simp only
      split_ifs
      · intro c hc
        rcases List.mem_append.1 hc with hc | hc
        · exact hs c hc
        · rw [List.mem_singleton] at hc
          subst hc
          exact ⟨hname, hschedule, htrainer⟩
      · exact hs
  · unfold addClass
    cases hcap : get_numeric_input capacityAnswers (CInt.wrap 1) (CInt.wrap 100) with
    | none => exact h
    | some capacity =>
      have hr := (get_numeric_input_range hcap).1
      have h1 : (CInt.wrap 1).val = 1 := CInt.wrap_val (by omega)
      simp only
      split_ifs
      · intro c hc
        rcases List.mem_append.1 hc with hc | hc
        · exact h c hc
        · rw [List.mem_singleton] at hc
          subst hc
          have h0 : (CInt.wrap 0).val = 0 := CInt.wrap_val (by omega)
          refine ⟨?_, ?_⟩
          · simp [GymClass.new, h0]
          · simp only [GymClass.new, h0]; omega
      · exact h
  · unfold signUpForClass
    split_ifs
    · exact hs
    · exact signUpLoop_storable _ _ _ hs
  · unfold signUpForClass
    split_ifs
    · exact h
    · exact signUpLoop_enrolledOk _ _ _ h
  · unfold deleteTrainee
    split_ifs
    · intro c hc
      obtain ⟨d, hd, rfl⟩ := List.mem_map.1 hc
      exact unenroll_storable _ _ (hs d hd)
    · exact hs
  · unfold deleteTrainee
    split_ifs
    · intro c hc
      obtain ⟨d, hd, rfl⟩ := List.mem_map.1 hc
      exact unenroll_enrolledOk _ _ (h d hd)
    · exact h
  · unfold deleteTrainer
    cases s.trainers.find? (fun t => decide (t.id = trainerId)) with
    | none => exact hs
    | some t => exact fun c hc => hs c (List.mem_of_mem_filter hc)
  · unfold deleteTrainer
    cases s.trainers.find? (fun t => decide (t.id = trainerId)) with
    | none => exact h
    | some t => exact fun c hc => h c (List.mem_of_mem_filter hc)
  · unfold deleteClass
    split_ifs
    · exact fun c hc => hs c (List.mem_of_mem_filter hc)
    · exact hs
  · unfold deleteClass
    split_ifs
    · exact fun c hc => h c (List.mem_of_mem_filter hc)
    · exact h

/-- C1 amended, at the sample store: a class is added, trainee 5 signs up for
Yoga, trainee 7 is deleted, trainer 1 is deleted, Pilates is deleted. -/
theorem enrolled_invariant_preserved_witness :
    (sampleStore.enrolledInvariant ∧ (∀ c ∈ sampleStore.classes, c.storable) ∧
      fieldText "HIIT" ∧ fieldText "Tue-09:00" ∧ fieldText "Alex") ∧
    (((addClass "HIIT" "Tue-09:00" "Alex" [CInt.wrap 0, CInt.wrap 20] sampleStore).2.reloaded =
        some (addClass "HIIT" "Tue-09:00" "Alex" [CInt.wrap 0, CInt.wrap 20] sampleStore).2 ∧
      (addClass "HIIT" "Tue-09:00" "Alex" [CInt.wrap 0, CInt.wrap 20]
        sampleStore).2.enrolledInvariant) ∧
    ((signUpForClass bob "Yoga" sampleStore).2.reloaded =
        some (signUpForClass bob "Yoga" sampleStore).2 ∧
      (signUpForClass bob "Yoga" sampleStore).2.enrolledInvariant) ∧
    ((deleteTrainee (CInt.wrap 7) sampleStore).2.reloaded =
        some (deleteTrainee (CInt.wrap 7) sampleStore).2 ∧
      (deleteTrainee (CInt.wrap 7) sampleStore).2.enrolledInvariant) ∧
    ((deleteTrainer (CInt.wrap 1) sampleStore).2.reloaded =
        some (deleteTrainer (CInt.wrap 1) sampleStore).2 ∧
      (deleteTrainer (CInt.wrap 1) sampleStore).2.enrolledInvariant) ∧
    ((deleteClass "Pilates" sampleStore).2.reloaded =
        some (deleteClass "Pilates" sampleStore).2 ∧
      (deleteClass "Pilates" sampleStore).2.enrolledInvariant) ∧
    (∀ (file : String) (classes : List GymClass) (reportedLines : List String),
      loadClasses file = Loaded.returned classes reportedLines →
      ∀ c ∈ classes, c.storable)) :=
  ⟨by decide,
    enrolled_invariant_preserved sampleStore (by decide) (by decide) "HIIT" "Tue-09:00" "Alex"
      [CInt.wrap 0, CInt.wrap 20] (by decide) (by decide) (by decide)
      bob "Yoga" (CInt.wrap 7) (CInt.wrap 1) "Pilates"⟩

set_option maxRecDepth 100000 in
/-- C8, refuted as stated for `addClass`: in the store with the trainers Alex
and Casey every class has a stored trainer, and `addClass` is given the class
name `Yoga,Sat-08:00,Zed,10,0` with the trainer Alex.  The line written,
`Yoga,Sat-08:00,Zed,10,0,Mon-10:00,Alex,20,0,`, is loaded by the next
operation as a class of the trainer `Zed`, whom no stored trainer is. -/
theorem no_orphaned_classes_counterexample :
    (distinctTrainerIds twoTrainerStore.trainers ∧ twoTrainerStore.noOrphanedClasses) ∧
    (addClass "Yoga,Sat-08:00,Zed,10,0" "Mon-10:00" "Alex" [CInt.wrap 20] twoTrainerStore).1 =
      AddClassResult.Added ∧
    (addClass "Yoga,Sat-08:00,Zed,10,0" "Mon-10:00" "Alex" [CInt.wrap 20]
        twoTrainerStore).2.reloaded =
      some (Store.mk twoTrainerStore.trainees twoTrainerStore.trainers
        [yoga, barre, pilates, ⟨"Yoga", "Sat-08:00", "Zed", CInt.wrap 10, CInt.wrap 0, []⟩]) ∧
    ¬ (Store.mk twoTrainerStore.trainees twoTrainerStore.trainers
        [yoga, barre, pilates,
          ⟨"Yoga", "Sat-08:00", "Zed", CInt.wrap 10, CInt.wrap 0, []⟩]).noOrphanedClasses := by
  decide

/-- C8, amended.  In a store with pairwise distinct trainer ids where the trainer
name of every class is the name of a stored trainer, the same is true after
`deleteTrainer(id)`, for every id; and when the texts of the classes hold no
comma and no line feed, it is true after `addClass` of the classes the next
operation reads back from the file, which are the classes `addClass` saved,
for every class name, schedule and trainer name without comma and line feed
and every capacity typed. -/
theorem no_orphaned_classes (s : Store) (hd : distinctTrainerIds s.trainers)
    (h : s.noOrphanedClasses) (id : CInt)
    (className schedule trainerName : String) (capacityAnswers : List CInt) :
    (deleteTrainer id s).2.noOrphanedClasses ∧
    ((∀ c ∈ s.classes, c.storable) → fieldText className → fieldText schedule →
      fieldText trainerName →
      (deleteTrainer id s).2.reloaded = some (deleteTrainer id s).2 ∧
      (addClass className schedule trainerName capacityAnswers s).2.reloaded =
        some (addClass className schedule trainerName capacityAnswers s).2 ∧
      (addClass className schedule trainerName capacityAnswers s).2.noOrphanedClasses) := by
  refine ⟨?_, fun hs hname hschedule htrainer =>
    ⟨Store.reloaded_self _ ?_, Store.reloaded_self _ ?_, ?_⟩⟩
  · unfold deleteTrainer
    cases hf : s.trainers.find? (fun t => decide (t.id = id)) with
    | none => exact h
    | some t =>
      have ht : t ∈ s.trainers := List.mem_of_find?_eq_some hf
      have hid : t.id = id := by simpa using List.find?_some hf
      intro c hc
      obtain ⟨hc1, hc2⟩ := List.mem_filter.1 hc
      have hne : c.trainerName ≠ t.name := by simpa using hc2
      obtain ⟨u, hu, hname⟩ := h c hc1
      refine ⟨u, List.mem_filter.2 ⟨hu, ?_⟩, hname⟩
      have hux : u.id ≠ id := by
        intro e
        have : u = t := eq_of_distinct_ids hd ht hu (e.trans hid.symm)
        exact hne (by rw [← hname, this])
      simpa using hux
  · unfold deleteTrainer
    cases s.trainers.find? (fun t => decide (t.id = id)) with
    | none => exact hs
    | some t => exact fun c hc => hs c (List.mem_of_mem_filter hc)
  · unfold addClass
    cases get_numeric_input capacityAnswers (CInt.wrap 1) (CInt.wrap 100) with
    | none => exact hs
    | some capacity =>
      simp only
      split_ifs
      · intro c hc
        rcases List.mem_append.1 hc with hc | hc
        · exact hs c hc
        · rw [List.mem_singleton] at hc
          subst hc
          exact ⟨hname, hschedule, htrainer⟩
      · exact hs
  · unfold addClass
    cases get_numeric_input capacityAnswers (CInt.wrap 1) (CInt.wrap 100) with
    | none => exact h
    | some capacity =>
      simp only
      split_ifs with hfound
      · intro c hc
        rcases List.mem_append.1 hc with hc | hc
        · exact h c hc
        · rw [List.mem_singleton] at hc
          subst hc
          obtain ⟨u, hu, hname⟩ := List.any_eq_true.1 hfound
          exact ⟨u, hu, by simpa using hname⟩
      · exact h

/-- C8 amended, at a store with two trainers: trainer 1, Alex, is deleted; a class
of Alex's is added. -/
theorem no_orphaned_classes_witness :
    (distinctTrainerIds twoTrainerStore.trainers ∧ twoTrainerStore.noOrphanedClasses ∧
      (∀ c ∈ twoTrainerStore.classes, c.storable) ∧ fieldText "HIIT" ∧
      fieldText "Tue-09:00" ∧ fieldText "Alex") ∧
    ((deleteTrainer (CInt.wrap 1) twoTrainerStore).2.noOrphanedClasses ∧
      ((∀ c ∈ twoTrainerStore.classes, c.storable) → fieldText "HIIT" →
        fieldText "Tue-09:00" → fieldText "Alex" →
        (deleteTrainer (CInt.wrap 1) twoTrainerStore).2.reloaded =
          some (deleteTrainer (CInt.wrap 1) twoTrainerStore).2 ∧
        (addClass "HIIT" "Tue-09:00" "Alex" [CInt.wrap 20] twoTrainerStore).2.reloaded =
          some (addClass "HIIT" "Tue-09:00" "Alex" [CInt.wrap 20] twoTrainerStore).2 ∧
        (addClass "HIIT" "Tue-09:00" "Alex" [CInt.wrap 20]
          twoTrainerStore).2.noOrphanedClasses)) :=
  ⟨by decide,
    no_orphaned_classes twoTrainerStore (by decide) (by decide) (CInt.wrap 1)
      "HIIT" "Tue-09:00" "Alex" [CInt.wrap 20]⟩

/-- C19, refuted as stated: `addClass` is given the class name `a,b` with the
trainer Alex and the capacity 20.  The class handed to `saveClasses` has that
name, but the line written, `a,b,Mon-10:00,Alex,20,0,`, is loaded by the next
operation as a class named `a` with the schedule `b`, the trainer name
`Mon-10:00` and the capacity 0: the class collection holds no class with the
given name, schedule, trainer name and capacity, and a sign-up for `a,b` finds
no class. -/
theorem addClass_outcome_counterexample :
    (∃ t ∈ sampleStore.trainers, t.name = "Alex") ∧
    addClass "a,b" "Mon-10:00" "Alex" [CInt.wrap 20] sampleStore =
      (AddClassResult.Added,
        Store.mk sampleStore.trainees sampleStore.trainers
          (sampleStore.classes ++
            [GymClass.mk "a,b" "Mon-10:00" "Alex" (CInt.wrap 20) (CInt.wrap 0) []])) ∧
    (addClass "a,b" "Mon-10:00" "Alex" [CInt.wrap 20] sampleStore).2.reloaded =
      some (Store.mk sampleStore.trainees sampleStore.trainers
        (sampleStore.classes ++
          [GymClass.mk "a" "b" "Mon-10:00" (CInt.wrap 0) (CInt.wrap 0) []])) ∧
    (signUpForClass bob "a,b"
      (addClass "a,b" "Mon-10:00" "Alex" [CInt.wrap 20] sampleStore).2).1 =
        SignUpResult.Success ∧
    (signUpForClass bob "a,b"
      (Store.mk sampleStore.trainees sampleStore.trainers
        (sampleStore.classes ++
          [GymClass.mk "a" "b" "Mon-10:00" (CInt.wrap 0) (CInt.wrap 0) []]))).1 =
        SignUpResult.ClassNotFound := by
  decide

/-- C19, amended.  With a capacity accepted at the capacity prompt: when no
stored trainer has exactly the name `trainerName`, `addClass` reports
`UnknownTrainer` and returns the store unchanged; when one has, it hands to
`saveClasses` the classes, all left as they were, followed by one class with
the given name, schedule, trainer name and capacity, `enrolled` 0 and no
enrolled id, whether or not a class of that name is already there.  When the
class name, the schedule and the trainer name, and the texts of the classes
already there, hold no comma and no line feed, these are the very classes the
next operation reads back from the file. -/
theorem addClass_outcome (s : Store) (className schedule trainerName : String)
    (capacityAnswers : List CInt) (capacity : CInt)
    (hcap : get_numeric_input capacityAnswers (CInt.wrap 1) (CInt.wrap 100) = some capacity) :
    ((∀ t ∈ s.trainers, t.name ≠ trainerName) →
      addClass className schedule trainerName capacityAnswers s =
        (AddClassResult.UnknownTrainer, s)) ∧
    ((∃ t ∈ s.trainers, t.name = trainerName) →
      addClass className schedule trainerName capacityAnswers s =
        (AddClassResult.Added,
          Store.mk s.trainees s.trainers
            (s.classes ++
              [GymClass.mk className schedule trainerName capacity (CInt.wrap 0) []])) ∧
      (CInt.wrap 0).val = 0) ∧
    ((∀ c ∈ s.classes, c.storable) → fieldText className → fieldText schedule →
      fieldText trainerName →
      (addClass className schedule trainerName capacityAnswers s).2.reloaded =
        some (addClass className schedule trainerName capacityAnswers s).2) := by
  refine ⟨?_, ?_, ?_⟩
  · intro hno
    have hany : ¬ s.trainers.any (fun t => decide (t.name = trainerName)) = true := by
      intro h
      obtain ⟨t, ht, e⟩ := List.any_eq_true.1 h
      exact hno t ht (by simpa using e)
    unfold addClass
    rw [hcap]
    simp only [if_neg hany]
  · intro hsome
    have hany : s.trainers.any (fun t => decide (t.name = trainerName)) = true := by
      obtain ⟨t, ht, e⟩ := hsome
      exact List.any_eq_true.2 ⟨t, ht, by simpa using e⟩
    unfold addClass
    rw [hcap]
    simp only [if_pos hany]
    exact ⟨rfl, CInt.wrap_val (by omega)⟩
  · intro hs hname hschedule htrainer
    apply Store.reloaded_self
    unfold addClass
    rw [hcap]
    simp only
    split_ifs
    · intro c hc
      rcases List.mem_append.1 hc with hc | hc
      · exact hs c hc
      · rw [List.mem_singleton] at hc
        subst hc
        exact ⟨hname, hschedule, htrainer⟩
    · exact hs

/-- C19 amended, at the sample store, which has a class named Yoga: a second
class named Yoga is added for the trainer Alex; 0 is refused at the capacity
prompt and 30 accepted. -/
theorem addClass_outcome_witness :
    get_numeric_input [CInt.wrap 0, CInt.wrap 30] (CInt.wrap 1) (CInt.wrap 100) =
      some (CInt.wrap 30) ∧
    (((∀ t ∈ sampleStore.trainers, t.name ≠ "Alex") →
      addClass "Yoga" "Sat-08:00" "Alex" [CInt.wrap 0, CInt.wrap 30] sampleStore =
        (AddClassResult.UnknownTrainer, sampleStore)) ∧
    ((∃ t ∈ sampleStore.trainers, t.name = "Alex") →
      addClass "Yoga" "Sat-08:00" "Alex" [CInt.wrap 0, CInt.wrap 30] sampleStore =
        (AddClassResult.Added,
          Store.mk sampleStore.trainees sampleStore.trainers
            (sampleStore.classes ++
              [GymClass.mk "Yoga" "Sat-08:00" "Alex" (CInt.wrap 30) (CInt.wrap 0) []])) ∧
      (CInt.wrap 0).val = 0) ∧
    ((∀ c ∈ sampleStore.classes, c.storable) → fieldText "Yoga" → fieldText "Sat-08:00" →
      fieldText "Alex" →
      (addClass "Yoga" "Sat-08:00" "Alex" [CInt.wrap 0, CInt.wrap 30] sampleStore).2.reloaded =
        some (addClass "Yoga" "Sat-08:00" "Alex" [CInt.wrap 0, CInt.wrap 30] sampleStore).2)) :=
  ⟨by decide,
    addClass_outcome sampleStore "Yoga" "Sat-08:00" "Alex" [CInt.wrap 0, CInt.wrap 30]
      (CInt.wrap 30) (by decide)⟩

/-! ## Floating point: rounding -/

theorem F32.spacing_pos (fuel : Nat) : ∀ x, 0 < F32.spacing fuel x := by
  induction fuel with
  | zero => intro x; simp [F32.spacing]
  | succ f ih =>
    intro x
    rw [F32.spacing]
    split_ifs
    · exact Nat.one_pos
    · have := ih (x / 2)
      omega

/-- The spacing around a normal number is at most that number over `2^23`. -/
theorem F32.spacing_le (fuel : Nat) : ∀ x, 2 ^ 23 ≤ x → F32.spacing fuel x * 2 ^ 23 ≤ x := by
  induction fuel with
  | zero => intro x h; simpa [F32.spacing] using h
  | succ f ih =>
    intro x h
    rw [F32.spacing]
    split_ifs with hx
    · simpa using h
    · have h2 : 2 ^ 23 ≤ x / 2 := by
        have : 2 ^ 24 ≤ x := not_lt.1 hx
        omega
      have := ih (x / 2) h2
      omega

/-- Rounding a number of the normal range that is not too large gives a finite
`float` within half a spacing, so within the number over `2^24`. -/
theorem F32.roundUnits_spec (num den : Nat) (hden : 0 < den)
    (hlow : 2 ^ 23 * den ≤ num) (hhigh : num ≤ 2 ^ 127 * F32.one * den) :
    ∃ k : Nat, F32.roundUnits num den = some k ∧
      2 ^ 24 * |(k : Int) * den - num| ≤ num := by
  have hx : 2 ^ 23 ≤ num / den := (Nat.le_div_iff_mul_le hden).2 hlow
  have hsp := F32.spacing_pos (num / den) (num / den)
  have hsple := F32.spacing_le (num / den) (num / den) hx
  unfold F32.roundUnits
  simp only
  generalize F32.spacing (num / den) (num / den) = sp at hsp hsple ⊢
  have hD : 0 < den * sp := Nat.mul_pos hden hsp
  have hdm : den * sp * (num / (den * sp)) + num % (den * sp) = num := Nat.div_add_mod _ _
  have hr : num % (den * sp) < den * sp := Nat.mod_lt _ hD
  have hDle : den * sp * 2 ^ 23 ≤ num := by
    calc den * sp * 2 ^ 23 = den * (sp * 2 ^ 23) := by ring
      _ ≤ den * (num / den) := Nat.mul_le_mul_left _ hsple
      _ ≤ num := Nat.mul_div_le _ _
  have hnumpos : 0 < num := by
    have : 0 < 2 ^ 23 * den := by positivity
    omega
  -- the rounded quotient and its distance to the exact one
  have key : ∀ k : Nat,
      (k = num / (den * sp) ∧ 2 * (num % (den * sp)) ≤ den * sp) ∨
      (k = num / (den * sp) + 1 ∧ den * sp ≤ 2 * (num % (den * sp))) →
      k * sp < 2 ^ 128 * F32.one ∧ 2 ^ 24 * |((k * sp : Nat) : Int) * den - num| ≤ num := by
    intro k hk
    generalize num / (den * sp) = n at hdm hk
    generalize num % (den * sp) = r at hdm hr hk
    have hprod : ((k * sp : Nat) : Int) * den = (den * sp : Nat) * (k : Int) := by
      push_cast; ring
    have hnum : (num : Int) = (den * sp : Nat) * (n : Int) + r := by
      rw [← hdm]; push_cast; ring
    generalize den * sp = D at hD hdm hr hDle hk hprod hnum
    have habs : 2 * |((k * sp : Nat) : Int) * den - num| ≤ D := by
      rw [hprod, hnum]
      rcases hk with ⟨hk, h2⟩ | ⟨hk, h2⟩
      · have e : (D : Int) * (k : Int) - ((D : Int) * n + r) = -(r : Int) := by
          rw [hk]; ring
        rw [e, abs_neg, abs_of_nonneg (by positivity)]
        exact_mod_cast h2
      · have e : (D : Int) * (k : Int) - ((D : Int) * n + r) = (D : Int) - r := by
          rw [hk]; push_cast; ring
        rw [e, abs_of_nonneg (by omega)]
        omega
    have hbound : 2 ^ 24 * |((k * sp : Nat) : Int) * den - num| ≤ num := by
      have h1 : (2 : Int) ^ 24 * |((k * sp : Nat) : Int) * den - num| ≤ 2 ^ 23 * (D : Int) := by
        have : (2 : Int) ^ 24 = 2 ^ 23 * 2 := by norm_num
        rw [this, mul_assoc]
        exact mul_le_mul_of_nonneg_left habs (by norm_num)
      have h2 : (2 : Int) ^ 23 * (D : Int) ≤ num := by
        have : ((D * 2 ^ 23 : Nat) : Int) ≤ (num : Int) := by exact_mod_cast hDle
        push_cast at this
        linarith
      exact le_trans h1 h2
    refine ⟨?_, hbound⟩
    -- no overflow: k * sp * den < 2 * num <= 2^128 * one * den
    have h3 : ((k * sp : Nat) : Int) * den < 2 * num := by
      have hle := le_abs_self (((k * sp : Nat) : Int) * den - num)
      have hpos : (0 : Int) < num := by exact_mod_cast hnumpos
      norm_num at hbound
      omega
    have h4 : k * sp * den < 2 * num := by exact_mod_cast h3
    have h5 : k * sp * den < 2 ^ 128 * F32.one * den := by
      calc k * sp * den < 2 * num := h4
        _ ≤ 2 * (2 ^ 127 * F32.one * den) := Nat.mul_le_mul_left _ hhigh
        _ = 2 ^ 128 * F32.one * den := by ring
    exact Nat.lt_of_mul_lt_mul_right h5
  split_ifs with c1 c2 c3 c4 c5 c6 c7
  all_goals first
    | exact ⟨_, rfl, (key _ (Or.inl ⟨rfl, by omega⟩)).2⟩
    | exact ⟨_, rfl, (key _ (Or.inr ⟨rfl, by omega⟩)).2⟩
    | exact absurd (key _ (Or.inl ⟨rfl, by omega⟩)).1 (by assumption)
    | exact absurd (key _ (Or.inr ⟨rfl, by omega⟩)).1 (by assumption)

/-- Rounding, as a relative error: the rounded number is within the exact one
over `2^24`. -/
theorem F32.round_close (num den : Nat) (hden : 0 < den)
    (hlow : 2 ^ 23 * den ≤ num) (hhigh : num ≤ 2 ^ 127 * F32.one * den) :
    ∃ k : Nat, F32.round false num den = F32.finite (k : Int) ∧
      2 ^ 24 * |(k : Int) * den - num| ≤ num ∧
      |(k : ℚ) - (num : ℚ) / den| ≤ (num : ℚ) / den / 2 ^ 24 := by
  obtain ⟨k, hk, hb⟩ := F32.roundUnits_spec num den hden hlow hhigh
  refine ⟨k, by simp [F32.round, hk], hb, ?_⟩
  have hdq : (0 : ℚ) < den := by exact_mod_cast hden
  have hq : (2 : ℚ) ^ 24 * |(k : ℚ) * den - num| ≤ num := by
    have := (Int.cast_le (R := ℚ)).2 hb
    push_cast at this
    simpa using this
  have e : (k : ℚ) - (num : ℚ) / den = ((k : ℚ) * den - num) / den := by
    field_simp
  rw [e, abs_div, abs_of_pos hdq, div_div, div_le_div_iff₀ hdq (by positivity)]
  have hmul : (den : ℚ) * ((2 : ℚ) ^ 24 * |(k : ℚ) * den - num|) ≤ (den : ℚ) * (num : ℚ) :=
    mul_le_mul_of_nonneg_left hq hdq.le
  linarith

/-- Two roundings in a row, of a divisor and of the quotient by it, leave the
quotient within itself over `2^22`. -/
theorem two_roundings (w H P K : ℚ) (hw : 0 < w) (hH : 0 < H)
    (h1 : |P - H| ≤ H / 2 ^ 24) (h2 : |K - w / P| ≤ w / P / 2 ^ 24) :
    |K - w / H| ≤ w / H / 2 ^ 22 := by
  obtain ⟨h1a, h1b⟩ := abs_le.1 h1
  have hP : 0 < P := by
    have : H / 2 ^ 24 < H := by
      rw [div_lt_iff₀ (by positivity)]
      nlinarith
    linarith
  have hx : 0 < w / P := div_pos hw hP
  have hy : 0 < w / H := div_pos hw hH
  have hxP : w / P * P = w := div_mul_cancel₀ w hP.ne'
  have hyH : w / H * H = w := div_mul_cancel₀ w hH.ne'
  obtain ⟨h2a, h2b⟩ := abs_le.1 h2
  generalize w / P = x at hx hxP h2a h2b
  generalize w / H = y at hy hyH
  -- x and y differ by the relative error of P
  have hxy1 : x * (1 - 1 / 2 ^ 24) ≤ y := by
    have : x * ((1 - 1 / 2 ^ 24) * H) ≤ x * P :=
      mul_le_mul_of_nonneg_left (by linarith) hx.le
    have : (x * (1 - 1 / 2 ^ 24)) * H ≤ y * H := by linarith
    exact le_of_mul_le_mul_right this hH
  have hxy2 : y ≤ x * (1 + 1 / 2 ^ 24) := by
    have : x * P ≤ x * ((1 + 1 / 2 ^ 24) * H) :=
      mul_le_mul_of_nonneg_left (by linarith) hx.le
    have : y * H ≤ (x * (1 + 1 / 2 ^ 24)) * H := by linarith
    exact le_of_mul_le_mul_right this hH
  rw [abs_le]
  norm_num at hxy1 hxy2 h2a h2b ⊢
  constructor <;> linarith

theorem F32.one_eq : F32.one = 713623846352979940529142984724747568191373312 := by
  norm_num [F32.one]

/-- A number within a `2^24`-th of a positive one is between half and twice
of it. -/
theorem close_bounds (X A : Int) (h : 2 ^ 24 * |X - A| ≤ A) : A ≤ 2 * X ∧ X ≤ 2 * A := by
  have t0 := abs_nonneg (X - A)
  have t1 := le_abs_self (X - A)
  have t2 := neg_abs_le (X - A)
  norm_num at h
  constructor <;> linarith

/-- The product `h * h` for a height of `a` units between 0.5 and 3: a finite
`float` of `p` units, within its spacing of the exact square. -/
theorem F32.mul_self_close (a : Nat) (ha1 : F32.one ≤ 2 * a) (ha2 : a ≤ 3 * F32.one) :
    ∃ p : Nat, F32.mul (F32.finite a) (F32.finite a) = F32.finite (p : Int) ∧
      2 ^ 146 ≤ p ∧ p ≤ 18 * F32.one ∧
      |(p : ℚ) - ((a : ℚ) * a) / F32.one| ≤ ((a : ℚ) * a) / F32.one / 2 ^ 24 := by
  have hone := F32.one_eq
  have hA1 : 2 ^ 148 * 2 ^ 148 ≤ a * a :=
    Nat.mul_le_mul (by rw [hone] at ha1; omega) (by rw [hone] at ha1; omega)
  have hA2 : a * a ≤ (3 * F32.one) * (3 * F32.one) := Nat.mul_le_mul ha2 ha2
  obtain ⟨p, hp, hint, hq⟩ := F32.round_close (a * a) F32.one (by rw [hone]; norm_num)
    (le_trans (by rw [hone]; norm_num) hA1)
    (le_trans hA2 (by rw [hone]; norm_num))
  obtain ⟨c1, c2⟩ := close_bounds _ _ hint
  have c1n : a * a ≤ 2 * (p * F32.one) := by exact_mod_cast c1
  have c2n : p * F32.one ≤ 2 * (a * a) := by exact_mod_cast c2
  rw [hone] at c1n c2n hA2
  norm_num at hA1 hA2
  generalize a * a = A at hA1 hA2 c1n c2n
  refine ⟨p, ?_, ?_, ?_, ?_⟩
  · simpa [F32.mul] using hp
  · omega
  · rw [hone]
    omega
  · simpa using hq

/-- The quotient `w / p` for a weight of `b` units between 20 and 300 and a
squared height of `p` units: a positive finite `float`, within its spacing of
the exact quotient. -/
theorem F32.div_close (b p : Nat) (hb1 : 20 * F32.one ≤ b) (hb2 : b ≤ 300 * F32.one)
    (hp1 : 2 ^ 146 ≤ p) (hp2 : p ≤ 18 * F32.one) :
    ∃ k : Nat, F32.div (F32.finite b) (F32.finite p) = F32.finite (k : Int) ∧ 0 < k ∧
      |(k : ℚ) - ((b : ℚ) * F32.one) / p| ≤ ((b : ℚ) * F32.one) / p / 2 ^ 24 := by
  have hone := F32.one_eq
  have hppos : 0 < p := lt_of_lt_of_le (by norm_num) hp1
  have hB1 : 20 * F32.one * F32.one ≤ b * F32.one := Nat.mul_le_mul_right _ hb1
  have hB2 : b * F32.one ≤ 300 * F32.one * F32.one := Nat.mul_le_mul_right _ hb2
  obtain ⟨k, hk, hint, hq⟩ := F32.round_close (b * F32.one) p hppos
    (le_trans (by rw [hone] at hp2 ⊢; omega) hB1)
    (le_trans hB2 (by rw [hone]; omega))
  refine ⟨k, ?_, ?_, ?_⟩
  · have hp0 : (p : Int) ≠ 0 := by exact_mod_cast hppos.ne'
    simpa [F32.div, hp0] using hk
  · rcases Nat.eq_zero_or_pos k with h0 | h0
    · exfalso
      subst h0
      have hpos : (0 : Int) < ((b * F32.one : Nat) : Int) := by
        have : 0 < b * F32.one := lt_of_lt_of_le (by rw [hone]; norm_num) hB1
        exact_mod_cast this
      obtain ⟨c1, -⟩ := close_bounds _ _ hint
      simp only [Nat.cast_zero, zero_mul, mul_zero] at c1
      omega
    · exact h0
  · simpa using hq

theorem F32.lt_finite_iff (k : Int) (num den : Nat) (hden : 0 < den) :
    F32.lt (F32.finite k) num den = true ↔
      F32.toRat (F32.finite k) < (num : ℚ) / den := by
  have hO : (0 : ℚ) < (F32.one : ℚ) := by rw [F32.one_eq]; norm_num
  have hd : (0 : ℚ) < (den : ℚ) := by exact_mod_cast hden
  simp only [F32.lt, F32.toRat, decide_eq_true_eq]
  rw [div_lt_div_iff₀ hO hd]
  exact_mod_cast Iff.rfl

theorem F32.ge_finite_iff (k : Int) (num den : Nat) (hden : 0 < den) :
    F32.ge (F32.finite k) num den = true ↔
      (num : ℚ) / den ≤ F32.toRat (F32.finite k) := by
  have hO : (0 : ℚ) < (F32.one : ℚ) := by rw [F32.one_eq]; norm_num
  have hd : (0 : ℚ) < (den : ℚ) := by exact_mod_cast hden
  simp only [F32.ge, F32.toRat, decide_eq_true_eq]
  rw [div_le_div_iff₀ hd hO]
  exact_mod_cast Iff.rfl

/-- The four bands of `provideBmiFeedback` on a finite `float`. -/
theorem provideBmiFeedback_bands (k : Int) :
    (provideBmiFeedback (F32.finite k) = BmiCategory.Underweight ↔
      F32.toRat (F32.finite k) < 37 / 2) ∧
    (provideBmiFeedback (F32.finite k) = BmiCategory.NormalWeight ↔
      37 / 2 ≤ F32.toRat (F32.finite k) ∧ F32.toRat (F32.finite k) < 25) ∧
    (provideBmiFeedback (F32.finite k) = BmiCategory.Overweight ↔
      25 ≤ F32.toRat (F32.finite k) ∧ F32.toRat (F32.finite k) < 30) ∧
    (provideBmiFeedback (F32.finite k) = BmiCategory.Obese ↔
      30 ≤ F32.toRat (F32.finite k)) := by
  have l1 := F32.lt_finite_iff k 37 2 (by norm_num)
  have l2 := F32.lt_finite_iff k 25 1 (by norm_num)
  have l3 := F32.lt_finite_iff k 30 1 (by norm_num)
  have g1 := F32.ge_finite_iff k 37 2 (by norm_num)
  have g2 := F32.ge_finite_iff k 25 1 (by norm_num)
  norm_num at l1 l2 l3 g1 g2
  generalize F32.toRat (F32.finite k) = x at l1 l2 l3 g1 g2 ⊢
  unfold provideBmiFeedback
  by_cases c1 : x < 37 / 2
  · have e1 := l1.2 c1
    simp only [e1, if_true]
    refine ⟨by simp [c1], ?_, ?_, ?_⟩
    · constructor
      · intro h; cases h
      · rintro ⟨h, -⟩; linarith
    · constructor
      · intro h; cases h
      · rintro ⟨h, -⟩; linarith
    · constructor
      · intro h; cases h
      · intro h; linarith
  · have e1 : F32.lt (F32.finite k) 37 2 = false := by
      rw [← Bool.not_eq_true, l1]; exact c1
    have e1g : F32.ge (F32.finite k) 37 2 = true := g1.2 (not_lt.1 c1)
    simp only [e1, e1g, Bool.true_and, Bool.false_eq_true, if_false]
    by_cases c2 : x < 25
    · have e2 := l2.2 c2
      simp only [e2, if_true]
      refine ⟨?_, ?_, ?_, ?_⟩
      · constructor
        · intro h; cases h
        · intro h; exact absurd h c1
      · simp [c2, not_lt.1 c1]
      · constructor
        · intro h; cases h
        · rintro ⟨h, -⟩; linarith
      · constructor
        · intro h; cases h
        · intro h; linarith
    · have e2 : F32.lt (F32.finite k) 25 1 = false := by
        rw [← Bool.not_eq_true, l2]; exact c2
      have e2g : F32.ge (F32.finite k) 25 1 = true := g2.2 (not_lt.1 c2)
      simp only [e2, e2g, Bool.true_and, Bool.false_eq_true, if_false]
      by_cases c3 : x < 30
      · have e3 := l3.2 c3
        simp only [e3, if_true]
        refine ⟨?_, ?_, ?_, ?_⟩
        · constructor
          · intro h; cases h
          · intro h; exact absurd h c1
        · constructor
          · intro h; cases h
          · rintro ⟨-, h⟩; exact absurd h c2
        · simp [c3, not_lt.1 c2]
        · constructor
          · intro h; cases h
          · intro h; linarith
      · have e3 : F32.lt (F32.finite k) 30 1 = false := by
          rw [← Bool.not_eq_true, l3]; exact c3
        simp only [e3, Bool.false_eq_true, if_false]
        refine ⟨?_, ?_, ?_, ?_⟩
        · constructor
          · intro h; cases h
          · intro h; exact absurd h c1
        · constructor
          · intro h; cases h
          · rintro ⟨-, h⟩; exact absurd h c2
        · constructor
          · intro h; cases h
          · rintro ⟨-, h⟩; exact absurd h c3
        · simp [not_lt.1 c3]

/-- What `calculateBMI` returns for a height of `a` units between 0.5 and 3 and
a weight of `b` units between 20 and 300: a positive finite `float` within a
`2^22`-th of the exact quotient. -/
theorem calculateBMI_close (a b : Nat) (ha1 : F32.one ≤ 2 * a) (ha2 : a ≤ 3 * F32.one)
    (hb1 : 20 * F32.one ≤ b) (hb2 : b ≤ 300 * F32.one) :
    ∃ k : Nat, calculateBMI (F32.finite a) (F32.finite b) = F32.finite (k : Int) ∧ 0 < k ∧
      |F32.toRat (F32.finite k) - F32.toRat (F32.finite b) / F32.toRat (F32.finite a) ^ 2| ≤
        F32.toRat (F32.finite b) / F32.toRat (F32.finite a) ^ 2 / 2 ^ 22 := by
  have hone := F32.one_eq
  have hO : (0 : ℚ) < (F32.one : ℚ) := by rw [hone]; norm_num
  have hapos : 0 < a := by rw [hone] at ha1; omega
  have hbpos : 0 < b := by rw [hone] at hb1; omega
  have haq : (0 : ℚ) < (a : ℚ) := by exact_mod_cast hapos
  have hbq : (0 : ℚ) < (b : ℚ) := by exact_mod_cast hbpos
  obtain ⟨p, hp, hp1, hp2, hpq⟩ := F32.mul_self_close a ha1 ha2
  obtain ⟨k, hk, hkpos, hkq⟩ := F32.div_close b p hb1 hb2 hp1 hp2
  have hppos : 0 < p := lt_of_lt_of_le (by norm_num) hp1
  have hpq0 : (0 : ℚ) < (p : ℚ) := by exact_mod_cast hppos
  refine ⟨k, ?_, hkpos, ?_⟩
  · have e1 : F32.positive (F32.finite (a : Int)) = true := by
      simp [F32.positive, hapos]
    have e2 : F32.positive (F32.finite (b : Int)) = true := by
      simp [F32.positive, hbpos]
    simp only [calculateBMI, e1, e2, Bool.and_self, if_true, hp, hk]
  · simp only [F32.toRat, Int.cast_natCast]
    apply two_roundings ((b : ℚ) / F32.one) (((a : ℚ) / F32.one) ^ 2) ((p : ℚ) / F32.one)
      ((k : ℚ) / F32.one) (div_pos hbq hO) (by positivity)
    · have e : (p : ℚ) / F32.one - ((a : ℚ) / F32.one) ^ 2 =
          ((p : ℚ) - ((a : ℚ) * a) / F32.one) / F32.one := by
        field_simp
        ring
      have e2 : ((a : ℚ) / F32.one) ^ 2 / 2 ^ 24 =
          (((a : ℚ) * a) / F32.one / 2 ^ 24) / F32.one := by
        field_simp
        ring
      rw [e, e2, abs_div, abs_of_pos hO]
      exact div_le_div_of_nonneg_right hpq hO.le
    · have e : (k : ℚ) / F32.one - (b : ℚ) / F32.one / ((p : ℚ) / F32.one) =
          ((k : ℚ) - ((b : ℚ) * F32.one) / p) / F32.one := by
        field_simp
        ring
      have e2 : (b : ℚ) / F32.one / ((p : ℚ) / F32.one) / 2 ^ 24 =
          (((b : ℚ) * F32.one) / p / 2 ^ 24) / F32.one := by
        field_simp
        ring
      rw [e, e2, abs_div, abs_of_pos hO]
      exact div_le_div_of_nonneg_right hkq hO.le

set_option maxRecDepth 100000 in
/-- C21. `calculateBMI` is the `float` quotient `weight_kg / (height_m * height_m)`
when both fields are greater than 0 and 0 otherwise; for a height between 0.5 and
3 and a weight between 20 and 300, the ranges the menu accepts (`a` and `b` units
of `2^-149`), the result is a finite `float` greater than 0 and within a
`2^22`-th of the exact quotient `weight_kg / height_m^2`.  `provideBmiFeedback`
reports Underweight exactly below 18.5, Normal Weight exactly from 18.5 to below
25, Overweight exactly from 25 to below 30 and Obese exactly from 30 on, so the
four bands are exhaustive and exclusive (`+inf` is Obese, `-inf` Underweight, and
a NaN falls to the last branch).  Height 1.8 with weight 81 gives the `float`
13107201 / 2^19, about 25.000002, Overweight, and height 1.7 with weight 50 gives
4535363 / 2^18, about 17.301, Underweight. -/
theorem bmi_and_category (a b : Nat) (ha1 : F32.one ≤ 2 * a) (ha2 : a ≤ 3 * F32.one)
    (hb1 : 20 * F32.one ≤ b) (hb2 : b ≤ 300 * F32.one) :
    (∀ h w : F32, calculateBMI h w =
      if h.positive && w.positive then F32.div w (F32.mul h h) else F32.finite 0) ∧
    (∃ k : Nat, calculateBMI (F32.finite a) (F32.finite b) = F32.finite (k : Int) ∧ 0 < k ∧
      |F32.toRat (F32.finite k) - F32.toRat (F32.finite b) / F32.toRat (F32.finite a) ^ 2| ≤
        F32.toRat (F32.finite b) / F32.toRat (F32.finite a) ^ 2 / 2 ^ 22) ∧
    (∀ k : Int,
      (provideBmiFeedback (F32.finite k) = BmiCategory.Underweight ↔
        F32.toRat (F32.finite k) < 37 / 2) ∧
      (provideBmiFeedback (F32.finite k) = BmiCategory.NormalWeight ↔
        37 / 2 ≤ F32.toRat (F32.finite k) ∧ F32.toRat (F32.finite k) < 25) ∧
      (provideBmiFeedback (F32.finite k) = BmiCategory.Overweight ↔
        25 ≤ F32.toRat (F32.finite k) ∧ F32.toRat (F32.finite k) < 30) ∧
      (provideBmiFeedback (F32.finite k) = BmiCategory.Obese ↔
        30 ≤ F32.toRat (F32.finite k))) ∧
    (provideBmiFeedback (F32.infinity false) = BmiCategory.Obese ∧
      provideBmiFeedback (F32.infinity true) = BmiCategory.Underweight ∧
      provideBmiFeedback F32.nan = BmiCategory.Obese) ∧
    (F32.ofDecimal 9 5 = F32.finite (7549747 * 2 ^ 127) ∧
      calculateBMI (F32.ofDecimal 9 5) (F32.ofInt 81) = F32.finite (13107201 * 2 ^ 130) ∧
      provideBmiFeedback (calculateBMI (F32.ofDecimal 9 5) (F32.ofInt 81)) =
        BmiCategory.Overweight) ∧
    (F32.ofDecimal 17 10 = F32.finite (7130317 * 2 ^ 127) ∧
      calculateBMI (F32.ofDecimal 17 10) (F32.ofInt 50) = F32.finite (4535363 * 2 ^ 131) ∧
      provideBmiFeedback (calculateBMI (F32.ofDecimal 17 10) (F32.ofInt 50)) =
        BmiCategory.Underweight) := by
  refine ⟨fun h w => ?_, calculateBMI_close a b ha1 ha2 hb1 hb2, provideBmiFeedback_bands,
    by decide, by decide, by decide⟩
  simp [calculateBMI, F32.ofInt]

set_option maxRecDepth 100000 in
/-- The BMI theorem at height 1.8 (the `float` 7549747 / 2^22) and weight 81. -/
theorem bmi_and_category_witness :
    (F32.one ≤ 2 * (7549747 * 2 ^ 127) ∧ 7549747 * 2 ^ 127 ≤ 3 * F32.one ∧
      20 * F32.one ≤ 81 * F32.one ∧ 81 * F32.one ≤ 300 * F32.one) ∧
    ((∀ h w : F32, calculateBMI h w =
      if h.positive && w.positive then F32.div w (F32.mul h h) else F32.finite 0) ∧
    (∃ k : Nat, calculateBMI (F32.finite ((7549747 * 2 ^ 127 : Nat) : Int))
        (F32.finite ((81 * F32.one : Nat) : Int)) = F32.finite (k : Int) ∧ 0 < k ∧
      |F32.toRat (F32.finite k) - F32.toRat (F32.finite ((81 * F32.one : Nat) : Int)) /
          F32.toRat (F32.finite ((7549747 * 2 ^ 127 : Nat) : Int)) ^ 2| ≤
        F32.toRat (F32.finite ((81 * F32.one : Nat) : Int)) /
          F32.toRat (F32.finite ((7549747 * 2 ^ 127 : Nat) : Int)) ^ 2 / 2 ^ 22) ∧
    (∀ k : Int,
      (provideBmiFeedback (F32.finite k) = BmiCategory.Underweight ↔
        F32.toRat (F32.finite k) < 37 / 2) ∧
      (provideBmiFeedback (F32.finite k) = BmiCategory.NormalWeight ↔
        37 / 2 ≤ F32.toRat (F32.finite k) ∧ F32.toRat (F32.finite k) < 25) ∧
      (provideBmiFeedback (F32.finite k) = BmiCategory.Overweight ↔
        25 ≤ F32.toRat (F32.finite k) ∧ F32.toRat (F32.finite k) < 30) ∧
      (provideBmiFeedback (F32.finite k) = BmiCategory.Obese ↔
        30 ≤ F32.toRat (F32.finite k))) ∧
    (provideBmiFeedback (F32.infinity false) = BmiCategory.Obese ∧
      provideBmiFeedback (F32.infinity true) = BmiCategory.Underweight ∧
      provideBmiFeedback F32.nan = BmiCategory.Obese) ∧
    (F32.ofDecimal 9 5 = F32.finite (7549747 * 2 ^ 127) ∧
      calculateBMI (F32.ofDecimal 9 5) (F32.ofInt 81) = F32.finite (13107201 * 2 ^ 130) ∧
      provideBmiFeedback (calculateBMI (F32.ofDecimal 9 5) (F32.ofInt 81)) =
        BmiCategory.Overweight) ∧
    (F32.ofDecimal 17 10 = F32.finite (7130317 * 2 ^ 127) ∧
      calculateBMI (F32.ofDecimal 17 10) (F32.ofInt 50) = F32.finite (4535363 * 2 ^ 131) ∧
      provideBmiFeedback (calculateBMI (F32.ofDecimal 17 10) (F32.ofInt 50)) =
        BmiCategory.Underweight)) :=
  ⟨by decide, bmi_and_category (7549747 * 2 ^ 127) (81 * F32.one)
    (by decide) (by decide) (by decide) (by decide)⟩

/-! ## Schedule views: sorting -/

theorem sortInsert_perm (c : GymClass) (l : List GymClass) :
    (sortBySchedule.insert c l).Perm (c :: l) := by
  induction l with
  | nil => exact List.Perm.refl _
  | cons d rest ih =>
    rw [sortBySchedule.insert]
    split_ifs
    · exact List.Perm.refl _
    · exact (List.Perm.cons d ih).trans (List.Perm.swap c d rest)

theorem sortLoop_perm (l : List GymClass) :
    ∀ sorted : List GymClass, (sortBySchedule.loop sorted l).Perm (sorted ++ l) := by
  induction l with
  | nil => intro sorted; simp [sortBySchedule.loop]
  | cons c rest ih =>
    intro sorted
    rw [sortBySchedule.loop]
    refine (ih _).trans ?_
    refine ((sortInsert_perm c sorted).append_right rest).trans ?_
    simp only [List.cons_append]
    exact List.perm_middle.symm

theorem sortInsert_sorted (c : GymClass) (l : List GymClass)
    (h : l.Pairwise (fun a b => a.schedule.data ≤ b.schedule.data)) :
    (sortBySchedule.insert c l).Pairwise (fun a b => a.schedule.data ≤ b.schedule.data) := by
  induction l with
  | nil => simp [sortBySchedule.insert]
  | cons d rest ih =>
    obtain ⟨hd, hrest⟩ := List.pairwise_cons.1 h
    rw [sortBySchedule.insert]
    split_ifs with hlt
    · refine List.pairwise_cons.2 ⟨?_, h⟩
      intro x hx
      rcases List.mem_cons.1 hx with rfl | hx
      · exact le_of_lt hlt
      · exact le_trans (le_of_lt hlt) (hd x hx)
    · refine List.pairwise_cons.2 ⟨?_, ih hrest⟩
      intro x hx
      rcases List.mem_cons.1 ((sortInsert_perm c rest).subset hx) with rfl | hx
      · exact not_lt.1 hlt
      · exact hd x hx

theorem sortLoop_sorted (l : List GymClass) :
    ∀ sorted : List GymClass,
      sorted.Pairwise (fun a b => a.schedule.data ≤ b.schedule.data) →
      (sortBySchedule.loop sorted l).Pairwise (fun a b => a.schedule.data ≤ b.schedule.data) := by
  induction l with
  | nil => intro sorted h; exact h
  | cons c rest ih =>
    intro sorted h
    rw [sortBySchedule.loop]
    exact ih _ (sortInsert_sorted c sorted h)

/-- What `std::sort` guarantees, for the model: a permutation of the classes,
ascending by the schedule text. -/
theorem sortBySchedule_spec (classes : List GymClass) :
    (sortBySchedule classes).Perm classes ∧
    (sortBySchedule classes).Pairwise (fun a b => a.schedule.data ≤ b.schedule.data) :=
  ⟨by simpa using sortLoop_perm classes [], sortLoop_sorted classes [] List.Pairwise.nil⟩

theorem dayRows_shown (day : String) (sorted : List GymClass) :
    (dayRows day sorted).map (fun row => row.shown) = sorted.filter (startsWithDay day) := by
  simp [dayRows, List.map_map, Function.comp_def]

/-- The rows printed for a day from a vector that `std::sort` left: they show
the classes of that day, each once, ascending by the schedule text, each with
the text after the first `-` as its time. -/
theorem dayRows_spec (classes sorted : List GymClass) (day : String)
    (hperm : sorted.Perm classes)
    (hsorted : sorted.Pairwise (fun a b => ¬ scheduleLess b a)) :
    ((dayRows day sorted).map (fun row => row.shown)).Perm
      (classes.filter (startsWithDay day)) ∧
    ((dayRows day sorted).map (fun row => row.shown)).Pairwise
      (fun a b => a.schedule ≤ b.schedule) ∧
    ∀ row ∈ dayRows day sorted, row.time = timeOf row.shown.schedule := by
  have hle : sorted.Pairwise (fun a b => a.schedule ≤ b.schedule) :=
    hsorted.imp (fun h => String.le_iff_toList_le.2 (not_lt.1 h))
  refine ⟨?_, ?_, ?_⟩
  · rw [dayRows_shown]
    exact hperm.filter _
  · rw [dayRows_shown]
    exact hle.sublist (List.filter_sublist _)
  · intro row hrow
    unfold dayRows at hrow
    obtain ⟨c, _, rfl⟩ := List.mem_map.1 hrow
    rfl

theorem sortBySchedule_stdSort (classes : List GymClass) :
    (sortBySchedule classes).Perm classes ∧
    (sortBySchedule classes).Pairwise (fun a b => ¬ scheduleLess b a) :=
  ⟨(sortBySchedule_spec classes).1,
    (sortBySchedule_spec classes).2.imp (fun h => not_lt.2 h)⟩

/-- C22, refuted as stated: of a Monday class and a Friday class the sorted
vector has `Fri-09:00` first, but the weekly view lists `Mon-10:00` before
`Fri-09:00`, which is not ascending by the schedule text, and the daily view
of a Monday lists the Monday class alone, which is not a permutation of the
loaded classes. -/
theorem schedule_views_order_counterexample :
    (mondayClass.schedule = "Mon-10:00" ∧ fridayClass.schedule = "Fri-09:00") ∧
    sortBySchedule [mondayClass, fridayClass] = [fridayClass, mondayClass] ∧
    (displayWeeklySchedule [mondayClass, fridayClass]).flatMap
        (fun sec => sec.2.map (fun row => row.shown)) = [mondayClass, fridayClass] ∧
    ¬ ((displayWeeklySchedule [mondayClass, fridayClass]).flatMap
        (fun sec => sec.2.map (fun row => row.shown))).Chain'
          (fun a b => a.schedule ≤ b.schedule) ∧
    (displayDailySchedule 1 [mondayClass, fridayClass]).map (fun row => row.shown) =
      [mondayClass] ∧
    ¬ ((displayDailySchedule 1 [mondayClass, fridayClass]).map
        (fun row => row.shown)).Perm [mondayClass, fridayClass] := by
  have hweek : (displayWeeklySchedule [mondayClass, fridayClass]).flatMap
      (fun sec => sec.2.map (fun row => row.shown)) = [mondayClass, fridayClass] := by decide
  have hday : (displayDailySchedule 1 [mondayClass, fridayClass]).map (fun row => row.shown) =
      [mondayClass] := by decide
  refine ⟨by decide, by decide, hweek, ?_, hday, ?_⟩
  · rw [hweek, List.chain'_pair, String.le_iff_toList_le]
    decide
  · rw [hday]
    intro h
    have := h.length_eq
    simp at this

/-- C22, amended.  Both views sort the loaded classes with `std::sort` ascending
by the raw schedule text, compared character by character; `sorted` is the
vector it leaves, a permutation of the classes in which no class has a
schedule less than that of a class before it, whatever the order of classes
with equal schedules.  Every adjacent pair of it satisfies
`a.schedule <= b.schedule`.  Neither view lists that vector as it is: the rows
printed for a day are the classes whose schedule starts with the day, each
once, ascending by the schedule text, with the text after the first `-` as
the time.  The daily view prints the rows of today and the weekly view, when
there is a class, the rows of Mon, Tue, Wed, Thu, Fri, Sat and Sun under
their headings in that order; the insertion sort of the model leaves such a
vector.  Of a Monday class and a Friday class the sorted vector has
`Fri-09:00` first, which is not the order of the week, and the weekly view
lists `Mon-10:00` first. -/
theorem schedule_views_order (classes sorted : List GymClass) (tm_wday : Fin 7)
    (hperm : sorted.Perm classes)
    (hsorted : sorted.Pairwise (fun a b => ¬ scheduleLess b a)) :
    sorted.Chain' (fun a b => a.schedule ≤ b.schedule) ∧
    (∀ day : String,
      ((dayRows day sorted).map (fun row => row.shown)).Perm
        (classes.filter (startsWithDay day)) ∧
      ((dayRows day sorted).map (fun row => row.shown)).Pairwise
        (fun a b => a.schedule ≤ b.schedule) ∧
      ∀ row ∈ dayRows day sorted, row.time = timeOf row.shown.schedule) ∧
    ((sortBySchedule classes).Perm classes ∧
      (sortBySchedule classes).Pairwise (fun a b => ¬ scheduleLess b a)) ∧
    (((displayDailySchedule tm_wday classes).map (fun row => row.shown)).Perm
        (classes.filter
          (startsWithDay (["Sun", "Mon", "Tue", "Wed", "Thu", "Fri", "Sat"].get tm_wday))) ∧
      ((displayDailySchedule tm_wday classes).map (fun row => row.shown)).Pairwise
        (fun a b => a.schedule ≤ b.schedule) ∧
      ∀ row ∈ displayDailySchedule tm_wday classes, row.time = timeOf row.shown.schedule) ∧
    ((displayWeeklySchedule classes).map (fun sec => sec.1) =
        (if classes = [] then [] else ["Mon", "Tue", "Wed", "Thu", "Fri", "Sat", "Sun"]) ∧
      ∀ sec ∈ displayWeeklySchedule classes,
        (sec.2.map (fun row => row.shown)).Perm (classes.filter (startsWithDay sec.1)) ∧
        (sec.2.map (fun row => row.shown)).Pairwise (fun a b => a.schedule ≤ b.schedule) ∧
        ∀ row ∈ sec.2, row.time = timeOf row.shown.schedule) ∧
    ((mondayClass.schedule = "Mon-10:00" ∧ fridayClass.schedule = "Fri-09:00") ∧
      sortBySchedule [mondayClass, fridayClass] = [fridayClass, mondayClass] ∧
      dayOfWeek mondayClass.schedule < dayOfWeek fridayClass.schedule ∧
      (displayWeeklySchedule [mondayClass, fridayClass]).flatMap
        (fun sec => sec.2.map (fun row => row.shown)) = [mondayClass, fridayClass]) := by
  obtain ⟨mperm, msorted⟩ := sortBySchedule_stdSort classes
  refine ⟨?_, fun day => dayRows_spec classes sorted day hperm hsorted, ⟨mperm, msorted⟩,
    dayRows_spec classes _ _ mperm msorted, ⟨?_, ?_⟩, by decide⟩
  · exact List.Pairwise.chain'
      (hsorted.imp (fun h => String.le_iff_toList_le.2 (not_lt.1 h)))
  · unfold displayWeeklySchedule
    by_cases hempty : classes = []
    · subst hempty
      simp
    · have hne : classes.isEmpty = false := by
        cases classes with
        | nil => exact absurd rfl hempty
        | cons c cs => rfl
      rw [if_neg hempty]
      simp only [hne, Bool.false_eq_true, if_false, List.map_map]
      exact List.map_id _
  · intro sec hsec
    unfold displayWeeklySchedule at hsec
    split_ifs at hsec
    · simp at hsec
    · obtain ⟨day, _, rfl⟩ := List.mem_map.1 hsec
      exact dayRows_spec classes _ day mperm msorted

/-- C22 amended, at five classes of which two have the schedule `Mon-10:00`; the
sorted vector taken has them in the other order than the loaded list. -/
theorem schedule_views_order_witness :
    (([fridayClass, ⟨"Spin", "Mon-09:30", "Casey", CInt.wrap 12, CInt.wrap 0, []⟩,
        ⟨"HIIT", "Mon-10:00", "Casey", CInt.wrap 15, CInt.wrap 0, []⟩, mondayClass,
        ⟨"Barre", "Sun-08:00", "Casey", CInt.wrap 8, CInt.wrap 0, []⟩] :
          List GymClass).Perm weekClasses ∧
      ([fridayClass, ⟨"Spin", "Mon-09:30", "Casey", CInt.wrap 12, CInt.wrap 0, []⟩,
        ⟨"HIIT", "Mon-10:00", "Casey", CInt.wrap 15, CInt.wrap 0, []⟩, mondayClass,
        ⟨"Barre", "Sun-08:00", "Casey", CInt.wrap 8, CInt.wrap 0, []⟩] :
          List GymClass).Pairwise (fun a b => ¬ scheduleLess b a) ∧
      (displayDailySchedule 1 weekClasses).map (fun row => (row.time, row.shown.className)) =
        [("09:30", "Spin"), ("10:00", "Yoga"), ("10:00", "HIIT")]) ∧
    (displayDailySchedule 1 weekClasses).map (fun row => row.shown) ≠ [] ∧
    (((displayDailySchedule 1 weekClasses).map (fun row => row.shown)).Perm
        (weekClasses.filter
          (startsWithDay (["Sun", "Mon", "Tue", "Wed", "Thu", "Fri", "Sat"].get (1 : Fin 7)))) ∧
      ((displayDailySchedule 1 weekClasses).map (fun row => row.shown)).Pairwise
        (fun a b => a.schedule ≤ b.schedule) ∧
      ∀ row ∈ displayDailySchedule 1 weekClasses, row.time = timeOf row.shown.schedule) :=
  ⟨by decide, by decide,
    (schedule_views_order weekClasses
      [fridayClass, ⟨"Spin", "Mon-09:30", "Casey", CInt.wrap 12, CInt.wrap 0, []⟩,
        ⟨"HIIT", "Mon-10:00", "Casey", CInt.wrap 15, CInt.wrap 0, []⟩, mondayClass,
        ⟨"Barre", "Sun-08:00", "Casey", CInt.wrap 8, CInt.wrap 0, []⟩]
      1 (by decide) (by decide)).2.2.2.1⟩

/-! ## Schedule views: the week -/

/-- The shape of a well-formed schedule: a day of the week, a dash, two digits
for an hour up to 23, a colon and two digits for a minute up to 59. -/
theorem wellFormed_shape (s : String) (h : wellFormedSchedule s = true) :
    ∃ day ∈ weekDays, ∃ h1 h2 m1 m2 : Char,
      s.data = day.data ++ ['-', h1, h2, ':', m1, m2] ∧
      (48 ≤ h1.toNat ∧ h1.toNat ≤ 50) ∧ (48 ≤ h2.toNat ∧ h2.toNat ≤ 57) ∧
      10 * (h1.toNat - 48) + (h2.toNat - 48) ≤ 23 ∧
      (48 ≤ m1.toNat ∧ m1.toNat ≤ 53) ∧ (48 ≤ m2.toNat ∧ m2.toNat ≤ 57) := by
  unfold wellFormedSchedule at h
  split at h
  · rename_i d1 d2 d3 dash h1 h2 colon m1 m2 hdata
    simp only [Bool.and_eq_true, Bool.or_eq_true, beq_iff_eq] at h
    obtain ⟨⟨⟨⟨⟨hday, hdash⟩, hcolon⟩, hhour⟩, hm1⟩, hm2⟩ := h
    subst hdash hcolon
    refine ⟨String.mk [d1, d2, d3], List.elem_iff.1 hday, h1, h2, m1, m2, by rw [hdata]; rfl, ?_⟩
    obtain ⟨d, hd, rfl⟩ := isDigit_cases m2 hm2
    have hm2n := (digitChar_facts d hd).2.1
    have hm1n : 48 ≤ m1.toNat ∧ m1.toNat ≤ 53 := by
      rcases hm1 with ((((rfl | rfl) | rfl) | rfl) | rfl) | rfl <;> decide
    have hhourn : (48 ≤ h1.toNat ∧ h1.toNat ≤ 50) ∧ (48 ≤ h2.toNat ∧ h2.toNat ≤ 57) ∧
        10 * (h1.toNat - 48) + (h2.toNat - 48) ≤ 23 := by
      rcases hhour with ⟨h1c, h2d⟩ | ⟨rfl, h2c⟩
      · obtain ⟨e, he, rfl⟩ := isDigit_cases h2 h2d
        have := (digitChar_facts e he).2.1
        rcases h1c with rfl | rfl
        · refine ⟨by decide, by omega, ?_⟩
          rw [this]
          have : ('0' : Char).toNat = 48 := rfl
          omega
        · refine ⟨by decide, by omega, ?_⟩
          rw [this]
          have : ('1' : Char).toNat = 49 := rfl
          omega
      · rcases h2c with ((rfl | rfl) | rfl) | rfl <;> decide
    exact ⟨hhourn.1, hhourn.2.1, hhourn.2.2, hm1n, by omega⟩
  · exact absurd h (by simp)

theorem weekDays_length : ∀ d ∈ weekDays, d.data.length = 3 := by decide

/-- A well-formed schedule starts with one day of the week only, its own. -/
theorem startsWithDay_iff (d : String) (hd : d ∈ weekDays) (c : GymClass)
    (h : wellFormedSchedule c.schedule = true) :
    (startsWithDay d c = true ↔ d = dayOf c.schedule) ∧ dayOf c.schedule ∈ weekDays := by
  obtain ⟨day, hday, h1, h2, m1, m2, hdata, _⟩ := wellFormed_shape _ h
  have hlen := weekDays_length day hday
  have hdayOf : dayOf c.schedule = day := by
    unfold dayOf
    rw [hdata, ← hlen, List.take_left']
    rfl
  refine ⟨?_, by rw [hdayOf]; exact hday⟩
  rw [hdayOf]
  unfold startsWithDay
  rw [List.isPrefixOf_iff_prefix, List.prefix_iff_eq_take, hdata, weekDays_length d hd, ← hlen,
    List.take_left']
  · constructor
    · intro e
      exact String.ext e
    · intro e
      rw [e]
  · rfl

theorem flatMap_filter_cons {α δ : Type} (p : δ → α → Bool) (x : α) (l : List α) :
    ∀ ds : List δ, (ds.filter (fun d => p d x)).length = 1 →
      (ds.flatMap (fun d => (x :: l).filter (p d))).Perm
        (x :: ds.flatMap (fun d => l.filter (p d))) := by
  intro ds
  induction ds with
  | nil => intro h; simp at h
  | cons d ds ih =>
    intro h
    rw [List.flatMap_cons, List.flatMap_cons]
    by_cases hp : p d x = true
    · have hx : (x :: l).filter (p d) = x :: l.filter (p d) := List.filter_cons_of_pos hp
      have h : ((ds.filter (fun d => p d x)).length + 1 = 1) := by
        simpa [List.filter_cons, hp] using h
      rw [hx]
      have hnone : ∀ e ∈ ds, p e x = false := by
        intro e he
        by_contra hpe
        have : e ∈ ds.filter (fun d => p d x) := List.mem_filter.2 ⟨he, by simpa using hpe⟩
        have hpos := List.length_pos_of_mem this
        omega
      have hsame : ds.flatMap (fun d => (x :: l).filter (p d)) =
          ds.flatMap (fun d => l.filter (p d)) := by
        apply List.flatMap_congr
        intro e he
        have := hnone e he
        rw [List.filter_cons_of_neg (by simp [this])]
      rw [hsame]
      exact List.Perm.refl _
    · have hx : (x :: l).filter (p d) = l.filter (p d) := List.filter_cons_of_neg hp
      have h : (ds.filter (fun d => p d x)).length = 1 := by
        simpa [List.filter_cons, hp] using h
      rw [hx]
      exact (List.Perm.append_left _ (ih h)).trans List.perm_middle

/-- Sorting a list into boxes of which every element fits exactly one loses and
repeats nothing. -/
theorem flatMap_filter_perm {α δ : Type} (ds : List δ) (p : δ → α → Bool) (l : List α)
    (h : ∀ x ∈ l, (ds.filter (fun d => p d x)).length = 1) :
    (ds.flatMap (fun d => l.filter (p d))).Perm l := by
  induction l with
  | nil => simp
  | cons x l ih =>
    exact (flatMap_filter_cons p x l ds (h x (List.mem_cons_self _ _))).trans
      (List.Perm.cons x (ih (fun y hy => h y (List.mem_cons_of_mem _ hy))))

theorem weekDays_filter_length (c : GymClass) (h : wellFormedSchedule c.schedule = true) :
    (weekDays.filter (fun d => startsWithDay d c)).length = 1 := by
  have hiff : ∀ d ∈ weekDays, startsWithDay d c = decide (d = dayOf c.schedule) := by
    intro d hd
    have := (startsWithDay_iff d hd c h).1
    by_cases e : d = dayOf c.schedule
    · rw [this.2 e]
      exact (decide_eq_true e).symm
    · have hf : startsWithDay d c = false := by
        by_contra hc
        exact e (this.1 (by simpa using hc))
      rw [hf]
      exact (decide_eq_false e).symm
  have hmem := (startsWithDay_iff "Mon" (by decide) c h).2
  rw [List.filter_congr hiff]
  generalize dayOf c.schedule = day at hmem
  revert day
  decide

/-- The parts of a well-formed schedule: its day, its time text and its minute
of the day. -/
theorem wellFormed_parts (s : String) (h : wellFormedSchedule s = true) :
    ∃ d1 d2 d3 h1 h2 m1 m2 : Char,
      s.data = [d1, d2, d3, '-', h1, h2, ':', m1, m2] ∧
      dayOf s = String.mk [d1, d2, d3] ∧ dayOf s ∈ weekDays ∧
      timeOf s = String.mk [h1, h2, ':', m1, m2] ∧
      minuteOfDay s =
        60 * (10 * (h1.toNat - 48) + (h2.toNat - 48)) +
          (10 * (m1.toNat - 48) + (m2.toNat - 48)) ∧
      (48 ≤ h1.toNat ∧ h1.toNat ≤ 50) ∧ (48 ≤ h2.toNat ∧ h2.toNat ≤ 57) ∧
      10 * (h1.toNat - 48) + (h2.toNat - 48) ≤ 23 ∧
      (48 ≤ m1.toNat ∧ m1.toNat ≤ 53) ∧ (48 ≤ m2.toNat ∧ m2.toNat ≤ 57) := by
  obtain ⟨day, hday, h1, h2, m1, m2, hdata, b1, b2, b3, b4, b5⟩ := wellFormed_shape s h
  have hcases : day = "Mon" ∨ day = "Tue" ∨ day = "Wed" ∨ day = "Thu" ∨ day = "Fri" ∨
      day = "Sat" ∨ day = "Sun" := by
    simpa [weekDays] using hday
  have hshape : ∃ d1 d2 d3 : Char, day.data = [d1, d2, d3] ∧ d1 ≠ '-' ∧ d2 ≠ '-' ∧ d3 ≠ '-' := by
    rcases hcases with rfl | rfl | rfl | rfl | rfl | rfl | rfl <;>
      exact ⟨_, _, _, rfl, by decide, by decide, by decide⟩
  obtain ⟨d1, d2, d3, hd, n1, n2, n3⟩ := hshape
  have hdata2 : s.data = [d1, d2, d3, '-', h1, h2, ':', m1, m2] := by
    rw [hdata, hd]; rfl
  have hdayOf : dayOf s = day := by
    unfold dayOf
    rw [hdata2]
    exact String.ext (by rw [hd]; rfl)
  refine ⟨d1, d2, d3, h1, h2, m1, m2, hdata2, ?_, ?_, ?_, ?_, b1, b2, b3, b4, b5⟩
  · unfold dayOf
    rw [hdata2]
    rfl
  · rw [hdayOf]; exact hday
  · unfold timeOf
    rw [hdata2]
    simp [untilDelim, n1, n2, n3]
  · unfold minuteOfDay
    rw [hdata2]

/-- On one day, the order of the schedule texts is the order of the times. -/
theorem minuteOfDay_le_of_schedule_le (a b : String)
    (ha : wellFormedSchedule a = true) (hb : wellFormedSchedule b = true)
    (hday : dayOf a = dayOf b) (hle : a.data ≤ b.data) :
    minuteOfDay a ≤ minuteOfDay b := by
  obtain ⟨a1, a2, a3, p1, p2, p3, p4, adata, aday, _, _, amin, ab1, ab2, _, ab4, ab5⟩ :=
    wellFormed_parts a ha
  obtain ⟨b1, b2, b3, q1, q2, q3, q4, bdata, bday, _, _, bmin, bb1, bb2, _, bb4, bb5⟩ :=
    wellFormed_parts b hb
  rw [aday, bday] at hday
  have hinj : [a1, a2, a3] = [b1, b2, b3] := congrArg String.data hday
  simp only [List.cons.injEq, and_true] at hinj
  obtain ⟨rfl, rfl, rfl⟩ := hinj
  by_contra hnot
  rw [amin, bmin] at hnot
  apply not_lt.2 hle
  rw [adata, bdata]
  refine List.Lex.cons (List.Lex.cons (List.Lex.cons (List.Lex.cons ?_)))
  rcases lt_trichotomy q1 p1 with h | rfl | h
  · exact List.Lex.rel h
  · refine List.Lex.cons ?_
    rcases lt_trichotomy q2 p2 with h | rfl | h
    · exact List.Lex.rel h
    · refine List.Lex.cons (List.Lex.cons ?_)
      rcases lt_trichotomy q3 p3 with h | rfl | h
      · exact List.Lex.rel h
      · refine List.Lex.cons ?_
        rcases lt_trichotomy q4 p4 with h | rfl | h
        · exact List.Lex.rel h
        · omega
        · have : p4.toNat < q4.toNat := h
          omega
      · have : p3.toNat < q3.toNat := h
        omega
    · have : p2.toNat < q2.toNat := h
      omega
  · have : p1.toNat < q1.toNat := h
    omega

theorem minuteOfDay_lt (s : String) (h : wellFormedSchedule s = true) : minuteOfDay s < 1440 := by
  obtain ⟨_, _, _, h1, h2, m1, m2, _, _, _, _, hmin, _, _, b3, b4, b5⟩ := wellFormed_parts s h
  rw [hmin]
  omega

theorem timeOf_eq_drop (s : String) (h : wellFormedSchedule s = true) :
    timeOf s = String.mk (s.data.drop 4) := by
  obtain ⟨_, _, _, h1, h2, m1, m2, hdata, _, _, htime, _⟩ := wellFormed_parts s h
  rw [htime, hdata]
  rfl

/-- The lines under the days, for any ascending permutation of well-formed
classes: each class under its own day, the times ascending within a day and
the days in the order of the week. -/
theorem weekRows_calendar (sorted : List GymClass)
    (hwf : ∀ c ∈ sorted, wellFormedSchedule c.schedule = true)
    (hsorted : sorted.Pairwise (fun a b => a.schedule.data ≤ b.schedule.data)) :
    (weekDays.flatMap (fun d => sorted.filter (startsWithDay d))).Perm sorted ∧
    (∀ d ∈ weekDays, ∀ c ∈ sorted.filter (startsWithDay d), dayOf c.schedule = d) ∧
    (∀ d ∈ weekDays, (sorted.filter (startsWithDay d)).Pairwise
      (fun a b => minuteOfDay a.schedule ≤ minuteOfDay b.schedule)) ∧
    (weekDays.flatMap (fun d => sorted.filter (startsWithDay d))).Pairwise
      (fun a b => minuteOfWeek a.schedule ≤ minuteOfWeek b.schedule) := by
  have hown : ∀ d ∈ weekDays, ∀ c ∈ sorted.filter (startsWithDay d), dayOf c.schedule = d := by
    intro d hd c hc
    obtain ⟨hc1, hc2⟩ := List.mem_filter.1 hc
    exact ((startsWithDay_iff d hd c (hwf c hc1)).1.1 hc2).symm
  have hday : ∀ d ∈ weekDays, (sorted.filter (startsWithDay d)).Pairwise
      (fun a b => minuteOfDay a.schedule ≤ minuteOfDay b.schedule) := by
    intro d hd
    refine List.Pairwise.imp_of_mem ?_ (hsorted.filter (startsWithDay d))
    intro a b ha hb hle
    exact minuteOfDay_le_of_schedule_le _ _ (hwf a (List.mem_of_mem_filter ha))
      (hwf b (List.mem_of_mem_filter hb)) ((hown d hd a ha).trans (hown d hd b hb).symm) hle
  refine ⟨flatMap_filter_perm weekDays startsWithDay sorted
    (fun c hc => weekDays_filter_length c (hwf c hc)), hown, hday, ?_⟩
  rw [List.pairwise_flatMap]
  refine ⟨?_, ?_⟩
  · intro d hd
    refine List.Pairwise.imp_of_mem ?_ (hday d hd)
    intro a b ha hb hle
    unfold minuteOfWeek dayOfWeek
    rw [hown d hd a ha, hown d hd b hb]
    omega
  · have horder : weekDays.Pairwise (fun d1 d2 => weekDays.indexOf d1 < weekDays.indexOf d2) := by
      decide
    refine List.Pairwise.imp_of_mem ?_ horder
    intro d1 d2 hd1 hd2 hlt x hx y hy
    have hmx := minuteOfDay_lt x.schedule (hwf x (List.mem_of_mem_filter hx))
    unfold minuteOfWeek dayOfWeek
    rw [hown d1 hd1 x hx, hown d2 hd2 y hy]
    omega

/-- C23. For classes whose schedules are all well-formed `Day-HH:MM` texts, the
weekly view has the seven headings Mon, Tue, Wed, Thu, Fri, Sat, Sun in this
order; the classes it lists, taken together, are the loaded classes, each
exactly once; every class stands under the heading of its own day, with its
`HH:MM` as the time; under each heading the times ascend; and the whole
listing ascends in the time of the week counted from Monday 00:00. -/
theorem weekly_view_calendar_order (classes : List GymClass)
    (h : ∀ c ∈ classes, wellFormedSchedule c.schedule = true) :
    (classes ≠ [] →
      (displayWeeklySchedule classes).map (fun sec => sec.1) =
        ["Mon", "Tue", "Wed", "Thu", "Fri", "Sat", "Sun"]) ∧
    ((displayWeeklySchedule classes).flatMap
      (fun sec => sec.2.map (fun row => row.shown))).Perm classes ∧
    (∀ sec ∈ displayWeeklySchedule classes, ∀ row ∈ sec.2,
      dayOf row.shown.schedule = sec.1 ∧
      row.time = String.mk (row.shown.schedule.data.drop 4)) ∧
    (∀ sec ∈ displayWeeklySchedule classes,
      sec.2.Pairwise
        (fun r1 r2 => minuteOfDay r1.shown.schedule ≤ minuteOfDay r2.shown.schedule)) ∧
    ((displayWeeklySchedule classes).flatMap
      (fun sec => sec.2.map (fun row => row.shown))).Pairwise
        (fun a b => minuteOfWeek a.schedule ≤ minuteOfWeek b.schedule) := by
  by_cases hempty : classes = []
  · subst hempty
    simp [displayWeeklySchedule]
  · obtain ⟨hperm, hsorted⟩ := sortBySchedule_spec classes
    have hwf : ∀ c ∈ sortBySchedule classes, wellFormedSchedule c.schedule = true :=
      fun c hc => h c (hperm.subset hc)
    obtain ⟨w1, w2, w3, w4⟩ := weekRows_calendar (sortBySchedule classes) hwf hsorted
    have hview : displayWeeklySchedule classes =
        weekDays.map (fun day => (day, dayRows day (sortBySchedule classes))) := by
      unfold displayWeeklySchedule
      rw [if_neg (by simpa using hempty)]
    have hflat : (displayWeeklySchedule classes).flatMap
        (fun sec => sec.2.map (fun row => row.shown)) =
        weekDays.flatMap (fun d => (sortBySchedule classes).filter (startsWithDay d)) := by
      rw [hview, List.flatMap_map]
      apply List.flatMap_congr
      intro d _
      simp [dayRows, List.map_map, Function.comp_def]
    refine ⟨fun _ => ?_, ?_, ?_, ?_, ?_⟩
    · rw [hview, List.map_map]
      exact List.map_id _
    · rw [hflat]
      exact w1.trans hperm
    · intro sec hsec row hrow
      rw [hview] at hsec
      obtain ⟨d, hd, rfl⟩ := List.mem_map.1 hsec
      obtain ⟨c, hc, rfl⟩ := List.mem_map.1 hrow
      exact ⟨w2 d hd c hc, timeOf_eq_drop _ (hwf c (List.mem_of_mem_filter hc))⟩
    · intro sec hsec
      rw [hview] at hsec
      obtain ⟨d, hd, rfl⟩ := List.mem_map.1 hsec
      exact (List.pairwise_map).2 (w3 d hd)
    · rw [hflat]
      exact w4

/-- C23, at five classes over the week: the Friday class, first in the sorted
list, is listed after the three Monday classes and before the Sunday class. -/
theorem weekly_view_calendar_order_witness :
    ((∀ c ∈ weekClasses, wellFormedSchedule c.schedule = true) ∧
      (sortBySchedule weekClasses).map (fun c => c.schedule) =
        ["Fri-09:00", "Mon-09:30", "Mon-10:00", "Mon-10:00", "Sun-08:00"] ∧
      (displayWeeklySchedule weekClasses).map
          (fun sec => (sec.1, sec.2.map (fun row => (row.time, row.shown.className)))) =
        [("Mon", [("09:30", "Spin"), ("10:00", "Yoga"), ("10:00", "HIIT")]), ("Tue", []),
          ("Wed", []), ("Thu", []), ("Fri", [("09:00", "Pilates")]), ("Sat", []),
          ("Sun", [("08:00", "Barre")])]) ∧
    ((weekClasses ≠ [] →
      (displayWeeklySchedule weekClasses).map (fun sec => sec.1) =
        ["Mon", "Tue", "Wed", "Thu", "Fri", "Sat", "Sun"]) ∧
    ((displayWeeklySchedule weekClasses).flatMap
      (fun sec => sec.2.map (fun row => row.shown))).Perm weekClasses ∧
    (∀ sec ∈ displayWeeklySchedule weekClasses, ∀ row ∈ sec.2,
      dayOf row.shown.schedule = sec.1 ∧
      row.time = String.mk (row.shown.schedule.data.drop 4)) ∧
    (∀ sec ∈ displayWeeklySchedule weekClasses,
      sec.2.Pairwise
        (fun r1 r2 => minuteOfDay r1.shown.schedule ≤ minuteOfDay r2.shown.schedule)) ∧
    ((displayWeeklySchedule weekClasses).flatMap
      (fun sec => sec.2.map (fun row => row.shown))).Pairwise
        (fun a b => minuteOfWeek a.schedule ≤ minuteOfWeek b.schedule)) :=
  ⟨by decide, weekly_view_calendar_order weekClasses (by decide)⟩

/-! ## Sign-up among classes of one name -/

theorem signUpLoop_first (tid : CInt) (cn : String) (c : GymClass) (rest : List GymClass)
    (hname : c.className = cn) :
    signUpForClass.loop tid cn (c :: rest) =
      ((signUpForClass.loop tid cn [c]).1, (signUpForClass.loop tid cn [c]).2 ++ rest) ∧
    (signUpForClass.loop tid cn [c]).2.length = 1 := by
  rw [signUpLoop_cons, signUpLoop_cons, if_pos hname]
  split_ifs <;> simp

/-- C24. When several classes share the name `className`, `signUpForClass` looks
at the first of them only: its report is the one it gives on that class
alone, the classes before it and all the classes after it, those of the same
name included, are left as they are, and only that first class can change.
So when that first class is full the report is `ClassFull`, and when it
lists the trainee the report is `AlreadyEnrolled`, with the store unchanged,
whatever free places a later class of that name has. -/
theorem signUp_first_class_only (trainee : Trainee) (className : String) (s : Store)
    (before after : List GymClass) (c : GymClass)
    (hsplit : s.classes = before ++ c :: after)
    (hfirst : ∀ d ∈ before, d.className ≠ className)
    (hname : c.className = className) :
    signUpForClass trainee className s =
      ((signUpForClass trainee className (Store.mk s.trainees s.trainers [c])).1,
        Store.mk s.trainees s.trainers
          (before ++
            (signUpForClass trainee className (Store.mk s.trainees s.trainers [c])).2.classes ++
            after)) ∧
    (signUpForClass trainee className (Store.mk s.trainees s.trainers [c])).2.classes.length = 1 ∧
    (trainee.membership_package = "Premium" → trainee.id ∈ c.enrolledTraineeIds →
      signUpForClass trainee className s = (SignUpResult.AlreadyEnrolled, s)) ∧
    (trainee.membership_package = "Premium" → trainee.id ∉ c.enrolledTraineeIds →
      ¬ c.enrolled.val < c.capacity.val →
      signUpForClass trainee className s = (SignUpResult.ClassFull, s)) := by
  obtain ⟨trainees, trainers, classes⟩ := s
  simp only at hsplit
  subst hsplit
  have hsplitLoop := signUpLoop_of_split trainee.id className before after c hfirst
  obtain ⟨h1, h2⟩ := signUpLoop_first trainee.id className c after hname
  refine ⟨?_, ?_, ?_, ?_⟩
  · unfold signUpForClass
    by_cases hprem : trainee.membership_package = "Premium"
    · simp only [if_neg (not_not.2 hprem), hsplitLoop, h1, List.append_assoc]
    · simp only [if_pos hprem, List.append_assoc, List.singleton_append]
  · unfold signUpForClass
    by_cases hprem : trainee.membership_package = "Premium"
    · simpa only [if_neg (not_not.2 hprem)] using h2
    · simp only [if_pos hprem, List.length_singleton]
  · intro hprem hmem
    unfold signUpForClass
    rw [if_neg (not_not.2 hprem)]
    simp only [hsplitLoop, signUpLoop_cons, if_pos hname, if_pos hmem]
  · intro hprem hmem hfull
    unfold signUpForClass
    rw [if_neg (not_not.2 hprem)]
    simp only [hsplitLoop, signUpLoop_cons, if_pos hname, if_neg hmem, if_neg hfull]

/-- C24, at a store where the first class named Pilates is full and the second
one has ten free places: Cara, who is in neither, is answered `ClassFull`
and the store is unchanged. -/
theorem signUp_first_class_only_witness :
    (fullThenFreeStore.classes = [barre] ++ pilates :: [yoga, pilatesNoon, yogaEvening] ∧
      (∀ d ∈ [barre], d.className ≠ "Pilates") ∧ pilates.className = "Pilates" ∧
      pilatesNoon.className = "Pilates" ∧ cara.id ∉ pilatesNoon.enrolledTraineeIds ∧
      pilatesNoon.enrolled.val < pilatesNoon.capacity.val ∧
      signUpForClass cara "Pilates" fullThenFreeStore =
        (SignUpResult.ClassFull, fullThenFreeStore) ∧
      signUpForClass cara "Yoga" fullThenFreeStore =
        (SignUpResult.AlreadyEnrolled, fullThenFreeStore)) ∧
    (signUpForClass cara "Pilates" fullThenFreeStore =
      ((signUpForClass cara "Pilates"
          (Store.mk fullThenFreeStore.trainees fullThenFreeStore.trainers [pilates])).1,
        Store.mk fullThenFreeStore.trainees fullThenFreeStore.trainers
          ([barre] ++
            (signUpForClass cara "Pilates"
              (Store.mk fullThenFreeStore.trainees fullThenFreeStore.trainers
                [pilates])).2.classes ++
            [yoga, pilatesNoon, yogaEvening])) ∧
    (signUpForClass cara "Pilates"
      (Store.mk fullThenFreeStore.trainees fullThenFreeStore.trainers
        [pilates])).2.classes.length = 1 ∧
    (cara.membership_package = "Premium" → cara.id ∈ pilates.enrolledTraineeIds →
      signUpForClass cara "Pilates" fullThenFreeStore =
        (SignUpResult.AlreadyEnrolled, fullThenFreeStore)) ∧
    (cara.membership_package = "Premium" → cara.id ∉ pilates.enrolledTraineeIds →
      ¬ pilates.enrolled.val < pilates.capacity.val →
      signUpForClass cara "Pilates" fullThenFreeStore =
        (SignUpResult.ClassFull, fullThenFreeStore))) :=
  ⟨by decide,
    signUp_first_class_only cara "Pilates" fullThenFreeStore [barre]
      [yoga, pilatesNoon, yogaEvening] pilates (by decide) (by decide) (by decide)⟩

end GMS
